import Mathlib

/-!
# Cactus core: filter-then-merge, the annealing driver and the flower materialiser

A shallow embedding of `core/impl/cactus_core.c` and of `stCaf/impl/finishing.c`.

Conventions of the embedding.

* C integers (`int32_t`, `int64_t` names) are mathematical integers `Int`.
  Signed overflow is undefined behaviour in C, so the embedding describes the
  program on inputs whose arithmetic stays inside the machine range. Where a
  statement reaches an overflow, the function has a second embedding, named
  with `Int32`, in which the result of every `int32_t` operation wraps around.
* C `float` values are exact rationals `ℚ`: every statement about them is a
  statement about the arithmetic taken exactly, without rounding. Where a
  statement is about the values that the machine holds, the pipeline has a
  second embedding, named with `Float`, in which every value stored in a
  `float` passes through the rounding of the machine, a parameter `toFloat`.
* A C string is the list of its characters before the terminating NUL.
* `assert` is active: a failed assertion aborts the program, which the
  embedding renders as `Except.error` carrying the assertion site.
* Functions of other modules (pinch graph, cactus graph, block filter,
  flower store) are parameters of the embedding.
-/

namespace Cactus

/-- The places where the embedded code can stop without returning. Every
constructor but the last is an `assert` of `cactus_core.c`; the last one is
not a behaviour of the program, it marks a loop of the embedding that was cut
off by its step budget. -/
inductive Abort where
  /-- Line 62: a character that is neither a dash nor an ASCII letter. -/
  | notABase
  /-- Line 86: the two pieces differ in length on entry. -/
  | piecesDifferInLength
  /-- Line 93: the two pieces differ in length after the trim. -/
  | trimmedPiecesDifferInLength
  /-- Line 94: the trimmed piece is empty. -/
  | trimmedPieceEmpty
  /-- Line 227: blocks were already built for the flower. -/
  | blocksAlreadyBuilt
  /-- Line 230, compiled only under `BEN_DEBUG`. -/
  | flowerNotTerminal
  /-- Line 231, compiled only under `BEN_DEBUG`. -/
  | groupNumberNotOne
  /-- Line 232, compiled only under `BEN_DEBUG`. -/
  | firstGroupNotLeaf
  /-- Line 234, compiled only under `BEN_DEBUG`. -/
  | moreThanOneChain
  /-- Line 325: the trim of the round is negative. -/
  | negativeTrim
  /-- The step budget of the embedding ran out. -/
  | outOfFuel
  deriving DecidableEq, Repr

/-- The `struct Piece` of the pinch graph: a contig name and a signed, closed
interval of coordinates. -/
structure Piece where
  contig : Int
  start : Int
  end_ : Int
  deriving DecidableEq, Repr

/-- The part of a flower that `cactus_core.c` reads: the flags checked on entry
to the pipeline and the sequence store behind `flower_getSequence` and
`sequence_getString` (contig name, start coordinate, length, strand). -/
structure Flower where
  builtBlocks : Bool
  isTerminal : Bool
  groupNumber : Int
  firstGroupIsLeaf : Bool
  chainNumber : Int
  sequence_getString : Int → Int → Int → Int → List Char

/-- Lines 42 to 51. -/
def piece_getString (piece : Piece) (flower : Flower) : List Char :=
  if piece.start ≥ 1 then
    flower.sequence_getString piece.contig piece.start (piece.end_ - piece.start + 1) 1
  else
    flower.sequence_getString piece.contig (-piece.end_) (piece.end_ - piece.start + 1) 0

/-- Lines 53 to 69: the scan of `string[0 .. strlen-1]`, stopping at the first
lower case letter or `N`. -/
def containsRepeatBases : List Char → Except Abort Bool
  | [] => .ok false
  | c :: string =>
    if c ≠ '-' then
      if (c.toNat ≥ 65 ∧ c.toNat ≤ 90) ∨ (c.toNat ≥ 97 ∧ c.toNat ≤ 122) then
        if (c.toNat ≥ 97 ∧ c.toNat ≤ 122) ∨ c = 'N' then
          .ok true
        else
          containsRepeatBases string
      else
        .error .notABase
    else
      containsRepeatBases string

/-- Lines 71 to 75. -/
structure FilterAlignmentParameters where
  alignRepeats : Int
  trim : Int
  flower : Flower

/-- Lines 77 to 111, with the arithmetic taken exactly, which is what the code
computes as long as no `int32_t` operation overflows;
`filterPieceAndThenAddToGraphInt32` below is the same function in `int32_t`.
The result is the pair of pieces passed to `pinchMergePiece`, or `none` when
the function returns without merging. -/
def filterPieceAndThenAddToGraph (piece piece2 : Piece)
    (filterParameters : FilterAlignmentParameters) : Except Abort (Option (Piece × Piece)) :=
  if piece.end_ - piece.start ≠ piece2.end_ - piece2.start then
    .error .piecesDifferInLength
  else if piece.end_ - piece.start + 1 > 2 * filterParameters.trim then
    let piece : Piece :=
      { contig := piece.contig
        start := piece.start + filterParameters.trim
        end_ := piece.end_ - filterParameters.trim }
    let piece2 : Piece :=
      { contig := piece2.contig
        start := piece2.start + filterParameters.trim
        end_ := piece2.end_ - filterParameters.trim }
    if piece.end_ - piece.start ≠ piece2.end_ - piece2.start then
      .error .trimmedPiecesDifferInLength
    else if ¬ (piece.end_ - piece.start ≥ 0) then
      .error .trimmedPieceEmpty
    else if filterParameters.alignRepeats = 0 then
      let string1 := piece_getString piece filterParameters.flower
      let string2 := piece_getString piece2 filterParameters.flower
      match containsRepeatBases string1 with
      | .error e => .error e
      | .ok true => .ok none
      | .ok false =>
        match containsRepeatBases string2 with
        | .error e => .error e
        | .ok true => .ok none
        | .ok false => .ok (some (piece, piece2))
    else
      .ok (some (piece, piece2))
  else
    .ok none

/-! ### The annealing driver -/

/-- The `CactusCoreInputParameters` of `cactus_core.h`. The header is not among
the embedded files; the fields are those set at lines 117 to 128, integer where
the default is written `0` and `float` where it is written `0.0`. -/
structure CactusCoreInputParameters where
  writeDebugFiles : Int
  annealingRounds : Int
  alignRepeatsAtRound : Int
  trim : Int
  trimChange : ℚ
  minimumTreeCoverage : ℚ
  minimumBlockLength : Int
  minimumBlockLengthChange : ℚ
  minimumChainLength : Int
  minimumChainLengthChange : ℚ
  deannealingRounds : ℚ
  adjacencyComponentOverlap : Int

/-- Lines 113 to 130. -/
def constructCactusCoreInputParameters : CactusCoreInputParameters :=
  { writeDebugFiles := 0
    annealingRounds := 1
    alignRepeatsAtRound := 0
    trim := 0
    trimChange := 0
    minimumTreeCoverage := 0
    minimumBlockLength := 0
    minimumBlockLengthChange := 0
    minimumChainLength := 0
    minimumChainLengthChange := 0
    deannealingRounds := 1
    adjacencyComponentOverlap := 0 }

/-- The value of a C comparison or of `!x`: 1 when it holds, 0 otherwise. -/
def cBool (p : Prop) [Decidable p] : Int :=
  if p then 1 else 0

/-- The C conversion of a `float` to `int32_t`: the fraction is discarded. -/
def floatToInt (x : ℚ) : Int :=
  if 0 ≤ x then ⌊x⌋ else ⌈x⌉

/-- Modelled from the spec: `struct PairwiseAlignment` and `pinchMerge` belong
to the pinch-merge module, which is not among the embedded files. By section
4.5, step 3, the filter-then-merge callback is applied to each aligned piece
pair of an alignment, in order; an alignment is therefore the list of its
aligned piece pairs. -/
abbrev PairwiseAlignment := List (Piece × Piece)

/-- The calls that the pipeline makes into other modules and into the two
hooks of its caller. Logging, consistency checks, debug files and the freeing
of memory are left out. `B` is the type of blocks (cactus edges). -/
inductive Call (B : Type) where
  | chain_destruct
  | group_destruct
  | constructPinchGraph
  | getVertexToAdjacencyComponentHash
  | getAdjacencyComponentGraph
  | startAlignmentStack
  | getNextAlignment
  | pinchMergePiece (piece piece2 : Piece) (adjacencyComponentOverlap : Int)
  | removeTrivialGreyEdgeComponents
  | linkStubComponentsToTheSinkComponent (attachEnds : Int)
  | computeCactusGraph (excludeDegree1Edges : Int)
  | circulariseStems
  | computeSortedBiConnectedComponents
  | removeOverAlignedEdges (blocksToUndo : List B)
  | getAdjacencyComponents
  | unlinkStubComponentsFromTheSinkComponent
  | fillOutFlowerFromInputs (chosenBlocks : List B)
  deriving DecidableEq, Repr

/-- The other modules and the caller, as far as the pipeline depends on them.
`W` is the joint state of the pinch graph, the cactus graph with its sorted
chains, the flower and the alignment source. -/
structure Modules (W B : Type) where
  /-- The effect of a call on that state. -/
  apply : W → Call B → W
  /-- The alignments that `getNextAlignment` hands out, up to its first `NULL`,
  once `startAlignmentStack` has brought the source to the given state. -/
  alignmentStack : W → List PairwiseAlignment
  /-- The set returned by `filterBlocksByTreeCoverageAndLength` on the sorted
  chains of the state, for a minimum tree coverage, a minimum degree, a minimum
  block length and a minimum chain length. -/
  filterBlocksByTreeCoverageAndLength : W → ℚ → Int → ℚ → ℚ → List B

/-- The state after a sequence of calls. -/
def Modules.run {W B : Type} (m : Modules W B) (w : W) (calls : List (Call B)) : W :=
  calls.foldl m.apply w

/-- The `stSortedSet_getDifference` of sonLib: the members of the first set
that are not in the second. -/
def stSortedSet_getDifference {B : Type} [DecidableEq B] (set1 set2 : List B) : List B :=
  set1.filter (fun b => decide (b ∉ set2))

/-- Lines 136 to 176. -/
def cactusCorePipeline_2 {B : Type} (excludeDegree1Edges attachEnds : Int) : List (Call B) :=
  [.linkStubComponentsToTheSinkComponent attachEnds,
   .computeCactusGraph excludeDegree1Edges,
   .circulariseStems]

/-- The `pinchMerge` of one alignment with `filterPieceAndThenAddToGraph` as
its callback: the merges made, in order. -/
def pinchMerge {B : Type} (filterParameters : FilterAlignmentParameters)
    (adjacencyComponentOverlap : Int) : PairwiseAlignment → Except Abort (List (Call B))
  | [] => .ok []
  | (piece, piece2) :: pairs =>
    match filterPieceAndThenAddToGraph piece piece2 filterParameters with
    | .error e => .error e
    | .ok merged =>
      match pinchMerge filterParameters adjacencyComponentOverlap pairs with
      | .error e => .error e
      | .ok calls =>
        match merged with
        | none => .ok calls
        | some (a, b) => .ok (.pinchMergePiece a b adjacencyComponentOverlap :: calls)

/-- Lines 330 to 342: the loop over the alignments pulled after the first. -/
def addAlignments {B : Type} (filterParameters : FilterAlignmentParameters)
    (adjacencyComponentOverlap : Int) : List PairwiseAlignment → Except Abort (List (Call B))
  | [] => .ok []
  | pairwiseAlignment :: stack =>
    match pinchMerge filterParameters adjacencyComponentOverlap pairwiseAlignment with
    | .error e => .error e
    | .ok merges =>
      match addAlignments filterParameters adjacencyComponentOverlap stack with
      | .error e => .error e
      | .ok calls => .ok (merges ++ .getNextAlignment :: calls)

/-- One pass through the body of the de-annealing loop. -/
structure DeannealingStep (W B : Type) where
  /-- The state in which the two filters of the step are evaluated. -/
  world : W
  /-- The chain-length cutoff of the step. -/
  deannealingChainLength : ℚ
  blocksToUndo : List B
  /-- The calls of lines 436 to 471, when there is a block to undo. -/
  calls : List (Call B)

/-- Lines 407 to 420. -/
def getBlocksToUndo {W B : Type} [DecidableEq B] (m : Modules W B)
    (cCIP : CactusCoreInputParameters) (minimumBlockLength deannealingChainLength : ℚ)
    (w : W) : List B :=
  let allBlocksOfDegree2OrHigher := m.filterBlocksByTreeCoverageAndLength w 0 2 0 0
  let chosenBlocksToKeep :=
    m.filterBlocksByTreeCoverageAndLength w cCIP.minimumTreeCoverage 0
      minimumBlockLength deannealingChainLength
  stSortedSet_getDifference allBlocksOfDegree2OrHigher chosenBlocksToKeep

/-- Lines 400 to 479: the `while (1)` of the de-annealing, cut off after `fuel`
passes. -/
def deannealingLoop {W B : Type} [DecidableEq B] (m : Modules W B)
    (cCIP : CactusCoreInputParameters) (terminateRecursion loop : Int)
    (minimumBlockLength minimumChainLength deannealingChainLengthStepSize : ℚ) :
    Nat → ℚ → W → Except Abort (W × List (DeannealingStep W B))
  | 0, _, _ => .error .outOfFuel
  | fuel + 1, deannealingChainLength, w =>
    let blocksToUndo := getBlocksToUndo m cCIP minimumBlockLength deannealingChainLength w
    let calls : List (Call B) :=
      if blocksToUndo.length > 0 then
        [.removeOverAlignedEdges blocksToUndo, .removeTrivialGreyEdgeComponents] ++
          cactusCorePipeline_2 (cBool (terminateRecursion = 0))
            (cBool (loop + 1 ≥ cCIP.annealingRounds)) ++
          [.computeSortedBiConnectedComponents]
      else
        []
    let step : DeannealingStep W B :=
      { world := w
        deannealingChainLength := deannealingChainLength
        blocksToUndo := blocksToUndo
        calls := calls }
    if deannealingChainLength ≥ minimumChainLength then
      .ok (m.run w calls, [step])
    else
      match deannealingLoop m cCIP terminateRecursion loop minimumBlockLength
          minimumChainLength deannealingChainLengthStepSize fuel
          (deannealingChainLength + deannealingChainLengthStepSize) (m.run w calls) with
      | .error e => .error e
      | .ok (w1, steps) => .ok (w1, step :: steps)

/-- Lines 388 to 480. -/
def deannealing {W B : Type} [DecidableEq B] (m : Modules W B)
    (cCIP : CactusCoreInputParameters) (terminateRecursion loop : Int)
    (minimumBlockLength minimumChainLength : ℚ) (fuel : Nat) (w : W) :
    Except Abort (W × List (DeannealingStep W B)) :=
  if cCIP.deannealingRounds > 0 then
    let deannealingChainLengthStepSize := minimumChainLength / cCIP.deannealingRounds
    deannealingLoop m cCIP terminateRecursion loop minimumBlockLength minimumChainLength
      deannealingChainLengthStepSize fuel deannealingChainLengthStepSize w
  else
    .ok (w, [])

/-- The local variables that live across the rounds of the outer loop, and the
state of the other modules. -/
structure LoopState (W : Type) where
  loop : Int
  trim : ℚ
  minimumChainLength : ℚ
  minimumBlockLength : ℚ
  world : W

/-- One pass through the body of the outer loop. -/
structure Round (W B : Type) where
  /-- The variables on entry to the round. -/
  entry : LoopState W
  /-- The filter parameters of the round, lines 322 to 328. -/
  filterParameters : FilterAlignmentParameters
  /-- The calls of lines 288 to 381. -/
  merging : List (Call B)
  /-- The passes of the de-annealing loop, lines 388 to 480. -/
  deannealing : List (DeannealingStep W B)
  /-- The calls of lines 486 to 572. -/
  closing : List (Call B)

/-- Lines 282 to 573: one round. The result holds the record of the round, the
variables after it, and whether the loop goes on (`true`) or was left by the
`break` of line 571. -/
def annealingRound {W B : Type} [DecidableEq B] (m : Modules W B) (flower : Flower)
    (cCIP : CactusCoreInputParameters) (terminateRecursion : Int) (fuel : Nat)
    (s : LoopState W) : Except Abort (Round W B × LoopState W × Bool) :=
  let opening : List (Call B) :=
    [.getVertexToAdjacencyComponentHash, .getAdjacencyComponentGraph,
     .startAlignmentStack]
  let stack := m.alignmentStack (m.run s.world opening)
  if ¬ (s.trim ≥ 0) then
    .error .negativeTrim
  else
    let filterParameters : FilterAlignmentParameters :=
      { trim := floatToInt s.trim
        alignRepeats := cBool (s.loop ≥ cCIP.alignRepeatsAtRound)
        flower := flower }
    match addAlignments filterParameters cCIP.adjacencyComponentOverlap stack with
    | .error e => .error e
    | .ok pulled =>
      let merging : List (Call B) :=
        opening ++ .getNextAlignment :: pulled ++
          [.removeTrivialGreyEdgeComponents] ++
          cactusCorePipeline_2 (cBool (terminateRecursion = 0))
            (cBool (s.loop + 1 ≥ cCIP.annealingRounds)) ++
          [.computeSortedBiConnectedComponents]
      match deannealing m cCIP terminateRecursion s.loop s.minimumBlockLength
          s.minimumChainLength fuel (m.run s.world merging) with
      | .error e => .error e
      | .ok (w, steps) =>
        if s.loop + 1 < cCIP.annealingRounds then
          let closing : List (Call B) :=
            [.getAdjacencyComponents, .unlinkStubComponentsFromTheSinkComponent]
          .ok ({ entry := s, filterParameters := filterParameters, merging := merging,
                 deannealing := steps, closing := closing },
               { loop := s.loop + 1
                 trim := if s.trim + cCIP.trimChange < 0 then 0 else s.trim + cCIP.trimChange
                 minimumChainLength :=
                   if s.minimumChainLength + cCIP.minimumChainLengthChange < 0 then 0
                   else s.minimumChainLength + cCIP.minimumChainLengthChange
                 minimumBlockLength :=
                   if s.minimumBlockLength + cCIP.minimumBlockLengthChange < 0 then 0
                   else s.minimumBlockLength + cCIP.minimumBlockLengthChange
                 world := m.run w closing },
               true)
        else
          let chosenBlocks :=
            m.filterBlocksByTreeCoverageAndLength w 0
              (if terminateRecursion ≠ 0 then 0 else 2) 0 0
          let closing : List (Call B) := [.fillOutFlowerFromInputs chosenBlocks]
          .ok ({ entry := s, filterParameters := filterParameters, merging := merging,
                 deannealing := steps, closing := closing },
               { s with loop := s.loop + 1, world := m.run w closing },
               false)

/-- Lines 282 to 574: the `while (1)` of the annealing, cut off after `fuel`
rounds. -/
def annealingLoop {W B : Type} [DecidableEq B] (m : Modules W B) (flower : Flower)
    (cCIP : CactusCoreInputParameters) (terminateRecursion : Int) (innerFuel : Nat) :
    Nat → LoopState W → Except Abort (List (Round W B) × LoopState W)
  | 0, _ => .error .outOfFuel
  | fuel + 1, s =>
    match annealingRound m flower cCIP terminateRecursion innerFuel s with
    | .error e => .error e
    | .ok (round, s1, false) => .ok ([round], s1)
    | .ok (round, s1, true) =>
      match annealingLoop m flower cCIP terminateRecursion innerFuel fuel s1 with
      | .error e => .error e
      | .ok (rounds, s2) => .ok (round :: rounds, s2)

/-- Lines 227 to 247: the checks on the flower and the calls that clear it.
`benDebug` says whether the code is compiled with `BEN_DEBUG`. -/
def prepareFlower {B : Type} (benDebug : Bool) (flower : Flower) :
    Except Abort (List (Call B)) :=
  if flower.builtBlocks then
    .error .blocksAlreadyBuilt
  else if benDebug ∧ ¬ flower.isTerminal then
    .error .flowerNotTerminal
  else if benDebug ∧ ¬ flower.groupNumber = 1 then
    .error .groupNumberNotOne
  else if benDebug ∧ ¬ flower.firstGroupIsLeaf then
    .error .firstGroupNotLeaf
  else if benDebug ∧ ¬ flower.chainNumber ≤ 1 then
    .error .moreThanOneChain
  else
    .ok ((if flower.chainNumber = 1 then [.chain_destruct] else []) ++
      [.group_destruct, .constructPinchGraph])

/-- What a completed run of the pipeline did. -/
structure Run (W B : Type) where
  /-- The calls made before the outer loop. -/
  preparation : List (Call B)
  /-- The rounds of the outer loop, in order. -/
  rounds : List (Round W B)
  /-- The variables when the loop is left. -/
  exit : LoopState W
  /-- The value returned at line 585. -/
  returned : Int

/-- Lines 212 to 586, with the arithmetic taken exactly;
`cactusCorePipelineFloat` below is the same function with the rounding of the
`float` variables. `fuel` bounds the number of passes of each loop. -/
def cactusCorePipeline {W B : Type} [DecidableEq B] (benDebug : Bool) (m : Modules W B)
    (fuel : Nat) (w : W) (flower : Flower) (cCIP : CactusCoreInputParameters)
    (terminateRecursion : Int) : Except Abort (Run W B) :=
  match prepareFlower benDebug flower with
  | .error e => .error e
  | .ok preparation =>
    let s : LoopState W :=
      { loop := 0
        trim := cCIP.trim
        minimumChainLength := cCIP.minimumChainLength
        minimumBlockLength := cCIP.minimumBlockLength
        world := m.run w preparation }
    match annealingLoop m flower cCIP terminateRecursion fuel fuel s with
    | .error e => .error e
    | .ok (rounds, s1) =>
      .ok { preparation := preparation, rounds := rounds, exit := s1, returned := 0 }

/-! ### The machine arithmetic

The definitions above take the arithmetic exactly. The definitions of this
section embed the same lines with the arithmetic of the machine: the result of
an `int32_t` operation wraps around, and a value stored in a `float` is
rounded. -/

/-- The value of an `int32_t` operation whose exact result is `x`, as the
machine computes it: two's complement, `x` wrapped around into
`INT32_MIN .. INT32_MAX`. -/
def wrapInt32 (x : Int) : Int :=
  (x + 2147483648) % 4294967296 - 2147483648

/-- Lines 42 to 51, in `int32_t`. -/
def piece_getStringInt32 (piece : Piece) (flower : Flower) : List Char :=
  if piece.start ≥ 1 then
    flower.sequence_getString piece.contig piece.start
      (wrapInt32 (wrapInt32 (piece.end_ - piece.start) + 1)) 1
  else
    flower.sequence_getString piece.contig (wrapInt32 (-piece.end_))
      (wrapInt32 (wrapInt32 (piece.end_ - piece.start) + 1)) 0

/-- Lines 77 to 111, in `int32_t`: the coordinates of the pieces and the trim
are `int32_t` values, and so is the result of every operation on them. The
result is the pair of pieces passed to `pinchMergePiece`, or `none` when the
function returns without merging. -/
def filterPieceAndThenAddToGraphInt32 (piece piece2 : Piece)
    (filterParameters : FilterAlignmentParameters) : Except Abort (Option (Piece × Piece)) :=
  if wrapInt32 (piece.end_ - piece.start) ≠ wrapInt32 (piece2.end_ - piece2.start) then
    .error .piecesDifferInLength
  else if wrapInt32 (wrapInt32 (piece.end_ - piece.start) + 1) >
      wrapInt32 (2 * filterParameters.trim) then
    let piece : Piece :=
      { contig := piece.contig
        start := wrapInt32 (piece.start + filterParameters.trim)
        end_ := wrapInt32 (piece.end_ - filterParameters.trim) }
    let piece2 : Piece :=
      { contig := piece2.contig
        start := wrapInt32 (piece2.start + filterParameters.trim)
        end_ := wrapInt32 (piece2.end_ - filterParameters.trim) }
    if wrapInt32 (piece.end_ - piece.start) ≠ wrapInt32 (piece2.end_ - piece2.start) then
      .error .trimmedPiecesDifferInLength
    else if ¬ (wrapInt32 (piece.end_ - piece.start) ≥ 0) then
      .error .trimmedPieceEmpty
    else if filterParameters.alignRepeats = 0 then
      let string1 := piece_getStringInt32 piece filterParameters.flower
      let string2 := piece_getStringInt32 piece2 filterParameters.flower
      match containsRepeatBases string1 with
      | .error e => .error e
      | .ok true => .ok none
      | .ok false =>
        match containsRepeatBases string2 with
        | .error e => .error e
        | .ok true => .ok none
        | .ok false => .ok (some (piece, piece2))
    else
      .ok (some (piece, piece2))
  else
    .ok none

/-- The `pinchMerge` of one alignment with `filterPieceAndThenAddToGraph`, in
`int32_t`, as its callback: the merges made, in order. -/
def pinchMergeInt32 {B : Type} (filterParameters : FilterAlignmentParameters)
    (adjacencyComponentOverlap : Int) : PairwiseAlignment → Except Abort (List (Call B))
  | [] => .ok []
  | (piece, piece2) :: pairs =>
    match filterPieceAndThenAddToGraphInt32 piece piece2 filterParameters with
    | .error e => .error e
    | .ok merged =>
      match pinchMergeInt32 filterParameters adjacencyComponentOverlap pairs with
      | .error e => .error e
      | .ok calls =>
        match merged with
        | none => .ok calls
        | some (a, b) => .ok (.pinchMergePiece a b adjacencyComponentOverlap :: calls)

/-- Lines 330 to 342, with the callback in `int32_t`. -/
def addAlignmentsInt32 {B : Type} (filterParameters : FilterAlignmentParameters)
    (adjacencyComponentOverlap : Int) : List PairwiseAlignment → Except Abort (List (Call B))
  | [] => .ok []
  | pairwiseAlignment :: stack =>
    match pinchMergeInt32 filterParameters adjacencyComponentOverlap pairwiseAlignment with
    | .error e => .error e
    | .ok merges =>
      match addAlignmentsInt32 filterParameters adjacencyComponentOverlap stack with
      | .error e => .error e
      | .ok calls => .ok (merges ++ .getNextAlignment :: calls)

/-- Lines 400 to 479 with the cutoff held in a `float`: `toFloat` is the
rounding of the machine, which gives for the exact result of an operation the
value that is stored in the `float`. -/
def deannealingLoopFloat {W B : Type} [DecidableEq B] (toFloat : ℚ → ℚ) (m : Modules W B)
    (cCIP : CactusCoreInputParameters) (terminateRecursion loop : Int)
    (minimumBlockLength minimumChainLength deannealingChainLengthStepSize : ℚ) :
    Nat → ℚ → W → Except Abort (W × List (DeannealingStep W B))
  | 0, _, _ => .error .outOfFuel
  | fuel + 1, deannealingChainLength, w =>
    let blocksToUndo := getBlocksToUndo m cCIP minimumBlockLength deannealingChainLength w
    let calls : List (Call B) :=
      if blocksToUndo.length > 0 then
        [.removeOverAlignedEdges blocksToUndo, .removeTrivialGreyEdgeComponents] ++
          cactusCorePipeline_2 (cBool (terminateRecursion = 0))
            (cBool (loop + 1 ≥ cCIP.annealingRounds)) ++
          [.computeSortedBiConnectedComponents]
      else
        []
    let step : DeannealingStep W B :=
      { world := w
        deannealingChainLength := deannealingChainLength
        blocksToUndo := blocksToUndo
        calls := calls }
    if deannealingChainLength ≥ minimumChainLength then
      .ok (m.run w calls, [step])
    else
      match deannealingLoopFloat toFloat m cCIP terminateRecursion loop minimumBlockLength
          minimumChainLength deannealingChainLengthStepSize fuel
          (toFloat (deannealingChainLength + deannealingChainLengthStepSize))
          (m.run w calls) with
      | .error e => .error e
      | .ok (w1, steps) => .ok (w1, step :: steps)

/-- Lines 388 to 480 in `float`. -/
def deannealingFloat {W B : Type} [DecidableEq B] (toFloat : ℚ → ℚ) (m : Modules W B)
    (cCIP : CactusCoreInputParameters) (terminateRecursion loop : Int)
    (minimumBlockLength minimumChainLength : ℚ) (fuel : Nat) (w : W) :
    Except Abort (W × List (DeannealingStep W B)) :=
  if cCIP.deannealingRounds > 0 then
    let deannealingChainLengthStepSize := toFloat (minimumChainLength / cCIP.deannealingRounds)
    deannealingLoopFloat toFloat m cCIP terminateRecursion loop minimumBlockLength
      minimumChainLength deannealingChainLengthStepSize fuel deannealingChainLengthStepSize w
  else
    .ok (w, [])

/-- Lines 282 to 573 with the arithmetic of the machine: one round. The three
thresholds are `float` variables, so each sum of lines 498 to 505 is rounded by
`toFloat` when it is stored; the callback of the merges works in `int32_t`. -/
def annealingRoundFloat {W B : Type} [DecidableEq B] (toFloat : ℚ → ℚ) (m : Modules W B)
    (flower : Flower) (cCIP : CactusCoreInputParameters) (terminateRecursion : Int)
    (fuel : Nat) (s : LoopState W) : Except Abort (Round W B × LoopState W × Bool) :=
  let opening : List (Call B) :=
    [.getVertexToAdjacencyComponentHash, .getAdjacencyComponentGraph,
     .startAlignmentStack]
  let stack := m.alignmentStack (m.run s.world opening)
  if ¬ (s.trim ≥ 0) then
    .error .negativeTrim
  else
    let filterParameters : FilterAlignmentParameters :=
      { trim := floatToInt s.trim
        alignRepeats := cBool (s.loop ≥ cCIP.alignRepeatsAtRound)
        flower := flower }
    match addAlignmentsInt32 filterParameters cCIP.adjacencyComponentOverlap stack with
    | .error e => .error e
    | .ok pulled =>
      let merging : List (Call B) :=
        opening ++ .getNextAlignment :: pulled ++
          [.removeTrivialGreyEdgeComponents] ++
          cactusCorePipeline_2 (cBool (terminateRecursion = 0))
            (cBool (s.loop + 1 ≥ cCIP.annealingRounds)) ++
          [.computeSortedBiConnectedComponents]
      match deannealingFloat toFloat m cCIP terminateRecursion s.loop s.minimumBlockLength
          s.minimumChainLength fuel (m.run s.world merging) with
      | .error e => .error e
      | .ok (w, steps) =>
        if s.loop + 1 < cCIP.annealingRounds then
          let closing : List (Call B) :=
            [.getAdjacencyComponents, .unlinkStubComponentsFromTheSinkComponent]
          .ok ({ entry := s, filterParameters := filterParameters, merging := merging,
                 deannealing := steps, closing := closing },
               { loop := s.loop + 1
                 trim :=
                   if toFloat (s.trim + cCIP.trimChange) < 0 then 0
                   else toFloat (s.trim + cCIP.trimChange)
                 minimumChainLength :=
                   if toFloat (s.minimumChainLength + cCIP.minimumChainLengthChange) < 0 then 0
                   else toFloat (s.minimumChainLength + cCIP.minimumChainLengthChange)
                 minimumBlockLength :=
                   if toFloat (s.minimumBlockLength + cCIP.minimumBlockLengthChange) < 0 then 0
                   else toFloat (s.minimumBlockLength + cCIP.minimumBlockLengthChange)
                 world := m.run w closing },
               true)
        else
          let chosenBlocks :=
            m.filterBlocksByTreeCoverageAndLength w 0
              (if terminateRecursion ≠ 0 then 0 else 2) 0 0
          let closing : List (Call B) := [.fillOutFlowerFromInputs chosenBlocks]
          .ok ({ entry := s, filterParameters := filterParameters, merging := merging,
                 deannealing := steps, closing := closing },
               { s with loop := s.loop + 1, world := m.run w closing },
               false)

/-- Lines 282 to 574 with the arithmetic of the machine: the `while (1)` of the
annealing, cut off after `fuel` rounds. -/
def annealingLoopFloat {W B : Type} [DecidableEq B] (toFloat : ℚ → ℚ) (m : Modules W B)
    (flower : Flower) (cCIP : CactusCoreInputParameters) (terminateRecursion : Int)
    (innerFuel : Nat) : Nat → LoopState W → Except Abort (List (Round W B) × LoopState W)
  | 0, _ => .error .outOfFuel
  | fuel + 1, s =>
    match annealingRoundFloat toFloat m flower cCIP terminateRecursion innerFuel s with
    | .error e => .error e
    | .ok (round, s1, false) => .ok ([round], s1)
    | .ok (round, s1, true) =>
      match annealingLoopFloat toFloat m flower cCIP terminateRecursion innerFuel fuel s1 with
      | .error e => .error e
      | .ok (rounds, s2) => .ok (round :: rounds, s2)

/-- Lines 212 to 586 with the arithmetic of the machine. The three thresholds
are `float` variables set from the `int32_t` fields of the parameters (lines
269 to 271), a conversion that rounds. `fuel` bounds the number of passes of
each loop. -/
def cactusCorePipelineFloat {W B : Type} [DecidableEq B] (toFloat : ℚ → ℚ)
    (benDebug : Bool) (m : Modules W B) (fuel : Nat) (w : W) (flower : Flower)
    (cCIP : CactusCoreInputParameters) (terminateRecursion : Int) : Except Abort (Run W B) :=
  match prepareFlower benDebug flower with
  | .error e => .error e
  | .ok preparation =>
    let s : LoopState W :=
      { loop := 0
        trim := toFloat cCIP.trim
        minimumChainLength := toFloat cCIP.minimumChainLength
        minimumBlockLength := toFloat cCIP.minimumBlockLength
        world := m.run w preparation }
    match annealingLoopFloat toFloat m flower cCIP terminateRecursion fuel fuel s with
    | .error e => .error e
    | .ok (rounds, s1) =>
      .ok { preparation := preparation, rounds := rounds, exit := s1, returned := 0 }

/-! ### The flower materialiser, `finishing.c` -/

/-- The places where the embedded code of `finishing.c` can stop without
returning: its assertions, by line, and the read through a null pointer of
line 102. -/
inductive FinishingAbort where
  /-- Line 60: the end to copy down is not free. -/
  | endNotFree
  /-- Line 61: the end to copy down is not a stub end. -/
  | endNotStubEnd
  /-- Line 64: the flower has no parent group. -/
  | noParentGroup
  /-- Line 66: the parent flower does not yield the end. -/
  | endNotInParent
  /-- Line 67: the end already has a group in the parent flower. -/
  | groupSetInParent
  /-- Line 84: the pinch end is already mapped. -/
  | pinchEndMapped
  /-- Line 90: the cactus edge end has no pinch end. -/
  | noPinchEnd
  /-- Line 97: the parent flower has no cap for the thread of the segment. -/
  | noParentCap
  /-- Line 99: the cap of the parent flower has no sequence. -/
  | noParentSequence
  /-- Line 102: `sequence_getName` is applied to a sequence that is `NULL`. -/
  | nullSequenceRead
  /-- Lines 198 and 206: the pinch end of a component is not mapped. -/
  | noEnd
  /-- Line 207: the end of a component is not in positive orientation. -/
  | endNotPositive
  /-- Line 208: the end of a component already has a group. -/
  | groupSet
  /-- Line 219: the built-blocks flag of the flower is already set. -/
  | blocksBuilt
  deriving DecidableEq, Repr

mutual
/-- A flower with the flowers nested in it: its name, its built-blocks flag
and its groups. -/
inductive FlowerTree where
  | mk (name : Int) (builtBlocks : Bool) (groups : GroupList)
/-- The groups of a flower, in the order of `flower_getNextGroup`: a group is
a leaf or holds a nested flower. -/
inductive GroupList where
  | nil
  | leaf (rest : GroupList)
  | nested (flower : FlowerTree) (rest : GroupList)
end

mutual
/-- Lines 217 to 230. The result is the hierarchy after the call and the names
of the flowers on which `flower_setBuiltBlocks` was called, in the order of the
calls. -/
def setBlocksBuilt : FlowerTree → Except FinishingAbort (FlowerTree × List Int)
  | .mk name builtBlocks groups =>
    if builtBlocks then
      .error .blocksBuilt
    else
      match setBlocksBuiltGroups groups with
      | .error e => .error e
      | .ok (groups1, written) => .ok (.mk name true groups1, name :: written)
/-- Lines 224 to 228: the loop over the groups of the flower. -/
def setBlocksBuiltGroups : GroupList → Except FinishingAbort (GroupList × List Int)
  | .nil => .ok (.nil, [])
  | .leaf rest =>
    match setBlocksBuiltGroups rest with
    | .error e => .error e
    | .ok (rest1, written) => .ok (.leaf rest1, written)
  | .nested flower rest =>
    match setBlocksBuilt flower with
    | .error e => .error e
    | .ok (flower1, written1) =>
      match setBlocksBuiltGroups rest with
      | .error e => .error e
      | .ok (rest1, written2) => .ok (.nested flower1 rest1, written1 ++ written2)
end

/-- A segment of a pinch thread inside a pinch block: the name of its thread,
its start coordinate and its orientation relative to the block. -/
structure PinchSegment where
  name : Int
  start : Int
  blockOrientation : Bool
  deriving DecidableEq, Repr

/-- A pinch block: its address (two blocks are the same block when they are
the same object), its length and its segments in the order of the segment
iterator. -/
structure PinchBlock where
  address : Nat
  length : Int
  segments : List PinchSegment
  deriving DecidableEq, Repr

/-- An `stPinchEnd`: a pinch block and an orientation, the key of the hash
from pinch ends to ends of flowers. -/
structure PinchEnd where
  block : PinchBlock
  orientation : Bool
  deriving DecidableEq, Repr

/-- What `makeBlock` reads of a cactus edge end: its object and the object of
the other end of its edge. -/
structure CactusEdgeEnd where
  object : Option PinchEnd
  otherObject : PinchEnd

/-- A segment as constructed by `segment_construct2`: whether it is attached
to the reverse of the block, its start coordinate, its strand and the name of
its sequence. -/
structure Segment where
  onReverse : Bool
  start : Int
  strand : Bool
  sequence : Int
  deriving DecidableEq, Repr

/-- A block as constructed by `block_construct`, with the segments attached to
it or to its reverse, in the order of their construction. -/
structure Block where
  length : Int
  segments : List Segment
  deriving DecidableEq, Repr

/-- What `makeBlock` reads and writes of the flower it builds in: the names of
its sequences and its blocks. -/
structure BlockFlower where
  sequences : List Int
  blocks : List Block
  deriving DecidableEq, Repr

/-- The `stHash_insert` of sonLib on a hash held as a function from keys to
values. -/
def stHash_insert {K V : Type} [DecidableEq K] (hash : K → Option V) (key : K) (value : V) :
    K → Option V :=
  fun k => if k = key then some value else hash k

/-- Lines 83 to 86. -/
def makeBlockP {E : Type} (pinchEnd : PinchEnd) (end_ : E)
    (pinchEndsToEnds : PinchEnd → Option E) : Except FinishingAbort (PinchEnd → Option E) :=
  if (pinchEndsToEnds pinchEnd).isSome then
    .error .pinchEndMapped
  else
    .ok (stHash_insert pinchEndsToEnds pinchEnd end_)

/-- Lines 95 to 108: the loop over the segments of the pinch block. The parent
flower is read through `parentSequence`, which gives for the name of a thread
`none` when the parent flower has no cap of that name, `some none` when the cap
has no sequence, and else the name of the sequence of the cap. The result is
the list of the segments constructed and the names of the sequences of the
flower after the loop. -/
def makeBlockSegments (pinchEndOrientation : Bool)
    (parentSequence : Int → Option (Option Int)) :
    List PinchSegment → List Int → Except FinishingAbort (List Segment × List Int)
  | [], sequences => .ok ([], sequences)
  | pinchSegment :: pinchSegments, sequences =>
    match parentSequence pinchSegment.name with
    | none => .error .noParentCap
    | some none => .error .noParentSequence
    | some (some parentSequenceName) =>
      if parentSequenceName ∈ sequences then
        match makeBlockSegments pinchEndOrientation parentSequence pinchSegments sequences with
        | .error e => .error e
        | .ok (segments, sequences1) =>
          .ok ({ onReverse := xor pinchEndOrientation pinchSegment.blockOrientation
                 start := pinchSegment.start
                 strand := true
                 sequence := parentSequenceName } :: segments, sequences1)
      else
        .error .nullSequenceRead

/-- Lines 88 to 112. The ends of a block are given by the functions
`block_get5End` and `block_get3End` of the flower interface. The result is the
block constructed, the flower after the call and the hash after the call. -/
def makeBlock {E : Type} (block_get5End block_get3End : Block → E)
    (cactusEdgeEnd : CactusEdgeEnd) (parentSequence : Int → Option (Option Int))
    (flower : BlockFlower) (pinchEndsToEnds : PinchEnd → Option E) :
    Except FinishingAbort (Block × BlockFlower × (PinchEnd → Option E)) :=
  match cactusEdgeEnd.object with
  | none => .error .noPinchEnd
  | some pinchEnd =>
    match makeBlockSegments pinchEnd.orientation parentSequence pinchEnd.block.segments
        flower.sequences with
    | .error e => .error e
    | .ok (segments, sequences) =>
      let block : Block := { length := pinchEnd.block.length, segments := segments }
      match makeBlockP pinchEnd (block_get5End block) pinchEndsToEnds with
      | .error e => .error e
      | .ok pinchEndsToEnds1 =>
        match makeBlockP cactusEdgeEnd.otherObject (block_get3End block) pinchEndsToEnds1 with
        | .error e => .error e
        | .ok pinchEndsToEnds2 =>
          .ok (block, { sequences := sequences, blocks := flower.blocks ++ [block] },
            pinchEndsToEnds2)

/-- What `finishing.c` reads of an end of a flower through the flower
interface: its name, its orientation, whether it is free and whether it is a
stub end. -/
structure End where
  name : Int
  orientation : Bool
  isFree : Bool
  isStubEnd : Bool
  deriving DecidableEq, Repr

/-- What `convertPinchBlockEndToEnd` and `makeTangles` read and write of a
flower: the names of its ends, each with the group of the end if it has one,
and the number of its groups. The groups of a flower are numbered in the order
of their construction. -/
structure FlowerEnds where
  ends : List (Int × Option Nat)
  groupNumber : Nat
  deriving DecidableEq, Repr

/-- Modelled from the spec: `flower_getEnd` and `end_getGroup` belong to the
flower interface of section 6, which is not among the embedded files. The
result is `none` when the flower has no end of the name, `some none` when it
has one without a group, and else the group of the end. -/
def FlowerEnds.getEnd (flower : FlowerEnds) (name : Int) : Option (Option Nat) :=
  flower.ends.lookup name

/-- Modelled from the spec: `end_setGroup` of the flower interface of section
6, on the end of the given name. -/
def FlowerEnds.setGroup (flower : FlowerEnds) (name : Int) (group : Nat) : FlowerEnds :=
  { flower with
    ends := flower.ends.map (fun e => if e.1 = name then (e.1, some group) else e) }

/-- Modelled from the spec: `end_copyConstruct` of the flower interface of
section 6; the copy of an end in a flower has the name of the end and, by I6,
no group. -/
def FlowerEnds.copyConstruct (flower : FlowerEnds) (name : Int) : FlowerEnds :=
  { flower with ends := flower.ends ++ [(name, none)] }

/-- Modelled from the spec: `group_construct2` of the flower interface of
section 6; the new group is the next in the numbering of the groups of the
flower. -/
def FlowerEnds.constructGroup (flower : FlowerEnds) : FlowerEnds :=
  { flower with groupNumber := flower.groupNumber + 1 }

/-- A flower with its ancestors: the flower at the top of the hierarchy, or a
flower nested in a group (`flower_getParentGroup`) of its parent flower. -/
inductive Hierarchy where
  | top (flower : FlowerEnds)
  | nested (flower : FlowerEnds) (parentGroup : Nat) (parent : Hierarchy)
  deriving DecidableEq, Repr

/-- The flower itself, without its ancestors. -/
def Hierarchy.flower : Hierarchy → FlowerEnds
  | .top flower => flower
  | .nested flower _ _ => flower

/-- A change of the flower itself that leaves its ancestors as they are. -/
def Hierarchy.mapFlower (f : FlowerEnds → FlowerEnds) : Hierarchy → Hierarchy
  | .top flower => .top (f flower)
  | .nested flower parentGroup parent => .nested (f flower) parentGroup parent

/-- The writes of `convertPinchBlockEndToEnd` to the hierarchy: on an end of
the flower `depth` levels above the given flower, by name. -/
inductive EndCall where
  | end_setGroup (depth : Nat) (name : Int) (group : Nat)
  | end_copyConstruct (depth : Nat) (name : Int)
  deriving DecidableEq, Repr

/-- The same write seen from the flower one level below. -/
def EndCall.lift : EndCall → EndCall
  | .end_setGroup depth name group => .end_setGroup (depth + 1) name group
  | .end_copyConstruct depth name => .end_copyConstruct (depth + 1) name

/-- Lines 53 to 75. The hash is read only. The result is the end returned, as
its name and its orientation, or `none` for `NULL`, the hierarchy after the
call, and the writes made, in order. The end that `flower_getEnd` yields is the
end in positive orientation, so the assertion of line 73 holds. -/
def convertPinchBlockEndToEnd {P : Type} (pinchEnd : P) (pinchEndsToEnds : P → Option End) :
    Hierarchy → Except FinishingAbort (Option (Int × Bool) × Hierarchy × List EndCall)
  | .top flower =>
    match pinchEndsToEnds pinchEnd with
    | none => .ok (none, .top flower, [])
    | some end_ =>
      match flower.getEnd end_.name with
      | some _ => .ok (some (end_.name, end_.orientation), .top flower, [])
      | none =>
        if ¬ end_.isFree then .error .endNotFree
        else if ¬ end_.isStubEnd then .error .endNotStubEnd
        else .error .noParentGroup
  | .nested flower parentGroup parent =>
    match pinchEndsToEnds pinchEnd with
    | none => .ok (none, .nested flower parentGroup parent, [])
    | some end_ =>
      match flower.getEnd end_.name with
      | some _ =>
        .ok (some (end_.name, end_.orientation), .nested flower parentGroup parent, [])
      | none =>
        if ¬ end_.isFree then .error .endNotFree
        else if ¬ end_.isStubEnd then .error .endNotStubEnd
        else
          match convertPinchBlockEndToEnd pinchEnd pinchEndsToEnds parent with
          | .error e => .error e
          | .ok (none, _, _) => .error .endNotInParent
          | .ok (some (name2, _), parent1, calls) =>
            match parent1.flower.getEnd name2 with
            | some (some _) => .error .groupSetInParent
            | _ =>
              .ok (some (name2, end_.orientation),
                .nested (flower.copyConstruct name2) parentGroup
                  (parent1.mapFlower (fun f => f.setGroup name2 parentGroup)),
                calls.map EndCall.lift ++
                  [.end_setGroup 1 name2 parentGroup, .end_copyConstruct 0 name2])

/-- An adjacency component of a cactus node: its address (two components are
the same component when they are the same object) and its pinch ends. -/
structure AdjacencyComponent (P : Type) where
  address : Nat
  ends : List P

/-- Lines 196 to 202: whether the component is passed over by the `continue`
of line 200, and the hierarchy after the call of line 197. -/
def makeTanglesCheck {P : Type} (pinchEndsToEnds : P → Option End) :
    List P → Hierarchy → Except FinishingAbort (Bool × Hierarchy)
  | [pinchEnd], hierarchy =>
    match convertPinchBlockEndToEnd pinchEnd pinchEndsToEnds hierarchy with
    | .error e => .error e
    | .ok (none, _, _) => .error .noEnd
    | .ok (some (_, orientation), hierarchy1, _) => .ok (!orientation, hierarchy1)
  | _, hierarchy => .ok (false, hierarchy)

/-- Lines 204 to 210: the loop over the ends of a component. The result is the
hierarchy after the loop and the names of the ends on which `end_setGroup` was
called with the group, in the order of the calls. -/
def makeTanglesEnds {P : Type} (pinchEndsToEnds : P → Option End) (group : Nat) :
    List P → Hierarchy → Except FinishingAbort (Hierarchy × List Int)
  | [], hierarchy => .ok (hierarchy, [])
  | pinchEnd :: pinchEnds, hierarchy =>
    match convertPinchBlockEndToEnd pinchEnd pinchEndsToEnds hierarchy with
    | .error e => .error e
    | .ok (none, _, _) => .error .noEnd
    | .ok (some (name, orientation), hierarchy1, _) =>
      if ¬ orientation then .error .endNotPositive
      else
        match hierarchy1.flower.getEnd name with
        | some (some _) => .error .groupSet
        | _ =>
          match makeTanglesEnds pinchEndsToEnds group pinchEnds
              (hierarchy1.mapFlower (fun f => f.setGroup name group)) with
          | .error e => .error e
          | .ok (hierarchy2, names) => .ok (hierarchy2, name :: names)

/-- Lines 191 to 213. `deadEndComponent` is the address of the dead-end
component. The result is the hierarchy after the call and, for each group
constructed, in order, the group and the names of the ends assigned to it. -/
def makeTangles {P : Type} (pinchEndsToEnds : P → Option End) (deadEndComponent : Nat) :
    List (AdjacencyComponent P) → Hierarchy →
    Except FinishingAbort (Hierarchy × List (Nat × List Int))
  | [], hierarchy => .ok (hierarchy, [])
  | adjacencyComponent :: adjacencyComponents, hierarchy =>
    if adjacencyComponent.address ≠ deadEndComponent then
      match makeTanglesCheck pinchEndsToEnds adjacencyComponent.ends hierarchy with
      | .error e => .error e
      | .ok (true, hierarchy1) =>
        makeTangles pinchEndsToEnds deadEndComponent adjacencyComponents hierarchy1
      | .ok (false, hierarchy1) =>
        match makeTanglesEnds pinchEndsToEnds hierarchy1.flower.groupNumber
            adjacencyComponent.ends
            (hierarchy1.mapFlower (fun f => f.constructGroup)) with
        | .error e => .error e
        | .ok (hierarchy2, names) =>
          match makeTangles pinchEndsToEnds deadEndComponent adjacencyComponents
              hierarchy2 with
          | .error e => .error e
          | .ok (hierarchy3, groups) =>
            .ok (hierarchy3, (hierarchy1.flower.groupNumber, names) :: groups)
    else
      makeTangles pinchEndsToEnds deadEndComponent adjacencyComponents hierarchy

/-! ### The vocabulary of the specification and the scenarios -/

/-- A lower case base or an `N`, the characters the repeat filter rejects. -/
def isRepeatBase (c : Char) : Prop :=
  c.isLower = true ∨ c = 'N'

/-- An ASCII letter or a dash, the alphabet of a fetched sequence string. -/
def isBaseOrDash (c : Char) : Prop :=
  c.isUpper = true ∨ c.isLower = true ∨ c = '-'

/-- The piece with `trim` positions taken off each end, in the words of the
specification. -/
def Piece.trimmed (piece : Piece) (trim : Int) : Piece :=
  { contig := piece.contig, start := piece.start + trim, end_ := piece.end_ - trim }

/-- A two contig store for the scenarios: contig 0 holds `aaaaa`, any other
contig holds `ACGTA`, the forward strand is read from 1-based coordinate
`start`. -/
def scenarioStore (contig start length _strand : Int) : List Char :=
  let s := if contig = 0 then ['a', 'a', 'a', 'a', 'a'] else ['A', 'C', 'G', 'T', 'A']
  (s.drop (start - 1).toNat).take length.toNat

/-- A terminal flower without built blocks over the scenario store. -/
def scenarioFlower : Flower :=
  { builtBlocks := false
    isTerminal := true
    groupNumber := 1
    firstGroupIsLeaf := true
    chainNumber := 0
    sequence_getString := scenarioStore }

/-- All calls of a round, in the order made. -/
def Round.calls {W B : Type} (round : Round W B) : List (Call B) :=
  round.merging ++ (round.deannealing.map (fun step => step.calls)).flatten ++ round.closing

/-- The chain-length cutoffs of the de-annealing steps, in order. -/
def cutoffs {W B : Type} (steps : List (DeannealingStep W B)) : List ℚ :=
  steps.map (fun step => step.deannealingChainLength)

/-- A call of `fillOutFlowerFromInputs`, whatever its block set. -/
def Call.isFillOutFlower {B : Type} : Call B → Bool
  | .fillOutFlowerFromInputs _ => true
  | _ => false

/-- The number of passes of a de-annealing loop with `deannealingRounds > 0`
and a minimum chain length that is not negative: one pass when the minimum
chain length is zero, else `deannealingRounds` rounded up. -/
def passes (deannealingRounds minimumChainLength : ℚ) : Nat :=
  if minimumChainLength = 0 then 1 else ⌈deannealingRounds⌉.toNat

/-- A call of `pinchMergePiece`, whatever its pieces. -/
def Call.isMerge {B : Type} : Call B → Bool
  | .pinchMergePiece _ _ _ => true
  | _ => false

/-- The inputs on which the pipeline runs to its end: no assertion fails and
both loops finish within the step budget `fuel`. -/
structure Admissible {W B : Type} (benDebug : Bool) (m : Modules W B) (fuel : Nat)
    (flower : Flower) (cCIP : CactusCoreInputParameters) : Prop where
  /-- Line 227. -/
  notBuilt : flower.builtBlocks = false
  /-- Lines 230 to 234. -/
  debugChecks : benDebug = true →
    flower.isTerminal = true ∧ flower.groupNumber = 1 ∧
      flower.firstGroupIsLeaf = true ∧ flower.chainNumber ≤ 1
  /-- Line 325, for the first round. -/
  trimNonneg : 0 ≤ cCIP.trim
  /-- The cutoff can reach the minimum chain length. -/
  chainLengthNonneg : 0 ≤ cCIP.minimumChainLength
  /-- Line 86. -/
  equalLengths : ∀ w : W, ∀ pairwiseAlignment ∈ m.alignmentStack w,
    ∀ pair ∈ pairwiseAlignment, pair.1.end_ - pair.1.start = pair.2.end_ - pair.2.start
  /-- Line 62. -/
  bases : ∀ contig start length strand : Int,
    ∀ c ∈ flower.sequence_getString contig start length strand, isBaseOrDash c
  /-- The budget covers the rounds of the outer loop. -/
  outerFuel : cCIP.annealingRounds ≤ (fuel : Int)
  /-- The budget covers the steps of a de-annealing loop. -/
  innerFuel : cCIP.deannealingRounds ≤ (fuel : ℚ)
  /-- A loop body is entered before its exit test. -/
  fuelPos : 1 ≤ fuel

/-- Other modules for the scenarios: no state, a source that hands out in
every round the one alignment of `A[1..6]` with `B[1..6]`, and a filter that
keeps no block. -/
def scenarioModules : Modules Unit Nat :=
  { apply := fun w _ => w
    alignmentStack := fun _ => [[(⟨0, 1, 6⟩, ⟨1, 1, 6⟩)]]
    filterBlocksByTreeCoverageAndLength := fun _ _ _ _ _ => [] }

/-- Other modules for scenario S5. The state is the list of the blocks in the
graph; every block has two segments, length 2, tree coverage 1 and lies in a
chain of length 2, so the filter keeps all blocks or none; undoing blocks
removes them from the state. -/
def scenarioS5Modules : Modules (List Nat) Nat :=
  { apply := fun w call =>
      match call with
      | .removeOverAlignedEdges blocksToUndo => w.filter (fun b => decide (b ∉ blocksToUndo))
      | _ => w
    alignmentStack := fun _ => []
    filterBlocksByTreeCoverageAndLength :=
      fun w minimumTreeCoverage minimumBlockDegree minimumBlockLength minimumChainLength =>
        if minimumTreeCoverage ≤ 1 ∧ minimumBlockDegree ≤ 2 ∧ minimumBlockLength ≤ 2 ∧
            minimumChainLength ≤ 2 then w else [] }

/-- The configuration of scenario S5: a minimum chain length of 10, everything
else at its default. -/
def scenarioS5 : CactusCoreInputParameters :=
  { constructCactusCoreInputParameters with minimumChainLength := 10 }

/-- Other modules for scenario S4: as `scenarioModules`, but the alignment is
`A[1..5]` with `B[1..5]`, where contig A is `aaaaa` in the scenario store. -/
def scenarioS4Modules : Modules Unit Nat :=
  { apply := fun w _ => w
    alignmentStack := fun _ => [[(⟨0, 1, 5⟩, ⟨1, 1, 5⟩)]]
    filterBlocksByTreeCoverageAndLength := fun _ _ _ _ _ => [] }

/-- The configuration of scenario S4 over two rounds: repeat-masked bases are
admitted from round 1 on. -/
def scenarioS4 : CactusCoreInputParameters :=
  { constructCactusCoreInputParameters with
    annealingRounds := 2
    alignRepeatsAtRound := 1 }

/-- The default configuration with a given number of de-annealing rounds. -/
def scenarioDeannealing (deannealingRounds : ℚ) : CactusCoreInputParameters :=
  { constructCactusCoreInputParameters with deannealingRounds := deannealingRounds }

/-- The configuration of scenario S6: two annealing rounds, `trim = 2`,
`trim_change = -1`, everything else at its default. -/
def scenarioS6 : CactusCoreInputParameters :=
  { constructCactusCoreInputParameters with
    annealingRounds := 2
    trim := 2
    trimChange := -1 }

/-- The flag of a call of `computeCactusGraph`, if the call is one. -/
def Call.excludeDegree1Edges? {B : Type} : Call B → Option Int
  | .computeCactusGraph excludeDegree1Edges => some excludeDegree1Edges
  | _ => none

/-- The flag of a call of `linkStubComponentsToTheSinkComponent`, if the call
is one. -/
def Call.attachEnds? {B : Type} : Call B → Option Int
  | .linkStubComponentsToTheSinkComponent attachEnds => some attachEnds
  | _ => none

/-- A flower that is not terminal and holds two chains, but no built blocks. -/
def scenarioNonTerminalFlower : Flower :=
  { builtBlocks := false
    isTerminal := false
    groupNumber := 1
    firstGroupIsLeaf := true
    chainNumber := 2
    sequence_getString := scenarioStore }

/-- The configuration of scenario S6 run over four rounds, so that the trim
reaches zero and stays there. -/
def scenarioFourRounds : CactusCoreInputParameters :=
  { constructCactusCoreInputParameters with
    annealingRounds := 4
    trim := 2
    trimChange := -1 }

mutual
/-- The flowers of a hierarchy, the given flower first and then the flowers
nested below it, each with its built-blocks flag. -/
def FlowerTree.flowers : FlowerTree → List (Int × Bool)
  | .mk name builtBlocks groups => (name, builtBlocks) :: groups.flowers
/-- The flowers nested in the groups of a list. -/
def GroupList.flowers : GroupList → List (Int × Bool)
  | .nil => []
  | .leaf rest => rest.flowers
  | .nested flower rest => flower.flowers ++ rest.flowers
end

mutual
/-- The hierarchy with the built-blocks flag of every flower set and nothing
else changed. -/
def FlowerTree.allBuilt : FlowerTree → FlowerTree
  | .mk name _ groups => .mk name true groups.allBuilt
/-- The groups with the built-blocks flag of every nested flower set. -/
def GroupList.allBuilt : GroupList → GroupList
  | .nil => .nil
  | .leaf rest => .leaf rest.allBuilt
  | .nested flower rest => .nested flower.allBuilt rest.allBuilt
end

/-- A parent flower 1 with a leaf group and two nested flowers, 2 and 4, the
first of which has a nested flower 3 of its own. -/
def scenarioHierarchy : FlowerTree :=
  .mk 1 false
    (.leaf (.nested (.mk 2 false (.nested (.mk 3 false .nil) .nil))
      (.nested (.mk 4 false (.leaf .nil)) .nil)))

/-- The two ends of a block, as values of the hash in the scenarios. -/
inductive BlockEnd where
  | fivePrime (block : Block)
  | threePrime (block : Block)
  deriving DecidableEq, Repr

/-- A pinch block of length 3 with a segment of thread 10 at coordinate 2, in
the orientation of the block, and a segment of thread 11 at coordinate 7, in
the opposite orientation. -/
def scenarioPinchBlock : PinchBlock :=
  { address := 1
    length := 3
    segments :=
      [{ name := 10, start := 2, blockOrientation := true },
       { name := 11, start := 7, blockOrientation := false }] }

/-- The cactus edge end of the scenario block: its pinch end is the block in
positive orientation, the pinch end of the other end of the edge is the block
in negative orientation. -/
def scenarioEdgeEnd : CactusEdgeEnd :=
  { object := some { block := scenarioPinchBlock, orientation := true }
    otherObject := { block := scenarioPinchBlock, orientation := false } }

/-- The parent flower of the scenario: the caps of the threads 10 and 11 lie
on the sequences 100 and 101. -/
def scenarioParentSequence (name : Int) : Option (Option Int) :=
  if name = 10 then some (some 100) else if name = 11 then some (some 101) else none

/-- The end of the given name in the flower `depth` levels above the given
flower of a hierarchy (0 is the flower itself): `none` when that flower has no
such end, or when the hierarchy has no such level, `some none` when the end has
no group, and else the group of the end. -/
def Hierarchy.endAt : Hierarchy → Nat → Int → Option (Option Nat)
  | .top flower, 0, name => flower.getEnd name
  | .top _, _ + 1, _ => none
  | .nested flower _ _, 0, name => flower.getEnd name
  | .nested _ _ parent, depth + 1, name => parent.endAt depth name

/-- The parent group of the flower `depth` levels above the given flower: the
group of its parent flower that leads to it; `none` at and above the top. -/
def Hierarchy.parentGroupAt : Hierarchy → Nat → Option Nat
  | .top _, _ => none
  | .nested _ parentGroup _, 0 => some parentGroup
  | .nested _ _ parent, depth + 1 => parent.parentGroupAt depth

/-- The number of groups of the flower `depth` levels above the given
flower. -/
def Hierarchy.groupNumberAt : Hierarchy → Nat → Option Nat
  | .top flower, 0 => some flower.groupNumber
  | .top _, _ + 1 => none
  | .nested flower _ _, 0 => some flower.groupNumber
  | .nested _ _ parent, depth + 1 => parent.groupNumberAt depth

/-- The writes that copy an end down from the flower `k` levels above the
given flower, top first: for `i` from `k - 1` down to 0, the group of the end
in the flower `i + 1` levels up is set to the parent group of the flower `i`
levels up, and then the end is copied into the flower `i` levels up. -/
def copyCalls (name : Int) (hierarchy : Hierarchy) (k : Nat) : List EndCall :=
  (List.range k).reverse.flatMap (fun i =>
    [.end_setGroup (i + 1) name ((hierarchy.parentGroupAt i).getD 0),
      .end_copyConstruct i name])

/-- A hierarchy of three flowers: the given flower holds the end 5 only and is
nested in group 3 of a flower without ends, which is nested in group 7 of the
top flower, where the ends 9 and 5 have no group. -/
def scenarioEnds : Hierarchy :=
  .nested { ends := [(5, none)], groupNumber := 0 } 3
    (.nested { ends := [], groupNumber := 4 } 7
      (.top { ends := [(9, none), (5, none)], groupNumber := 8 }))

/-- A hash of pinch ends, here numbers: pinch end 0 has the free stub end 9, in
negative orientation, and no other pinch end is in the hash. -/
def scenarioHash (pinchEnd : Nat) : Option End :=
  if pinchEnd = 0 then
    some { name := 9, orientation := false, isFree := true, isStubEnd := true }
  else none

/-- Whether the end that the hash has for a pinch end is in negative
orientation. -/
def isNegativeEnd {P : Type} (pinchEndsToEnds : P → Option End) (pinchEnd : P) : Bool :=
  match pinchEndsToEnds pinchEnd with
  | some end_ => !end_.orientation
  | none => false

/-- A component of size 1 whose single end is not in positive orientation. -/
def AdjacencyComponent.isSkipped {P : Type} (pinchEndsToEnds : P → Option End)
    (adjacencyComponent : AdjacencyComponent P) : Bool :=
  match adjacencyComponent.ends with
  | [pinchEnd] => isNegativeEnd pinchEndsToEnds pinchEnd
  | _ => false

/-- Whether a component is the dead-end component. -/
def AdjacencyComponent.isDeadEnd {P : Type} (deadEndComponent : Nat)
    (adjacencyComponent : AdjacencyComponent P) : Bool :=
  decide (adjacencyComponent.address = deadEndComponent)

/-- The components of a node that are to have a group: those that are not the
dead-end component, except the components of size 1 whose single end is not in
positive orientation. -/
def groupedComponents {P : Type} (pinchEndsToEnds : P → Option End) (deadEndComponent : Nat)
    (adjacencyComponents : List (AdjacencyComponent P)) : List (AdjacencyComponent P) :=
  adjacencyComponents.filter (fun adjacencyComponent =>
    !adjacencyComponent.isDeadEnd deadEndComponent &&
      !adjacencyComponent.isSkipped pinchEndsToEnds)

/-- The names of the ends that the hash has for the given pinch ends, in
order. -/
def endNames {P : Type} (pinchEndsToEnds : P → Option End) (pinchEnds : List P) : List Int :=
  pinchEnds.filterMap (fun pinchEnd => (pinchEndsToEnds pinchEnd).map End.name)

/-- A node and a flower on which no assertion of `makeTangles` fails: the hash
has an end for every pinch end of a component other than the dead-end
component, and the end is in the given flower; the ends of the components that
are to have a group are in positive orientation and have no group, and no two
of them have the same name. -/
structure TanglesAdmissible {P : Type} (pinchEndsToEnds : P → Option End)
    (deadEndComponent : Nat) (adjacencyComponents : List (AdjacencyComponent P))
    (hierarchy : Hierarchy) : Prop where
  present : ∀ adjacencyComponent ∈ adjacencyComponents,
    adjacencyComponent.address ≠ deadEndComponent →
    ∀ pinchEnd ∈ adjacencyComponent.ends, ∃ end_ x,
      pinchEndsToEnds pinchEnd = some end_ ∧ hierarchy.flower.getEnd end_.name = some x
  positive : ∀ adjacencyComponent ∈
      groupedComponents pinchEndsToEnds deadEndComponent adjacencyComponents,
    ∀ pinchEnd ∈ adjacencyComponent.ends, ∀ end_,
      pinchEndsToEnds pinchEnd = some end_ →
      end_.orientation = true ∧ hierarchy.flower.getEnd end_.name = some none
  distinct : ((groupedComponents pinchEndsToEnds deadEndComponent adjacencyComponents).flatMap
    (fun adjacencyComponent => endNames pinchEndsToEnds adjacencyComponent.ends)).Nodup

/-- A node of four components, the pinch ends being numbers: the dead-end
component at address 0, a component of the two pinch ends 1 and 2, a component
of the single pinch end 3, whose end is in negative orientation, and a
component of the single pinch end 4, whose end is in positive orientation. -/
def scenarioComponents : List (AdjacencyComponent Nat) :=
  [{ address := 0, ends := [0] }, { address := 1, ends := [1, 2] },
    { address := 2, ends := [3] }, { address := 3, ends := [4] }]

/-- The hash of the scenario node: pinch end `n` from 1 to 4 has the end of
name `10 + n`, in positive orientation except for pinch end 3. -/
def scenarioTanglesHash (pinchEnd : Nat) : Option End :=
  if 1 ≤ pinchEnd ∧ pinchEnd ≤ 4 then
    some { name := 10 + pinchEnd, orientation := decide (pinchEnd ≠ 3), isFree := true,
           isStubEnd := true }
  else none

/-- The flower of the scenario node, at the top of its hierarchy: it has the
ends 11 to 14, none of them in a group, and two groups already. -/
def scenarioTanglesFlower : Hierarchy :=
  .top { ends := [(11, none), (12, none), (13, none), (14, none)], groupNumber := 2 }

/-- An integer that an `int32_t` can hold. -/
def inInt32 (x : Int) : Prop :=
  -2147483648 ≤ x ∧ x ≤ 2147483647

instance (x : Int) : Decidable (inInt32 x) := by
  unfold inInt32
  infer_instance

/-! ## Theorems -/

theorem isLower_iff (c : Char) : c.isLower = true ↔ 97 ≤ c.toNat ∧ c.toNat ≤ 122 := by
  simp [Char.isLower, Char.toNat, UInt32.le_def, UInt32.toNat, BitVec.le_def]

theorem isUpper_iff (c : Char) : c.isUpper = true ↔ 65 ≤ c.toNat ∧ c.toNat ≤ 90 := by
  simp [Char.isUpper, Char.toNat, UInt32.le_def, UInt32.toNat, BitVec.le_def]

theorem char_eq_of_toNat_eq (c d : Char) (h : c.toNat = d.toNat) : c = d := by
  apply Char.ext
  apply UInt32.ext
  exact h

/-- The test of line 63 is the specification's "lower case base or `N`". -/
theorem isRepeatBase_iff (c : Char) :
    isRepeatBase c ↔ ((c.toNat ≥ 97 ∧ c.toNat ≤ 122) ∨ c = 'N') := by
  unfold isRepeatBase
  rw [isLower_iff]

/-- The test of line 62 together with the dash test of line 61 is the
alphabet "ASCII letter or dash". -/
theorem isBaseOrDash_iff (c : Char) :
    isBaseOrDash c ↔
      (c = '-' ∨ (c.toNat ≥ 65 ∧ c.toNat ≤ 90) ∨ (c.toNat ≥ 97 ∧ c.toNat ≤ 122)) := by
  unfold isBaseOrDash
  rw [isLower_iff, isUpper_iff]
  tauto

theorem dash_not_repeatBase : ¬ isRepeatBase '-' := by
  rw [isRepeatBase_iff]
  decide

/-- A scan that answers "yes" has met a lower case base or an `N`. -/
theorem containsRepeatBases_true (string : List Char)
    (h : containsRepeatBases string = .ok true) : ∃ c ∈ string, isRepeatBase c := by
  induction string with
  | nil => simp [containsRepeatBases] at h
  | cons c string ih =>
    unfold containsRepeatBases at h
    split_ifs at h with h1 h2 h3
    · exact ⟨c, List.mem_cons_self _ _, (isRepeatBase_iff c).2 h3⟩
    · obtain ⟨d, hd, hr⟩ := ih h
      exact ⟨d, List.mem_cons_of_mem _ hd, hr⟩
    · obtain ⟨d, hd, hr⟩ := ih h
      exact ⟨d, List.mem_cons_of_mem _ hd, hr⟩

/-- A scan that answers "no" has met no lower case base and no `N`. -/
theorem containsRepeatBases_false (string : List Char)
    (h : containsRepeatBases string = .ok false) : ∀ c ∈ string, ¬ isRepeatBase c := by
  induction string with
  | nil => simp
  | cons c string ih =>
    unfold containsRepeatBases at h
    intro d hd
    split_ifs at h with h1 h2 h3
    · cases h
    · rcases List.mem_cons.1 hd with rfl | hd
      · rw [isRepeatBase_iff]
        exact h3
      · exact ih h d hd
    · rcases List.mem_cons.1 hd with rfl | hd
      · rw [not_not] at h1
        rw [h1]
        exact dash_not_repeatBase
      · exact ih h d hd

/-- On the sequence alphabet the scan never trips the assertion of line 62. -/
theorem containsRepeatBases_ok (string : List Char) (h : ∀ c ∈ string, isBaseOrDash c) :
    containsRepeatBases string = .ok true ∨ containsRepeatBases string = .ok false := by
  induction string with
  | nil => right; rfl
  | cons c string ih =>
    have hc := (isBaseOrDash_iff c).1 (h c (List.mem_cons_self _ _))
    have ht := ih (fun d hd => h d (List.mem_cons_of_mem _ hd))
    unfold containsRepeatBases
    split_ifs with h1 h2 h3
    · left; rfl
    · exact ht
    · exfalso
      rcases hc with hc | hc
      · exact h1 hc
      · exact h2 hc
    · exact ht

/-- A dash is skipped by the scan. -/
theorem containsRepeatBases_filter_dash (string : List Char) :
    containsRepeatBases (string.filter (fun c => decide (c ≠ '-'))) =
      containsRepeatBases string := by
  induction string with
  | nil => rfl
  | cons c string ih =>
    by_cases hc : c = '-'
    · subst hc
      rw [List.filter_cons_of_neg (by simp)]
      rw [ih]
      conv_rhs => unfold containsRepeatBases
      simp
    · rw [List.filter_cons_of_pos (by simpa using hc)]
      unfold containsRepeatBases
      rw [ih]

/-- A pair that fails the length test is dropped. -/
theorem filterPiece_short (piece piece2 : Piece) (fp : FilterAlignmentParameters)
    (hlen : piece.end_ - piece.start = piece2.end_ - piece2.start)
    (hL : piece.end_ - piece.start + 1 ≤ 2 * fp.trim) :
    filterPieceAndThenAddToGraph piece piece2 fp = .ok none := by
  unfold filterPieceAndThenAddToGraph
  rw [if_neg (not_not.2 hlen), if_neg (not_lt.2 hL)]

/-- A pair that passes the length test reaches the repeat filter with both
pieces trimmed: none of the assertions of lines 86, 93 and 94 fails. -/
theorem filterPiece_long (piece piece2 : Piece) (fp : FilterAlignmentParameters)
    (hlen : piece.end_ - piece.start = piece2.end_ - piece2.start)
    (hL : piece.end_ - piece.start + 1 > 2 * fp.trim) :
    filterPieceAndThenAddToGraph piece piece2 fp =
      if fp.alignRepeats = 0 then
        match containsRepeatBases (piece_getString (piece.trimmed fp.trim) fp.flower) with
        | .error e => .error e
        | .ok true => .ok none
        | .ok false =>
          match containsRepeatBases (piece_getString (piece2.trimmed fp.trim) fp.flower) with
          | .error e => .error e
          | .ok true => .ok none
          | .ok false => .ok (some (piece.trimmed fp.trim, piece2.trimmed fp.trim))
      else
        .ok (some (piece.trimmed fp.trim, piece2.trimmed fp.trim)) := by
  unfold filterPieceAndThenAddToGraph
  rw [if_neg (not_not.2 hlen), if_pos hL]
  have h1 : ¬ (piece.end_ - fp.trim - (piece.start + fp.trim) ≠
      piece2.end_ - fp.trim - (piece2.start + fp.trim)) := by
    rw [not_not]
    omega
  have h2 : ¬ ¬ (piece.end_ - fp.trim - (piece.start + fp.trim) ≥ 0) := by
    rw [not_not]
    omega
  simp only [h1, h2, if_false]
  rfl

/-- With the repeat filter off, a pair that passes the length test is merged
as the two trimmed pieces. -/
theorem filterPiece_long_alignRepeats (piece piece2 : Piece) (fp : FilterAlignmentParameters)
    (hlen : piece.end_ - piece.start = piece2.end_ - piece2.start)
    (hL : piece.end_ - piece.start + 1 > 2 * fp.trim) (hrep : fp.alignRepeats ≠ 0) :
    filterPieceAndThenAddToGraph piece piece2 fp =
      .ok (some (piece.trimmed fp.trim, piece2.trimmed fp.trim)) := by
  rw [filterPiece_long piece piece2 fp hlen hL, if_neg hrep]

/-- Whatever the repeat filter decides, a merge of a pair that passes the
length test is a merge of the two trimmed pieces. -/
theorem filterPiece_long_merged (piece piece2 : Piece) (fp : FilterAlignmentParameters)
    (hlen : piece.end_ - piece.start = piece2.end_ - piece2.start)
    (hL : piece.end_ - piece.start + 1 > 2 * fp.trim) (a b : Piece)
    (h : filterPieceAndThenAddToGraph piece piece2 fp = .ok (some (a, b))) :
    a = piece.trimmed fp.trim ∧ b = piece2.trimmed fp.trim ∧
    (fp.alignRepeats = 0 →
      containsRepeatBases (piece_getString (piece.trimmed fp.trim) fp.flower) = .ok false ∧
      containsRepeatBases (piece_getString (piece2.trimmed fp.trim) fp.flower) = .ok false) := by
  rw [filterPiece_long piece piece2 fp hlen hL] at h
  split_ifs at h with hrep
  · split at h
    · cases h
    · cases h
    · rename_i h1
      split at h
      · cases h
      · cases h
      · rename_i h2
        simp only [Except.ok.injEq, Option.some.injEq, Prod.mk.injEq] at h
        exact ⟨h.1.symm, h.2.symm, fun _ => ⟨h1, h2⟩⟩
  · simp only [Except.ok.injEq, Option.some.injEq, Prod.mk.injEq] at h
    exact ⟨h.1.symm, h.2.symm, fun h0 => absurd h0 hrep⟩

/-- The only assertion the scan can trip is the one of line 62. -/
theorem containsRepeatBases_error (string : List Char) (e : Abort)
    (h : containsRepeatBases string = .error e) : e = .notABase := by
  induction string with
  | nil => cases h
  | cons c string ih =>
    unfold containsRepeatBases at h
    split_ifs at h
    · exact ih h
    · cases h
      rfl
    · exact ih h

/-- A pair that passes the length test either is merged, or is dropped by the
repeat filter, or stops at the assertion of line 62. -/
theorem filterPiece_long_cases (piece piece2 : Piece) (fp : FilterAlignmentParameters)
    (hlen : piece.end_ - piece.start = piece2.end_ - piece2.start)
    (hL : piece.end_ - piece.start + 1 > 2 * fp.trim) :
    filterPieceAndThenAddToGraph piece piece2 fp =
        .ok (some (piece.trimmed fp.trim, piece2.trimmed fp.trim)) ∨
      filterPieceAndThenAddToGraph piece piece2 fp = .ok none ∨
      filterPieceAndThenAddToGraph piece piece2 fp = .error .notABase := by
  rw [filterPiece_long piece piece2 fp hlen hL]
  split_ifs
  · split
    · rename_i e h1
      rw [containsRepeatBases_error _ e h1]
      simp
    · simp
    · split
      · rename_i e h2
        rw [containsRepeatBases_error _ e h2]
        simp
      · simp
      · simp
  · simp

/-- C1: for two pieces of equal length `L = end - start + 1` and a trim with
`L > 2 * trim` (the sign of the trim plays no part), none of the assertions of
lines 86, 93 and 94 fails; with the repeat filter off the pieces
`(start + trim, end - trim)` of both sides are handed to the merge; and whenever
a merge is made it is of exactly those two pieces, which have the same length
`L - 2 * trim`, at least 1, and hold no position within `trim` positions of an
original end point. -/
theorem filterPieceAndThenAddToGraph_trim (piece piece2 : Piece)
    (fp : FilterAlignmentParameters)
    (hlen : piece.end_ - piece.start = piece2.end_ - piece2.start)
    (hL : piece.end_ - piece.start + 1 > 2 * fp.trim) :
    (filterPieceAndThenAddToGraph piece piece2 fp ≠ .error .piecesDifferInLength ∧
      filterPieceAndThenAddToGraph piece piece2 fp ≠ .error .trimmedPiecesDifferInLength ∧
      filterPieceAndThenAddToGraph piece piece2 fp ≠ .error .trimmedPieceEmpty) ∧
    (fp.alignRepeats ≠ 0 →
      filterPieceAndThenAddToGraph piece piece2 fp =
        .ok (some ({ contig := piece.contig, start := piece.start + fp.trim,
                     end_ := piece.end_ - fp.trim },
                   { contig := piece2.contig, start := piece2.start + fp.trim,
                     end_ := piece2.end_ - fp.trim }))) ∧
    (∀ a b : Piece, filterPieceAndThenAddToGraph piece piece2 fp = .ok (some (a, b)) →
      (a.contig = piece.contig ∧ a.start = piece.start + fp.trim ∧
        a.end_ = piece.end_ - fp.trim) ∧
      (b.contig = piece2.contig ∧ b.start = piece2.start + fp.trim ∧
        b.end_ = piece2.end_ - fp.trim) ∧
      a.end_ - a.start + 1 = (piece.end_ - piece.start + 1) - 2 * fp.trim ∧
      b.end_ - b.start + 1 = (piece.end_ - piece.start + 1) - 2 * fp.trim ∧
      1 ≤ a.end_ - a.start + 1 ∧
      (∀ x : Int, a.start ≤ x → x ≤ a.end_ →
        fp.trim ≤ x - piece.start ∧ fp.trim ≤ piece.end_ - x) ∧
      (∀ x : Int, b.start ≤ x → x ≤ b.end_ →
        fp.trim ≤ x - piece2.start ∧ fp.trim ≤ piece2.end_ - x)) := by
  refine ⟨?_, ?_, ?_⟩
  · rcases filterPiece_long_cases piece piece2 fp hlen hL with h | h | h <;>
      rw [h] <;> simp
  · intro hrep
    exact filterPiece_long_alignRepeats piece piece2 fp hlen hL hrep
  · intro a b h
    obtain ⟨ha, hb, -⟩ := filterPiece_long_merged piece piece2 fp hlen hL a b h
    subst ha
    subst hb
    refine ⟨⟨rfl, rfl, rfl⟩, ⟨rfl, rfl, rfl⟩, ?_, ?_, ?_, ?_, ?_⟩ <;>
      simp only [Piece.trimmed]
    · omega
    · omega
    · omega
    · intro x h1 h2
      constructor <;> omega
    · intro x h1 h2
      constructor <;> omega

/-- C1 at the scenario S3: `A[1..5]` and `B[1..5]` with `trim = 1` are merged
as `[2..4]` and `[2..4]`, of length 3. -/
theorem filterPieceAndThenAddToGraph_trim_witness :
    filterPieceAndThenAddToGraph ⟨0, 1, 5⟩ ⟨1, 1, 5⟩
        { alignRepeats := 1, trim := 1, flower := scenarioFlower } =
      .ok (some (⟨0, 2, 4⟩, ⟨1, 2, 4⟩)) ∧
    ((4 : Int) - 2 + 1 = 3) :=
  ⟨(filterPieceAndThenAddToGraph_trim ⟨0, 1, 5⟩ ⟨1, 1, 5⟩
      { alignRepeats := 1, trim := 1, flower := scenarioFlower }
      (by decide) (by decide)).2.1 (by decide), by decide⟩

/-- With the arithmetic taken exactly and the repeat filter off, a pair of
pieces of equal length is dropped if and only if its length `end - start + 1`
is at most `2 * trim`, and merged if and only if the length is greater. -/
theorem filterPiece_drop_iff (piece piece2 : Piece)
    (fp : FilterAlignmentParameters)
    (hlen : piece.end_ - piece.start = piece2.end_ - piece2.start)
    (hrep : fp.alignRepeats ≠ 0) :
    (filterPieceAndThenAddToGraph piece piece2 fp = .ok none ↔
      piece.end_ - piece.start + 1 ≤ 2 * fp.trim) ∧
    ((∃ a b : Piece, filterPieceAndThenAddToGraph piece piece2 fp = .ok (some (a, b))) ↔
      piece.end_ - piece.start + 1 > 2 * fp.trim) := by
  by_cases hL : piece.end_ - piece.start + 1 > 2 * fp.trim
  · have h := filterPiece_long_alignRepeats piece piece2 fp hlen hL hrep
    rw [h]
    constructor
    · constructor
      · intro h0
        cases h0
      · intro h0
        omega
    · constructor
      · intro _
        exact hL
      · intro _
        exact ⟨_, _, rfl⟩
  · have h := filterPiece_short piece piece2 fp hlen (not_lt.1 hL)
    rw [h]
    constructor
    · constructor
      · intro _
        exact not_lt.1 hL
      · intro _
        rfl
    · constructor
      · rintro ⟨a, b, h0⟩
        cases h0
      · intro h0
        exact absurd h0 hL

/-- An `int32_t` operation whose exact result fits gives that result. -/
theorem wrapInt32_of_inInt32 (x : Int) (h : inInt32 x) : wrapInt32 x = x := by
  unfold inInt32 at h
  unfold wrapInt32
  omega

/-- With the repeat filter off, as long as no `int32_t` operation overflows,
the function computes in `int32_t` what it computes with the arithmetic taken
exactly: the coordinates and the length of the pieces fit, the trim is not
negative, and `2 * trim` fits. -/
theorem filterPieceAndThenAddToGraphInt32_exact (piece piece2 : Piece)
    (fp : FilterAlignmentParameters)
    (hpiece : inInt32 piece.start ∧ inInt32 piece.end_)
    (hpiece2 : inInt32 piece2.start ∧ inInt32 piece2.end_)
    (hlen : piece.end_ - piece.start = piece2.end_ - piece2.start)
    (hlength : inInt32 (piece.end_ - piece.start) ∧ inInt32 (piece.end_ - piece.start + 1))
    (htrim : 0 ≤ fp.trim) (hbound : 2 * fp.trim ≤ 2147483647)
    (hrep : fp.alignRepeats ≠ 0) :
    filterPieceAndThenAddToGraphInt32 piece piece2 fp =
      filterPieceAndThenAddToGraph piece piece2 fp := by
  obtain ⟨⟨hs1, hs2⟩, ⟨he1, he2⟩⟩ := hpiece
  obtain ⟨⟨hs3, hs4⟩, ⟨he3, he4⟩⟩ := hpiece2
  have hd := hlength.1
  have hd1 := hlength.2
  simp only [inInt32] at hd hd1
  have e1 : wrapInt32 (piece.end_ - piece.start) = piece.end_ - piece.start :=
    wrapInt32_of_inInt32 _ hlength.1
  have e2 : wrapInt32 (piece2.end_ - piece2.start) = piece2.end_ - piece2.start := by
    rw [← hlen]
    exact e1
  have e3 : wrapInt32 (piece.end_ - piece.start + 1) = piece.end_ - piece.start + 1 :=
    wrapInt32_of_inInt32 _ hlength.2
  have e4 : wrapInt32 (2 * fp.trim) = 2 * fp.trim :=
    wrapInt32_of_inInt32 _ ⟨by omega, hbound⟩
  by_cases hL : piece.end_ - piece.start + 1 > 2 * fp.trim
  · have e5 : wrapInt32 (piece.start + fp.trim) = piece.start + fp.trim :=
      wrapInt32_of_inInt32 _ ⟨by omega, by omega⟩
    have e6 : wrapInt32 (piece.end_ - fp.trim) = piece.end_ - fp.trim :=
      wrapInt32_of_inInt32 _ ⟨by omega, by omega⟩
    have e7 : wrapInt32 (piece2.start + fp.trim) = piece2.start + fp.trim :=
      wrapInt32_of_inInt32 _ ⟨by omega, by omega⟩
    have e8 : wrapInt32 (piece2.end_ - fp.trim) = piece2.end_ - fp.trim :=
      wrapInt32_of_inInt32 _ ⟨by omega, by omega⟩
    have e9 : wrapInt32 (piece.end_ - fp.trim - (piece.start + fp.trim)) =
        piece.end_ - fp.trim - (piece.start + fp.trim) :=
      wrapInt32_of_inInt32 _ ⟨by omega, by omega⟩
    have e10 : wrapInt32 (piece2.end_ - fp.trim - (piece2.start + fp.trim)) =
        piece2.end_ - fp.trim - (piece2.start + fp.trim) :=
      wrapInt32_of_inInt32 _ ⟨by omega, by omega⟩
    rw [filterPiece_long_alignRepeats piece piece2 fp hlen hL hrep]
    unfold filterPieceAndThenAddToGraphInt32
    simp only [e1, e2, e3, e4, e5, e6, e7, e8, e9, e10]
    rw [if_neg (not_not.2 hlen), if_pos hL, if_neg (not_not.2 (by omega)),
      if_neg (not_not.2 (by omega)), if_neg hrep]
    rfl
  · rw [filterPiece_short piece piece2 fp hlen (not_lt.1 hL)]
    unfold filterPieceAndThenAddToGraphInt32
    simp only [e1, e2, e3, e4]
    rw [if_neg (not_not.2 hlen), if_neg hL]

/-- C3: with the repeat filter on (`alignRepeats` false), take a pair that
passes the length test and the two strings fetched for its trimmed pieces. If
the pair is merged, neither string holds a lower case base or an `N`, so no
piece handed to the merge covers one. Over strings of the sequence alphabet
(letters and dashes, what line 62 asserts) the converse holds too: the pair is
merged if neither string holds such a base, and dropped otherwise. -/
theorem filterPieceAndThenAddToGraph_repeat_filter (piece piece2 : Piece)
    (fp : FilterAlignmentParameters)
    (hlen : piece.end_ - piece.start = piece2.end_ - piece2.start)
    (hL : piece.end_ - piece.start + 1 > 2 * fp.trim)
    (hrep : fp.alignRepeats = 0) :
    (∀ a b : Piece, filterPieceAndThenAddToGraph piece piece2 fp = .ok (some (a, b)) →
      (∀ c ∈ piece_getString a fp.flower, ¬ isRepeatBase c) ∧
      (∀ c ∈ piece_getString b fp.flower, ¬ isRepeatBase c)) ∧
    ((∀ c ∈ piece_getString (piece.trimmed fp.trim) fp.flower, isBaseOrDash c) →
      (∀ c ∈ piece_getString (piece2.trimmed fp.trim) fp.flower, isBaseOrDash c) →
      ((∃ a b : Piece, filterPieceAndThenAddToGraph piece piece2 fp = .ok (some (a, b))) ↔
        ((¬ ∃ c ∈ piece_getString (piece.trimmed fp.trim) fp.flower, isRepeatBase c) ∧
          ¬ ∃ c ∈ piece_getString (piece2.trimmed fp.trim) fp.flower, isRepeatBase c)) ∧
      (filterPieceAndThenAddToGraph piece piece2 fp =
          .ok (some (piece.trimmed fp.trim, piece2.trimmed fp.trim)) ∨
        filterPieceAndThenAddToGraph piece piece2 fp = .ok none)) := by
  constructor
  · intro a b h
    obtain ⟨ha, hb, hs⟩ := filterPiece_long_merged piece piece2 fp hlen hL a b h
    subst ha
    subst hb
    exact ⟨containsRepeatBases_false _ (hs hrep).1, containsRepeatBases_false _ (hs hrep).2⟩
  · intro hv1 hv2
    have hlong := filterPiece_long piece piece2 fp hlen hL
    rw [if_pos hrep] at hlong
    rcases containsRepeatBases_ok _ hv1 with h1 | h1
    · rw [h1] at hlong
      have hr1 := containsRepeatBases_true _ h1
      refine ⟨⟨?_, ?_⟩, Or.inr hlong⟩
      · rintro ⟨a, b, h⟩
        rw [hlong] at h
        cases h
      · rintro ⟨hn1, -⟩
        exact absurd hr1 hn1
    · rw [h1] at hlong
      have hr1 := containsRepeatBases_false _ h1
      rcases containsRepeatBases_ok _ hv2 with h2 | h2
      · rw [h2] at hlong
        have hr2 := containsRepeatBases_true _ h2
        refine ⟨⟨?_, ?_⟩, Or.inr hlong⟩
        · rintro ⟨a, b, h⟩
          rw [hlong] at h
          cases h
        · rintro ⟨-, hn2⟩
          exact absurd hr2 hn2
      · rw [h2] at hlong
        have hr2 := containsRepeatBases_false _ h2
        refine ⟨⟨?_, ?_⟩, Or.inl hlong⟩
        · intro _
          constructor
          · rintro ⟨c, hc, hr⟩
            exact hr1 c hc hr
          · rintro ⟨c, hc, hr⟩
            exact hr2 c hc hr
        · intro _
          exact ⟨_, _, hlong⟩

/-- C3 at the scenario S4: contig A is `aaaaa`, aligned to B over `[1..5]` with
`alignRepeats` false; no merge is made. -/
theorem filterPieceAndThenAddToGraph_repeat_filter_witness :
    filterPieceAndThenAddToGraph ⟨0, 1, 5⟩ ⟨1, 1, 5⟩
        { alignRepeats := 0, trim := 0, flower := scenarioFlower } = .ok none ∧
    ¬ ∃ a b : Piece, filterPieceAndThenAddToGraph ⟨0, 1, 5⟩ ⟨1, 1, 5⟩
        { alignRepeats := 0, trim := 0, flower := scenarioFlower } = .ok (some (a, b)) := by
  have hv1 : ∀ c ∈ piece_getString (Piece.trimmed ⟨0, 1, 5⟩ 0) scenarioFlower,
      isBaseOrDash c := by
    intro c hc
    have hc2 : c ∈ ['a', 'a', 'a', 'a', 'a'] := hc
    rw [isBaseOrDash_iff]
    simp only [List.mem_cons, List.mem_singleton, List.not_mem_nil, or_false, or_self] at hc2
    subst hc2
    decide
  have hv2 : ∀ c ∈ piece_getString (Piece.trimmed ⟨1, 1, 5⟩ 0) scenarioFlower,
      isBaseOrDash c := by
    intro c hc
    have hc2 : c ∈ ['A', 'C', 'G', 'T', 'A'] := hc
    rw [isBaseOrDash_iff]
    simp only [List.mem_cons, List.mem_singleton, List.not_mem_nil, or_false] at hc2
    rcases hc2 with rfl | rfl | rfl | rfl | rfl <;> decide
  have h := (filterPieceAndThenAddToGraph_repeat_filter ⟨0, 1, 5⟩ ⟨1, 1, 5⟩
    { alignRepeats := 0, trim := 0, flower := scenarioFlower }
    (by decide) (by decide) rfl).2 hv1 hv2
  have hno : ¬ ∃ a b : Piece, filterPieceAndThenAddToGraph ⟨0, 1, 5⟩ ⟨1, 1, 5⟩
      { alignRepeats := 0, trim := 0, flower := scenarioFlower } = .ok (some (a, b)) := by
    rw [h.1]
    rintro ⟨hn1, -⟩
    apply hn1
    refine ⟨'a', ?_, (isRepeatBase_iff 'a').2 (by decide)⟩
    have : piece_getString (Piece.trimmed ⟨0, 1, 5⟩ 0) scenarioFlower =
        ['a', 'a', 'a', 'a', 'a'] := rfl
    rw [this]
    simp
  refine ⟨?_, hno⟩
  rcases h.2 with h2 | h2
  · exact absurd ⟨_, _, h2⟩ hno
  · exact h2

/-- C4: on every string of ASCII letters and dashes `containsRepeatBases`
returns (no assertion fails), and it returns non-zero exactly when the string
holds a lower case letter or an `N`. Dashes do not matter: deleting them leaves
the result unchanged. The empty string returns 0, and so does every string made
of dashes and upper case letters other than `N`. -/
theorem containsRepeatBases_iff (string : List Char)
    (hvalid : ∀ c ∈ string, isBaseOrDash c) :
    (containsRepeatBases string = .ok true ∨ containsRepeatBases string = .ok false) ∧
    (containsRepeatBases string = .ok true ↔ ∃ c ∈ string, isRepeatBase c) ∧
    (containsRepeatBases string = .ok false ↔ ¬ ∃ c ∈ string, isRepeatBase c) ∧
    containsRepeatBases (string.filter (fun c => decide (c ≠ '-'))) =
      containsRepeatBases string ∧
    containsRepeatBases [] = .ok false ∧
    ((∀ c ∈ string, c = '-' ∨ (c.isUpper = true ∧ c ≠ 'N')) →
      containsRepeatBases string = .ok false) := by
  have hok := containsRepeatBases_ok string hvalid
  have hiff : containsRepeatBases string = .ok true ↔ ∃ c ∈ string, isRepeatBase c := by
    constructor
    · exact containsRepeatBases_true string
    · rintro ⟨c, hc, hr⟩
      rcases hok with h | h
      · exact h
      · exact absurd hr (containsRepeatBases_false string h c hc)
  have hiff2 : containsRepeatBases string = .ok false ↔ ¬ ∃ c ∈ string, isRepeatBase c := by
    constructor
    · rintro h ⟨c, hc, hr⟩
      exact containsRepeatBases_false string h c hc hr
    · intro hn
      rcases hok with h | h
      · exact absurd (containsRepeatBases_true string h) hn
      · exact h
  refine ⟨hok, hiff, hiff2, containsRepeatBases_filter_dash string, rfl, ?_⟩
  intro hup
  rw [hiff2]
  rintro ⟨c, hc, hr⟩
  rcases hup c hc with rfl | ⟨hu, hN⟩
  · exact dash_not_repeatBase hr
  · rw [isUpper_iff] at hu
    rw [isRepeatBase_iff] at hr
    rcases hr with hr | hr
    · omega
    · exact hN hr

/-- C4 at the string `AC-gT`: letters and dashes only, one lower case base, so
the scan returns non-zero. -/
theorem containsRepeatBases_iff_witness :
    (∀ c ∈ ['A', 'C', '-', 'g', 'T'], isBaseOrDash c) ∧
    containsRepeatBases ['A', 'C', '-', 'g', 'T'] = .ok true ∧
    containsRepeatBases ['A', 'C', '-', 'G', 'T'] = .ok false := by
  have hv : ∀ c ∈ ['A', 'C', '-', 'g', 'T'], isBaseOrDash c := by
    intro c hc
    rw [isBaseOrDash_iff]
    simp only [List.mem_cons, List.mem_singleton, List.not_mem_nil, or_false] at hc
    rcases hc with rfl | rfl | rfl | rfl | rfl <;> decide
  refine ⟨hv, ?_, rfl⟩
  exact (containsRepeatBases_iff _ hv).2.1.2
    ⟨'g', by simp, (isRepeatBase_iff 'g').2 (by decide)⟩


/-! ### The de-annealing loop -/

/-- If the cutoff first reaches the minimum chain length after `n` increments,
the loop makes `n + 1` passes, provided the budget allows them, and the cutoffs
of the passes are the start value plus 0, 1, ..., `n` increments. -/
theorem deannealingLoop_run {W B : Type} [DecidableEq B] (m : Modules W B)
    (cCIP : CactusCoreInputParameters) (terminateRecursion loop : Int)
    (minimumBlockLength minimumChainLength stepSize : ℚ) :
    ∀ (n fuel : Nat) (c : ℚ) (w : W), n + 1 ≤ fuel →
      minimumChainLength ≤ c + n * stepSize →
      (∀ i : Nat, i < n → c + i * stepSize < minimumChainLength) →
      ∃ w1 steps,
        deannealingLoop m cCIP terminateRecursion loop minimumBlockLength
          minimumChainLength stepSize fuel c w = .ok (w1, steps) ∧
        cutoffs steps = (List.range (n + 1)).map (fun i : Nat => c + i * stepSize) := by
  intro n
  induction n with
  | zero =>
    intro fuel c w hfuel hreach _
    obtain ⟨f, rfl⟩ : ∃ f, fuel = f + 1 := ⟨fuel - 1, by omega⟩
    have hc : c ≥ minimumChainLength := by simpa using hreach
    unfold deannealingLoop
    simp only [if_pos hc]
    exact ⟨_, _, rfl, by simp [cutoffs, List.range_succ]⟩
  | succ n ih =>
    intro fuel c w hfuel hreach hbelow
    obtain ⟨f, rfl⟩ : ∃ f, fuel = f + 1 := ⟨fuel - 1, by omega⟩
    have hc : ¬ c ≥ minimumChainLength := by
      have := hbelow 0 (Nat.succ_pos n)
      simp only [Nat.cast_zero, zero_mul, add_zero] at this
      exact not_le.2 this
    have hreach2 : minimumChainLength ≤ (c + stepSize) + n * stepSize := by
      have : c + ((n + 1 : Nat) : ℚ) * stepSize = (c + stepSize) + n * stepSize := by
        push_cast
        ring
      rw [← this]
      exact hreach
    have hbelow2 : ∀ i : Nat, i < n → (c + stepSize) + i * stepSize < minimumChainLength := by
      intro i hi
      have := hbelow (i + 1) (Nat.succ_lt_succ hi)
      have e : c + ((i + 1 : Nat) : ℚ) * stepSize = (c + stepSize) + i * stepSize := by
        push_cast
        ring
      rw [← e]
      exact this
    obtain ⟨w1, steps, hrun, hcut⟩ := ih f (c + stepSize) _ (by omega) hreach2 hbelow2
    unfold deannealingLoop
    simp only [if_neg hc]
    rw [hrun]
    refine ⟨w1, _, rfl, ?_⟩
    · simp only [cutoffs, List.map_cons]
      simp only [cutoffs] at hcut
      rw [hcut, List.range_succ_eq_map (n + 1)]
      simp only [List.map_cons, List.map_map, Nat.cast_zero, zero_mul, add_zero]
      congr 1
      apply List.map_congr_left
      intro i _
      simp only [Function.comp, Nat.cast_succ]
      ring

theorem passes_pos (d minimumChainLength : ℚ) (hd : 0 < d) : 1 ≤ passes d minimumChainLength := by
  unfold passes
  split_ifs
  · exact le_refl 1
  · have h : 0 < ⌈d⌉ := Int.ceil_pos.2 hd
    omega

/-- For a positive minimum chain length the number of passes is the least
natural number that is at least `deannealingRounds`. -/
theorem passes_cast (d minimumChainLength : ℚ) (hd : 0 < d) (hm : minimumChainLength ≠ 0) :
    ((passes d minimumChainLength : Nat) : Int) = ⌈d⌉ := by
  unfold passes
  rw [if_neg hm]
  exact Int.toNat_of_nonneg (le_of_lt (Int.ceil_pos.2 hd))

/-- With `deannealingRounds > 0` and a minimum chain length `m ≥ 0` the
de-annealing loop ends, within any budget of at least `passes` steps; the
cutoff of its `k`-th pass (counted from 1) is `k * m / deannealingRounds`, which
is below `m` for every pass but the last and at least `m` for the last. -/
theorem deannealing_run {W B : Type} [DecidableEq B] (m : Modules W B)
    (cCIP : CactusCoreInputParameters) (terminateRecursion loop : Int)
    (minimumBlockLength minimumChainLength : ℚ) (fuel : Nat) (w : W)
    (hd : 0 < cCIP.deannealingRounds) (hm : 0 ≤ minimumChainLength)
    (hfuel : passes cCIP.deannealingRounds minimumChainLength ≤ fuel) :
    ∃ w1 steps,
      deannealing m cCIP terminateRecursion loop minimumBlockLength minimumChainLength
        fuel w = .ok (w1, steps) ∧
      cutoffs steps =
        (List.range (passes cCIP.deannealingRounds minimumChainLength)).map
          (fun i : Nat => ((i : ℚ) + 1) * minimumChainLength / cCIP.deannealingRounds) ∧
      minimumChainLength ≤
        (passes cCIP.deannealingRounds minimumChainLength : ℚ) * minimumChainLength /
          cCIP.deannealingRounds ∧
      ∀ i : Nat, i + 1 < passes cCIP.deannealingRounds minimumChainLength →
        ((i : ℚ) + 1) * minimumChainLength / cCIP.deannealingRounds < minimumChainLength := by
  have hpos := passes_pos cCIP.deannealingRounds minimumChainLength hd
  obtain ⟨n, hn⟩ : ∃ n, passes cCIP.deannealingRounds minimumChainLength = n + 1 :=
    ⟨passes cCIP.deannealingRounds minimumChainLength - 1, by omega⟩
  have hlast : minimumChainLength ≤
      ((n + 1 : Nat) : ℚ) * minimumChainLength / cCIP.deannealingRounds := by
    by_cases h0 : minimumChainLength = 0
    · rw [h0]
      simp
    · have hcast := passes_cast cCIP.deannealingRounds minimumChainLength hd h0
      have hceil : cCIP.deannealingRounds ≤ ((n + 1 : Nat) : ℚ) := by
        have h1 : cCIP.deannealingRounds ≤ ((⌈cCIP.deannealingRounds⌉ : Int) : ℚ) :=
          Int.le_ceil _
        rw [← hcast, hn] at h1
        exact_mod_cast h1
      rw [le_div_iff₀ hd]
      calc minimumChainLength * cCIP.deannealingRounds
          ≤ minimumChainLength * ((n + 1 : Nat) : ℚ) :=
            mul_le_mul_of_nonneg_left hceil hm
        _ = ((n + 1 : Nat) : ℚ) * minimumChainLength := mul_comm _ _
  have hearlier : ∀ i : Nat, i < n →
      ((i : ℚ) + 1) * minimumChainLength / cCIP.deannealingRounds < minimumChainLength := by
    intro i hi
    by_cases h0 : minimumChainLength = 0
    · exfalso
      have : passes cCIP.deannealingRounds minimumChainLength = 1 := by
        unfold passes
        rw [if_pos h0]
      omega
    · have hcast := passes_cast cCIP.deannealingRounds minimumChainLength hd h0
      have hlt : (((i + 1 : Nat) : Int) : ℚ) < cCIP.deannealingRounds := by
        apply Int.lt_ceil.1
        rw [← hcast, hn]
        exact_mod_cast Nat.succ_lt_succ hi
      have hmpos : 0 < minimumChainLength := lt_of_le_of_ne hm (Ne.symm h0)
      have e : ((i : ℚ) + 1) = (((i + 1 : Nat) : Int) : ℚ) := by
        push_cast
        ring
      rw [e, div_lt_iff₀ hd, mul_comm]
      exact mul_lt_mul_of_pos_left hlt hmpos
  have hreach : minimumChainLength ≤
      minimumChainLength / cCIP.deannealingRounds +
        n * (minimumChainLength / cCIP.deannealingRounds) := by
    have e : minimumChainLength / cCIP.deannealingRounds +
        n * (minimumChainLength / cCIP.deannealingRounds) =
        ((n + 1 : Nat) : ℚ) * minimumChainLength / cCIP.deannealingRounds := by
      push_cast
      ring
    rw [e]
    exact hlast
  have hbelow : ∀ i : Nat, i < n →
      minimumChainLength / cCIP.deannealingRounds +
        i * (minimumChainLength / cCIP.deannealingRounds) < minimumChainLength := by
    intro i hi
    have e : minimumChainLength / cCIP.deannealingRounds +
        i * (minimumChainLength / cCIP.deannealingRounds) =
        ((i : ℚ) + 1) * minimumChainLength / cCIP.deannealingRounds := by
      ring
    rw [e]
    exact hearlier i hi
  obtain ⟨w1, steps, hrun, hcut⟩ :=
    deannealingLoop_run m cCIP terminateRecursion loop minimumBlockLength minimumChainLength
      (minimumChainLength / cCIP.deannealingRounds) n fuel
      (minimumChainLength / cCIP.deannealingRounds) w (by omega) hreach hbelow
  refine ⟨w1, steps, ?_, ?_, ?_, ?_⟩
  · unfold deannealing
    rw [if_pos hd]
    exact hrun
  · rw [hcut, hn]
    apply List.map_congr_left
    intro i _
    ring
  · rw [hn]
    exact hlast
  · intro i hi
    exact hearlier i (by omega)

/-- A budget that covers `deannealingRounds` covers the passes of the loop. -/
theorem passes_le_fuel (d minimumChainLength : ℚ) (fuel : Nat) (h1 : 1 ≤ fuel)
    (hd : d ≤ (fuel : ℚ)) : passes d minimumChainLength ≤ fuel := by
  unfold passes
  split_ifs
  · exact h1
  · have h : ⌈d⌉ ≤ (fuel : Int) := Int.ceil_le.2 (by exact_mod_cast hd)
    omega

/-- For a whole number of de-annealing rounds the passes are as many, unless
the minimum chain length is zero. -/
theorem passes_int (d : Int) (minimumChainLength : ℚ) (hm : minimumChainLength ≠ 0) :
    passes (d : ℚ) minimumChainLength = d.toNat := by
  unfold passes
  rw [if_neg hm, Int.ceil_intCast]

theorem cutoffs_length {W B : Type} (steps : List (DeannealingStep W B)) :
    (cutoffs steps).length = steps.length := by
  simp [cutoffs]

/-- C6, as the code has it: for a whole number `d ≥ 1` of de-annealing rounds
and a minimum chain length `m ≥ 0`, the arithmetic taken exactly, the
de-annealing loop of a round ends; it makes exactly `d` passes when `m > 0` and
exactly one pass when `m = 0`. -/
theorem deannealing_pass_count {W B : Type} [DecidableEq B] (m : Modules W B)
    (cCIP : CactusCoreInputParameters) (terminateRecursion loop : Int)
    (minimumBlockLength minimumChainLength : ℚ) (fuel : Nat) (w : W) (d : Int)
    (hd : 1 ≤ d) (hcfg : cCIP.deannealingRounds = (d : ℚ)) (hm : 0 ≤ minimumChainLength)
    (hfuel : d ≤ (fuel : Int)) :
    ∃ w1 steps,
      deannealing m cCIP terminateRecursion loop minimumBlockLength minimumChainLength
        fuel w = .ok (w1, steps) ∧
      (0 < minimumChainLength → (steps.length : Int) = d) ∧
      (minimumChainLength = 0 → steps.length = 1) := by
  have hdpos : 0 < cCIP.deannealingRounds := by
    rw [hcfg]
    exact_mod_cast (by omega : 0 < d)
  have hle : passes cCIP.deannealingRounds minimumChainLength ≤ fuel := by
    apply passes_le_fuel _ _ _ (by omega)
    rw [hcfg]
    exact_mod_cast hfuel
  obtain ⟨w1, steps, hrun, hcut, -, -⟩ :=
    deannealing_run m cCIP terminateRecursion loop minimumBlockLength minimumChainLength
      fuel w hdpos hm hle
  have hlen : steps.length = passes cCIP.deannealingRounds minimumChainLength := by
    rw [← cutoffs_length, hcut]
    simp
  refine ⟨w1, steps, hrun, ?_, ?_⟩
  · intro hpos
    rw [hlen, hcfg, passes_int d _ (ne_of_gt hpos)]
    exact Int.toNat_of_nonneg (by omega)
  · intro h0
    rw [hlen]
    unfold passes
    rw [if_pos h0]

/-- C6 at `deannealingRounds = 3` and a minimum chain length of 6: three
passes. -/
theorem deannealing_pass_count_witness :
    ∃ w1 steps,
      deannealing scenarioModules (scenarioDeannealing 3) 0 0 0 6 3 () = .ok (w1, steps) ∧
      (steps.length : Int) = 3 := by
  obtain ⟨w1, steps, hrun, hlen, -⟩ :=
    deannealing_pass_count scenarioModules (scenarioDeannealing 3) 0 0 0 6 3 () 3
      (by decide) (by norm_num [scenarioDeannealing]) (by norm_num) (by decide)
  exact ⟨w1, steps, hrun, hlen (by norm_num)⟩

/-- C6 fails as stated: with two de-annealing rounds and the default minimum
chain length of zero the loop makes one pass, not two. The first cutoff `0 / 2`
already reaches the minimum chain length, so line 476 leaves the loop. -/
theorem deannealing_pass_count_counterexample :
    ∃ w1 steps,
      deannealing scenarioModules (scenarioDeannealing 2) 0 0 0 0 2 () = .ok (w1, steps) ∧
      steps.length = 1 ∧
      (steps.length : ℚ) ≠ (scenarioDeannealing 2).deannealingRounds := by
  norm_num [deannealing, deannealingLoop, scenarioDeannealing]

/-- C7: within a round with `deannealingRounds = d > 0` and a minimum chain
length `m ≥ 0`, the arithmetic taken exactly, the de-annealing loop ends and
the cutoff of its `k`-th pass (`k = 1, 2, ...`) is `k * m / d`. The first cutoff
is `m / d`, successive cutoffs differ by `m / d`, every pass but the last has a
cutoff below `m`, the last pass has a cutoff of at least `m`, and that cutoff is
exactly `m` when `d` is a whole number. -/
theorem deannealing_cutoffs {W B : Type} [DecidableEq B] (m : Modules W B)
    (cCIP : CactusCoreInputParameters) (terminateRecursion loop : Int)
    (minimumBlockLength minimumChainLength : ℚ) (fuel : Nat) (w : W)
    (hd : 0 < cCIP.deannealingRounds) (hm : 0 ≤ minimumChainLength)
    (hfuel1 : 1 ≤ fuel) (hfuel : cCIP.deannealingRounds ≤ (fuel : ℚ)) :
    ∃ w1 steps,
      deannealing m cCIP terminateRecursion loop minimumBlockLength minimumChainLength
        fuel w = .ok (w1, steps) ∧
      (∀ (k : Nat) (c : ℚ), (cutoffs steps)[k]? = some c →
        c = ((k : ℚ) + 1) * minimumChainLength / cCIP.deannealingRounds) ∧
      (cutoffs steps)[0]? = some (minimumChainLength / cCIP.deannealingRounds) ∧
      (∀ (k : Nat) (a b : ℚ), (cutoffs steps)[k]? = some a →
        (cutoffs steps)[k + 1]? = some b →
        b - a = minimumChainLength / cCIP.deannealingRounds) ∧
      ∃ earlier last, cutoffs steps = earlier ++ [last] ∧
        minimumChainLength ≤ last ∧
        (∀ c ∈ earlier, c < minimumChainLength) ∧
        ((∃ z : Int, cCIP.deannealingRounds = (z : ℚ)) → last = minimumChainLength) := by
  have hle := passes_le_fuel cCIP.deannealingRounds minimumChainLength fuel hfuel1 hfuel
  obtain ⟨w1, steps, hrun, hcut, hlast, hearlier⟩ :=
    deannealing_run m cCIP terminateRecursion loop minimumBlockLength minimumChainLength
      fuel w hd hm hle
  have hpos := passes_pos cCIP.deannealingRounds minimumChainLength hd
  obtain ⟨n, hn⟩ : ∃ n, passes cCIP.deannealingRounds minimumChainLength = n + 1 :=
    ⟨passes cCIP.deannealingRounds minimumChainLength - 1, by omega⟩
  have hformula : ∀ (k : Nat) (c : ℚ), (cutoffs steps)[k]? = some c →
      c = ((k : ℚ) + 1) * minimumChainLength / cCIP.deannealingRounds := by
    intro k c hk
    rw [hcut] at hk
    simp only [List.getElem?_map, Option.map_eq_some', List.getElem?_range] at hk
    obtain ⟨i, hi, rfl⟩ := hk
    by_cases hlt : k < passes cCIP.deannealingRounds minimumChainLength
    · rw [List.getElem?_range hlt] at hi
      cases hi
      rfl
    · rw [List.getElem?_eq_none (by simpa using hlt)] at hi
      cases hi
  refine ⟨w1, steps, hrun, hformula, ?_, ?_, ?_⟩
  · rw [hcut, hn]
    simp [List.range_succ_eq_map]
  · intro k a b ha hb
    rw [hformula k a ha, hformula (k + 1) b hb]
    push_cast
    ring
  · refine ⟨(List.range n).map
        (fun i : Nat => ((i : ℚ) + 1) * minimumChainLength / cCIP.deannealingRounds),
      ((n : ℚ) + 1) * minimumChainLength / cCIP.deannealingRounds, ?_, ?_, ?_, ?_⟩
    · rw [hcut, hn, List.range_succ, List.map_append]
      rfl
    · rw [hn] at hlast
      push_cast at hlast
      exact hlast
    · intro c hc
      simp only [List.mem_map, List.mem_range] at hc
      obtain ⟨i, hi, rfl⟩ := hc
      exact hearlier i (by omega)
    · rintro ⟨z, hz⟩
      by_cases h0 : minimumChainLength = 0
      · rw [h0]
        simp
      · have hcast := passes_cast cCIP.deannealingRounds minimumChainLength hd h0
        rw [hn, hz, Int.ceil_intCast] at hcast
        have hq : ((n : ℚ) + 1) = cCIP.deannealingRounds := by
          rw [hz, ← hcast]
          push_cast
          ring
        rw [hq]
        field_simp

/-- C7 at `deannealingRounds = 3` and a minimum chain length of 6: the loop
makes the passes with cutoffs 2, 4 and 6. -/
theorem deannealing_cutoffs_witness :
    (∃ w1 steps,
      deannealing scenarioModules (scenarioDeannealing 3) 0 0 0 6 3 () = .ok (w1, steps) ∧
      (cutoffs steps)[0]? = some (6 / (scenarioDeannealing 3).deannealingRounds)) ∧
    ∃ w1 steps,
      deannealing scenarioModules (scenarioDeannealing 3) 0 0 0 6 3 () = .ok (w1, steps) ∧
      cutoffs steps = [2, 4, 6] := by
  constructor
  · obtain ⟨w1, steps, hrun, -, hfirst, -⟩ :=
      deannealing_cutoffs scenarioModules (scenarioDeannealing 3) 0 0 0 6 3 ()
        (by norm_num [scenarioDeannealing]) (by norm_num) (by decide)
        (by norm_num [scenarioDeannealing])
    exact ⟨w1, steps, hrun, hfirst⟩
  · norm_num [deannealing, deannealingLoop, scenarioDeannealing, cutoffs]

/-! ### One round of the annealing loop -/

/-- What a completed round did, read off the code of `annealingRound`. -/
theorem annealingRound_ok {W B : Type} [DecidableEq B] (m : Modules W B) (flower : Flower)
    (cCIP : CactusCoreInputParameters) (terminateRecursion : Int) (fuel : Nat)
    (s s1 : LoopState W) (round : Round W B) (b : Bool)
    (h : annealingRound m flower cCIP terminateRecursion fuel s = .ok (round, s1, b)) :
    round.entry = s ∧
    0 ≤ s.trim ∧
    round.filterParameters =
      { trim := floatToInt s.trim
        alignRepeats := cBool (s.loop ≥ cCIP.alignRepeatsAtRound)
        flower := flower } ∧
    (∃ pulled,
      addAlignments round.filterParameters cCIP.adjacencyComponentOverlap
        (m.alignmentStack (m.run s.world
          [.getVertexToAdjacencyComponentHash, .getAdjacencyComponentGraph,
           .startAlignmentStack])) = .ok pulled ∧
      round.merging =
        [.getVertexToAdjacencyComponentHash, .getAdjacencyComponentGraph,
         .startAlignmentStack] ++ .getNextAlignment :: pulled ++
          [.removeTrivialGreyEdgeComponents] ++
          cactusCorePipeline_2 (cBool (terminateRecursion = 0))
            (cBool (s.loop + 1 ≥ cCIP.annealingRounds)) ++
          [.computeSortedBiConnectedComponents]) ∧
    ∃ w,
      deannealing m cCIP terminateRecursion s.loop s.minimumBlockLength
        s.minimumChainLength fuel (m.run s.world round.merging) =
          .ok (w, round.deannealing) ∧
      (b = true →
        s.loop + 1 < cCIP.annealingRounds ∧
        round.closing = [.getAdjacencyComponents, .unlinkStubComponentsFromTheSinkComponent] ∧
        s1.loop = s.loop + 1 ∧
        s1.trim = (if s.trim + cCIP.trimChange < 0 then 0 else s.trim + cCIP.trimChange) ∧
        s1.minimumChainLength =
          (if s.minimumChainLength + cCIP.minimumChainLengthChange < 0 then 0
           else s.minimumChainLength + cCIP.minimumChainLengthChange) ∧
        s1.minimumBlockLength =
          (if s.minimumBlockLength + cCIP.minimumBlockLengthChange < 0 then 0
           else s.minimumBlockLength + cCIP.minimumBlockLengthChange)) ∧
      (b = false →
        ¬ (s.loop + 1 < cCIP.annealingRounds) ∧
        round.closing =
          [.fillOutFlowerFromInputs
            (m.filterBlocksByTreeCoverageAndLength w 0
              (if terminateRecursion ≠ 0 then 0 else 2) 0 0)] ∧
        s1.loop = s.loop + 1 ∧
        s1.trim = s.trim ∧
        s1.minimumChainLength = s.minimumChainLength ∧
        s1.minimumBlockLength = s.minimumBlockLength) := by
  unfold annealingRound at h
  simp only at h
  by_cases htrim : s.trim ≥ 0
  · rw [if_neg (not_not.2 htrim)] at h
    cases hpulled : addAlignments
        { alignRepeats := cBool (s.loop ≥ cCIP.alignRepeatsAtRound),
          trim := floatToInt s.trim, flower := flower }
        cCIP.adjacencyComponentOverlap
        (m.alignmentStack (m.run s.world
          [.getVertexToAdjacencyComponentHash, .getAdjacencyComponentGraph,
           .startAlignmentStack])) with
    | error e =>
      rw [hpulled] at h
      cases h
    | ok pulled =>
      rw [hpulled] at h
      simp only at h
      cases hsteps : deannealing m cCIP terminateRecursion s.loop s.minimumBlockLength
          s.minimumChainLength fuel
          (m.run s.world
            ([.getVertexToAdjacencyComponentHash, .getAdjacencyComponentGraph,
              .startAlignmentStack] ++ .getNextAlignment :: pulled ++
              [.removeTrivialGreyEdgeComponents] ++
              cactusCorePipeline_2 (cBool (terminateRecursion = 0))
                (cBool (s.loop + 1 ≥ cCIP.annealingRounds)) ++
              [.computeSortedBiConnectedComponents])) with
      | error e =>
        rw [hsteps] at h
        cases h
      | ok result =>
        obtain ⟨w, steps⟩ := result
        rw [hsteps] at h
        simp only at h
        by_cases hlast : s.loop + 1 < cCIP.annealingRounds
        · rw [if_pos hlast] at h
          simp only [Except.ok.injEq, Prod.mk.injEq] at h
          obtain ⟨hr, hs, hb⟩ := h
          subst hr
          subst hs
          subst hb
          refine ⟨rfl, htrim, rfl, ⟨pulled, hpulled, rfl⟩, w, hsteps, ?_, ?_⟩
          · intro _
            exact ⟨hlast, rfl, rfl, rfl, rfl, rfl⟩
          · intro hf
            cases hf
        · rw [if_neg hlast] at h
          simp only [Except.ok.injEq, Prod.mk.injEq] at h
          obtain ⟨hr, hs, hb⟩ := h
          subst hr
          subst hs
          subst hb
          refine ⟨rfl, htrim, rfl, ⟨pulled, hpulled, rfl⟩, w, hsteps, ?_, ?_⟩
          · intro hf
            cases hf
          · intro _
            exact ⟨hlast, rfl, rfl, rfl, rfl, rfl⟩
  · rw [if_pos htrim] at h
    cases h

/-! ### The annealing loop -/

/-- The rounds of a completed annealing loop: the first is entered with the
variables the loop is entered with, each is a run of `annealingRound` on its
entry variables, every round but the last goes on to the next with the
variables it leaves, and the last round leaves the loop. -/
theorem annealingLoop_rounds {W B : Type} [DecidableEq B] (m : Modules W B)
    (flower : Flower) (cCIP : CactusCoreInputParameters) (terminateRecursion : Int)
    (innerFuel : Nat) :
    ∀ (fuel : Nat) (s sEnd : LoopState W) (rounds : List (Round W B)),
      annealingLoop m flower cCIP terminateRecursion innerFuel fuel s = .ok (rounds, sEnd) →
      (∃ r0, rounds[0]? = some r0 ∧ r0.entry = s) ∧
      ∀ (k : Nat) (r : Round W B), rounds[k]? = some r →
        r.entry.loop = s.loop + k ∧
        ∃ s1 b, annealingRound m flower cCIP terminateRecursion innerFuel r.entry =
            .ok (r, s1, b) ∧
          (k + 1 < rounds.length →
            b = true ∧ ∃ r', rounds[k + 1]? = some r' ∧ r'.entry = s1) ∧
          (k + 1 = rounds.length → b = false ∧ s1 = sEnd) := by
  intro fuel
  induction fuel with
  | zero =>
    intro s sEnd rounds h
    cases h
  | succ fuel ih =>
    intro s sEnd rounds h
    unfold annealingLoop at h
    cases hround : annealingRound m flower cCIP terminateRecursion innerFuel s with
    | error e =>
      rw [hround] at h
      cases h
    | ok result =>
      obtain ⟨round, s1, b⟩ := result
      have hentry := (annealingRound_ok m flower cCIP terminateRecursion innerFuel s s1
        round b hround).1
      rw [hround] at h
      cases b with
      | false =>
        simp only [Except.ok.injEq, Prod.mk.injEq] at h
        obtain ⟨hr, hs⟩ := h
        subst hr
        subst hs
        refine ⟨⟨round, rfl, hentry⟩, ?_⟩
        intro k r hk
        have hk0 : k = 0 := by
          by_contra hne
          have : [round][k]? = none := List.getElem?_eq_none (by simp; omega)
          rw [this] at hk
          cases hk
        subst hk0
        simp only [List.getElem?_cons_zero, Option.some.injEq] at hk
        subst hk
        refine ⟨by rw [hentry]; simp, s1, false, by rw [hentry]; exact hround, ?_, ?_⟩
        · intro hlt
          simp at hlt
        · intro _
          exact ⟨rfl, rfl⟩
      | true =>
        simp only at h
        cases hrest : annealingLoop m flower cCIP terminateRecursion innerFuel fuel s1 with
        | error e =>
          rw [hrest] at h
          cases h
        | ok result =>
          obtain ⟨rounds1, s2⟩ := result
          rw [hrest] at h
          simp only [Except.ok.injEq, Prod.mk.injEq] at h
          obtain ⟨hr, hs⟩ := h
          subst hr
          subst hs
          obtain ⟨⟨r0, hr0, hr0entry⟩, hall⟩ := ih s1 s2 rounds1 hrest
          have hloop1 : s1.loop = s.loop + 1 :=
            ((annealingRound_ok m flower cCIP terminateRecursion innerFuel s s1
              round true hround).2.2.2.2.choose_spec.2.1 rfl).2.2.1
          have hne : rounds1 ≠ [] := by
            intro hnil
            rw [hnil] at hr0
            cases hr0
          have hlen : 0 < rounds1.length := List.length_pos.2 hne
          refine ⟨⟨round, List.getElem?_cons_zero, hentry⟩, ?_⟩
          intro k r hk
          cases k with
          | zero =>
            simp only [List.getElem?_cons_zero, Option.some.injEq] at hk
            subst hk
            refine ⟨by rw [hentry]; simp, s1, true, by rw [hentry]; exact hround, ?_, ?_⟩
            · intro _
              exact ⟨rfl, r0, by simpa using hr0, hr0entry⟩
            · intro heq
              simp only [List.length_cons] at heq
              omega
          | succ j =>
            simp only [List.getElem?_cons_succ] at hk
            obtain ⟨hjloop, sj, bj, hjround, hjnext, hjlast⟩ := hall j r hk
            refine ⟨?_, sj, bj, hjround, ?_, ?_⟩
            · rw [hjloop, hloop1]
              push_cast
              ring
            · intro hlt
              simp only [List.length_cons] at hlt
              obtain ⟨hb, r', hr', hr'entry⟩ := hjnext (by omega)
              exact ⟨hb, r', by simpa using hr', hr'entry⟩
            · intro heq
              simp only [List.length_cons] at heq
              exact hjlast (by omega)

/-- A completed run of the pipeline is a completed annealing loop entered with
`loop = 0` and the configured thresholds, and it returns 0. -/
theorem cactusCorePipeline_ok {W B : Type} [DecidableEq B] (benDebug : Bool)
    (m : Modules W B) (fuel : Nat) (w : W) (flower : Flower)
    (cCIP : CactusCoreInputParameters) (terminateRecursion : Int) (run : Run W B)
    (h : cactusCorePipeline benDebug m fuel w flower cCIP terminateRecursion = .ok run) :
    run.returned = 0 ∧
    ∃ w0, annealingLoop m flower cCIP terminateRecursion fuel fuel
        { loop := 0
          trim := cCIP.trim
          minimumChainLength := cCIP.minimumChainLength
          minimumBlockLength := cCIP.minimumBlockLength
          world := w0 } = .ok (run.rounds, run.exit) := by
  unfold cactusCorePipeline at h
  cases hprep : (prepareFlower benDebug flower : Except Abort (List (Call B))) with
  | error e =>
    rw [hprep] at h
    cases h
  | ok preparation =>
    rw [hprep] at h
    simp only at h
    cases hloop : annealingLoop m flower cCIP terminateRecursion fuel fuel
        { loop := 0
          trim := cCIP.trim
          minimumChainLength := cCIP.minimumChainLength
          minimumBlockLength := cCIP.minimumBlockLength
          world := m.run w preparation } with
    | error e =>
      rw [hloop] at h
      cases h
    | ok result =>
      obtain ⟨rounds, s1⟩ := result
      rw [hloop] at h
      simp only [Except.ok.injEq] at h
      subst h
      exact ⟨rfl, m.run w preparation, hloop⟩

/-- The clamp of lines 499 to 505 is the maximum with zero. -/
theorem clamp_eq_max (x : ℚ) : (if x < 0 then 0 else x) = max 0 x := by
  split_ifs with h
  · exact (max_eq_left (le_of_lt h)).symm
  · exact (max_eq_right (not_lt.1 h)).symm

/-- What a completed round of the machine does to the variables of the loop,
read off the code of `annealingRoundFloat`: a round that goes on stores in each
threshold the rounded sum of the threshold and its change, or zero if that is
negative; a round that leaves the loop leaves the thresholds as they are. -/
theorem annealingRoundFloat_ok {W B : Type} [DecidableEq B] (toFloat : ℚ → ℚ)
    (m : Modules W B) (flower : Flower) (cCIP : CactusCoreInputParameters)
    (terminateRecursion : Int) (fuel : Nat) (s s1 : LoopState W) (round : Round W B)
    (b : Bool)
    (h : annealingRoundFloat toFloat m flower cCIP terminateRecursion fuel s =
      .ok (round, s1, b)) :
    round.entry = s ∧
    0 ≤ s.trim ∧
    s1.loop = s.loop + 1 ∧
    (b = true →
      s.loop + 1 < cCIP.annealingRounds ∧
      s1.trim =
        (if toFloat (s.trim + cCIP.trimChange) < 0 then 0
         else toFloat (s.trim + cCIP.trimChange)) ∧
      s1.minimumChainLength =
        (if toFloat (s.minimumChainLength + cCIP.minimumChainLengthChange) < 0 then 0
         else toFloat (s.minimumChainLength + cCIP.minimumChainLengthChange)) ∧
      s1.minimumBlockLength =
        (if toFloat (s.minimumBlockLength + cCIP.minimumBlockLengthChange) < 0 then 0
         else toFloat (s.minimumBlockLength + cCIP.minimumBlockLengthChange))) ∧
    (b = false →
      ¬ (s.loop + 1 < cCIP.annealingRounds) ∧
      s1.trim = s.trim ∧
      s1.minimumChainLength = s.minimumChainLength ∧
      s1.minimumBlockLength = s.minimumBlockLength) := by
  unfold annealingRoundFloat at h
  simp only at h
  by_cases htrim : s.trim ≥ 0
  · rw [if_neg (not_not.2 htrim)] at h
    split at h
    · cases h
    · split at h
      · cases h
      · by_cases hlast : s.loop + 1 < cCIP.annealingRounds
        · rw [if_pos hlast] at h
          simp only [Except.ok.injEq, Prod.mk.injEq] at h
          obtain ⟨hr, hs, hb⟩ := h
          subst hr
          subst hs
          subst hb
          refine ⟨rfl, htrim, rfl, ?_, ?_⟩
          · intro _
            exact ⟨hlast, rfl, rfl, rfl⟩
          · intro hf
            cases hf
        · rw [if_neg hlast] at h
          simp only [Except.ok.injEq, Prod.mk.injEq] at h
          obtain ⟨hr, hs, hb⟩ := h
          subst hr
          subst hs
          subst hb
          refine ⟨rfl, htrim, rfl, ?_, ?_⟩
          · intro hf
            cases hf
          · intro _
            exact ⟨hlast, rfl, rfl, rfl⟩
  · rw [if_pos htrim] at h
    cases h

/-- The rounds of a completed annealing loop of the machine: the first is
entered with the variables the loop is entered with, each is a run of
`annealingRoundFloat` on its entry variables, every round but the last goes on
to the next with the variables it leaves, and the last round leaves the
loop. -/
theorem annealingLoopFloat_rounds {W B : Type} [DecidableEq B] (toFloat : ℚ → ℚ)
    (m : Modules W B) (flower : Flower) (cCIP : CactusCoreInputParameters)
    (terminateRecursion : Int) (innerFuel : Nat) :
    ∀ (fuel : Nat) (s sEnd : LoopState W) (rounds : List (Round W B)),
      annealingLoopFloat toFloat m flower cCIP terminateRecursion innerFuel fuel s =
        .ok (rounds, sEnd) →
      (∃ r0, rounds[0]? = some r0 ∧ r0.entry = s) ∧
      ∀ (k : Nat) (r : Round W B), rounds[k]? = some r →
        r.entry.loop = s.loop + k ∧
        ∃ s1 b, annealingRoundFloat toFloat m flower cCIP terminateRecursion innerFuel
            r.entry = .ok (r, s1, b) ∧
          (k + 1 < rounds.length →
            b = true ∧ ∃ r', rounds[k + 1]? = some r' ∧ r'.entry = s1) ∧
          (k + 1 = rounds.length → b = false ∧ s1 = sEnd) := by
  intro fuel
  induction fuel with
  | zero =>
    intro s sEnd rounds h
    cases h
  | succ fuel ih =>
    intro s sEnd rounds h
    unfold annealingLoopFloat at h
    cases hround : annealingRoundFloat toFloat m flower cCIP terminateRecursion innerFuel
        s with
    | error e =>
      rw [hround] at h
      cases h
    | ok result =>
      obtain ⟨round, s1, b⟩ := result
      have hentry := (annealingRoundFloat_ok toFloat m flower cCIP terminateRecursion
        innerFuel s s1 round b hround).1
      have hloop1 : s1.loop = s.loop + 1 :=
        (annealingRoundFloat_ok toFloat m flower cCIP terminateRecursion innerFuel s s1
          round b hround).2.2.1
      rw [hround] at h
      cases b with
      | false =>
        simp only [Except.ok.injEq, Prod.mk.injEq] at h
        obtain ⟨hr, hs⟩ := h
        subst hr
        subst hs
        refine ⟨⟨round, rfl, hentry⟩, ?_⟩
        intro k r hk
        have hk0 : k = 0 := by
          by_contra hne
          have : [round][k]? = none := List.getElem?_eq_none (by simp; omega)
          rw [this] at hk
          cases hk
        subst hk0
        simp only [List.getElem?_cons_zero, Option.some.injEq] at hk
        subst hk
        refine ⟨by rw [hentry]; simp, s1, false, by rw [hentry]; exact hround, ?_, ?_⟩
        · intro hlt
          simp at hlt
        · intro _
          exact ⟨rfl, rfl⟩
      | true =>
        simp only at h
        cases hrest : annealingLoopFloat toFloat m flower cCIP terminateRecursion innerFuel
            fuel s1 with
        | error e =>
          rw [hrest] at h
          cases h
        | ok result =>
          obtain ⟨rounds1, s2⟩ := result
          rw [hrest] at h
          simp only [Except.ok.injEq, Prod.mk.injEq] at h
          obtain ⟨hr, hs⟩ := h
          subst hr
          subst hs
          obtain ⟨⟨r0, hr0, hr0entry⟩, hall⟩ := ih s1 s2 rounds1 hrest
          have hne : rounds1 ≠ [] := by
            intro hnil
            rw [hnil] at hr0
            cases hr0
          have hlen : 0 < rounds1.length := List.length_pos.2 hne
          refine ⟨⟨round, List.getElem?_cons_zero, hentry⟩, ?_⟩
          intro k r hk
          cases k with
          | zero =>
            simp only [List.getElem?_cons_zero, Option.some.injEq] at hk
            subst hk
            refine ⟨by rw [hentry]; simp, s1, true, by rw [hentry]; exact hround, ?_, ?_⟩
            · intro _
              exact ⟨rfl, r0, by simpa using hr0, hr0entry⟩
            · intro heq
              simp only [List.length_cons] at heq
              omega
          | succ j =>
            simp only [List.getElem?_cons_succ] at hk
            obtain ⟨hjloop, sj, bj, hjround, hjnext, hjlast⟩ := hall j r hk
            refine ⟨?_, sj, bj, hjround, ?_, ?_⟩
            · rw [hjloop, hloop1]
              push_cast
              ring
            · intro hlt
              simp only [List.length_cons] at hlt
              obtain ⟨hb, r', hr', hr'entry⟩ := hjnext (by omega)
              exact ⟨hb, r', by simpa using hr', hr'entry⟩
            · intro heq
              simp only [List.length_cons] at heq
              exact hjlast (by omega)

/-- A completed run of the pipeline of the machine is a completed annealing
loop entered with `loop = 0` and the configured thresholds as the conversion to
`float` gives them, and it returns 0. -/
theorem cactusCorePipelineFloat_ok {W B : Type} [DecidableEq B] (toFloat : ℚ → ℚ)
    (benDebug : Bool) (m : Modules W B) (fuel : Nat) (w : W) (flower : Flower)
    (cCIP : CactusCoreInputParameters) (terminateRecursion : Int) (run : Run W B)
    (h : cactusCorePipelineFloat toFloat benDebug m fuel w flower cCIP terminateRecursion =
      .ok run) :
    run.returned = 0 ∧
    ∃ w0, annealingLoopFloat toFloat m flower cCIP terminateRecursion fuel fuel
        { loop := 0
          trim := toFloat cCIP.trim
          minimumChainLength := toFloat cCIP.minimumChainLength
          minimumBlockLength := toFloat cCIP.minimumBlockLength
          world := w0 } = .ok (run.rounds, run.exit) := by
  unfold cactusCorePipelineFloat at h
  cases hprep : (prepareFlower benDebug flower : Except Abort (List (Call B))) with
  | error e =>
    rw [hprep] at h
    cases h
  | ok preparation =>
    rw [hprep] at h
    simp only at h
    cases hloop : annealingLoopFloat toFloat m flower cCIP terminateRecursion fuel fuel
        { loop := 0
          trim := toFloat cCIP.trim
          minimumChainLength := toFloat cCIP.minimumChainLength
          minimumBlockLength := toFloat cCIP.minimumBlockLength
          world := m.run w preparation } with
    | error e =>
      rw [hloop] at h
      cases h
    | ok result =>
      obtain ⟨rounds, s1⟩ := result
      rw [hloop] at h
      simp only [Except.ok.injEq] at h
      subst h
      exact ⟨rfl, m.run w preparation, hloop⟩

theorem mem_stSortedSet_getDifference {B : Type} [DecidableEq B] (set1 set2 : List B) (b : B) :
    b ∈ stSortedSet_getDifference set1 set2 ↔ b ∈ set1 ∧ b ∉ set2 := by
  simp [stSortedSet_getDifference]

/-- Every pass of the de-annealing loop computes its blocks to undo by
`getBlocksToUndo`, in the state and with the cutoff the pass records. -/
theorem deannealingLoop_steps {W B : Type} [DecidableEq B] (m : Modules W B)
    (cCIP : CactusCoreInputParameters) (terminateRecursion loop : Int)
    (minimumBlockLength minimumChainLength stepSize : ℚ) :
    ∀ (fuel : Nat) (c : ℚ) (w w1 : W) (steps : List (DeannealingStep W B)),
      deannealingLoop m cCIP terminateRecursion loop minimumBlockLength minimumChainLength
        stepSize fuel c w = .ok (w1, steps) →
      ∀ step ∈ steps,
        step.blocksToUndo =
          getBlocksToUndo m cCIP minimumBlockLength step.deannealingChainLength step.world := by
  intro fuel
  induction fuel with
  | zero =>
    intro c w w1 steps h
    cases h
  | succ fuel ih =>
    intro c w w1 steps h
    unfold deannealingLoop at h
    simp only at h
    by_cases hc : c ≥ minimumChainLength
    · rw [if_pos hc] at h
      simp only [Except.ok.injEq, Prod.mk.injEq] at h
      obtain ⟨-, hs⟩ := h
      subst hs
      intro step hstep
      simp only [List.mem_singleton] at hstep
      subst hstep
      rfl
    · rw [if_neg hc] at h
      split at h
      · cases h
      · rename_i w2 steps2 hrest
        simp only [Except.ok.injEq, Prod.mk.injEq] at h
        obtain ⟨-, hs⟩ := h
        subst hs
        intro step hstep
        rcases List.mem_cons.1 hstep with rfl | hmem
        · rfl
        · exact ih _ _ _ _ hrest step hmem

/-- C8: at every step of a de-annealing loop the set of blocks to undo is the
set difference of `filter (minimum tree coverage 0, minimum degree 2, minimum
block length 0, minimum chain length 0)` and `filter (configured minimum tree
coverage, minimum degree 0, current minimum block length, cutoff of the step)`,
both evaluated in the same state of the sorted chains. So every block to undo
passes the first filter and none passes the second. -/
theorem blocksToUndo_difference {W B : Type} [DecidableEq B] (m : Modules W B)
    (cCIP : CactusCoreInputParameters) (terminateRecursion loop : Int)
    (minimumBlockLength minimumChainLength : ℚ) (fuel : Nat) (w w1 : W)
    (steps : List (DeannealingStep W B))
    (h : deannealing m cCIP terminateRecursion loop minimumBlockLength minimumChainLength
      fuel w = .ok (w1, steps)) :
    ∀ step ∈ steps,
      (∀ b : B, b ∈ step.blocksToUndo ↔
        (b ∈ m.filterBlocksByTreeCoverageAndLength step.world 0 2 0 0 ∧
          b ∉ m.filterBlocksByTreeCoverageAndLength step.world cCIP.minimumTreeCoverage 0
            minimumBlockLength step.deannealingChainLength)) ∧
      (∀ b ∈ step.blocksToUndo, b ∈ m.filterBlocksByTreeCoverageAndLength step.world 0 2 0 0) ∧
      (∀ b ∈ step.blocksToUndo,
        b ∉ m.filterBlocksByTreeCoverageAndLength step.world cCIP.minimumTreeCoverage 0
          minimumBlockLength step.deannealingChainLength) := by
  intro step hstep
  have hundo : step.blocksToUndo =
      getBlocksToUndo m cCIP minimumBlockLength step.deannealingChainLength step.world := by
    unfold deannealing at h
    split_ifs at h with hd
    · exact deannealingLoop_steps m cCIP terminateRecursion loop minimumBlockLength
        minimumChainLength _ fuel _ w w1 steps h step hstep
    · simp only [Except.ok.injEq, Prod.mk.injEq] at h
      rw [← h.2] at hstep
      cases hstep
  have hiff : ∀ b : B, b ∈ step.blocksToUndo ↔
      (b ∈ m.filterBlocksByTreeCoverageAndLength step.world 0 2 0 0 ∧
        b ∉ m.filterBlocksByTreeCoverageAndLength step.world cCIP.minimumTreeCoverage 0
          minimumBlockLength step.deannealingChainLength) := by
    intro b
    rw [hundo]
    unfold getBlocksToUndo
    exact mem_stSortedSet_getDifference _ _ b
  exact ⟨hiff, fun b hb => ((hiff b).1 hb).1, fun b hb => ((hiff b).1 hb).2⟩

/-- C8 at the scenario S5: two blocks in chains of length 2 and a minimum chain
length of 10. The one de-annealing step undoes both blocks, and its set of
blocks to undo is the difference of the two filters. -/
theorem blocksToUndo_difference_witness :
    ∃ w1 steps,
      deannealing scenarioS5Modules scenarioS5 0 0 0 10 1 [1, 2] = .ok (w1, steps) ∧
      w1 = [] ∧
      steps.map (fun step => step.blocksToUndo) = [[1, 2]] ∧
      ∀ step ∈ steps, ∀ b : Nat, b ∈ step.blocksToUndo ↔
        (b ∈ scenarioS5Modules.filterBlocksByTreeCoverageAndLength step.world 0 2 0 0 ∧
          b ∉ scenarioS5Modules.filterBlocksByTreeCoverageAndLength step.world
            scenarioS5.minimumTreeCoverage 0 0 step.deannealingChainLength) := by
  have hex : ∃ w1 steps,
      deannealing scenarioS5Modules scenarioS5 0 0 0 10 1 [1, 2] = .ok (w1, steps) ∧
      w1 = [] ∧ steps.map (fun step => step.blocksToUndo) = [[1, 2]] := by
    norm_num [deannealing, deannealingLoop, scenarioS5, scenarioS5Modules,
      constructCactusCoreInputParameters, getBlocksToUndo, stSortedSet_getDifference,
      Modules.run, cactusCorePipeline_2, cBool]
    exact ⟨[], _, ⟨rfl, rfl⟩, rfl, rfl⟩
  obtain ⟨w1, steps, hrun, hw, hundo⟩ := hex
  refine ⟨w1, steps, hrun, hw, hundo, ?_⟩
  intro step hstep
  exact (blocksToUndo_difference scenarioS5Modules scenarioS5 0 0 0 10 1 [1, 2] w1 steps
    hrun step hstep).1

/-! ### The alignments of a round -/

/-- A merge made under the repeat filter covers no lower case base and no
`N`. -/
theorem filterPiece_merged_clean (piece piece2 a b : Piece) (fp : FilterAlignmentParameters)
    (h : filterPieceAndThenAddToGraph piece piece2 fp = .ok (some (a, b)))
    (hrep : fp.alignRepeats = 0) :
    (∀ c ∈ piece_getString a fp.flower, ¬ isRepeatBase c) ∧
    (∀ c ∈ piece_getString b fp.flower, ¬ isRepeatBase c) := by
  by_cases hlen : piece.end_ - piece.start = piece2.end_ - piece2.start
  · by_cases hL : piece.end_ - piece.start + 1 > 2 * fp.trim
    · obtain ⟨ha, hb, hs⟩ := filterPiece_long_merged piece piece2 fp hlen hL a b h
      subst ha
      subst hb
      exact ⟨containsRepeatBases_false _ (hs hrep).1, containsRepeatBases_false _ (hs hrep).2⟩
    · rw [filterPiece_short piece piece2 fp hlen (not_lt.1 hL)] at h
      cases h
  · unfold filterPieceAndThenAddToGraph at h
    rw [if_pos hlen] at h
    cases h

/-- Every call made by `pinchMerge` is a merge that the callback let
through. -/
theorem pinchMerge_calls {B : Type} (fp : FilterAlignmentParameters) (overlap : Int) :
    ∀ (pairwiseAlignment : PairwiseAlignment) (calls : List (Call B)),
      pinchMerge fp overlap pairwiseAlignment = .ok calls →
      ∀ c ∈ calls, ∃ piece piece2 a b, c = .pinchMergePiece a b overlap ∧
        filterPieceAndThenAddToGraph piece piece2 fp = .ok (some (a, b)) := by
  intro pairwiseAlignment
  induction pairwiseAlignment with
  | nil =>
    intro calls h c hc
    unfold pinchMerge at h
    cases h
    cases hc
  | cons pair pairs ih =>
    intro calls h c hc
    obtain ⟨piece, piece2⟩ := pair
    unfold pinchMerge at h
    cases hf : filterPieceAndThenAddToGraph piece piece2 fp with
    | error e =>
      rw [hf] at h
      cases h
    | ok merged =>
      rw [hf] at h
      simp only at h
      cases hrest : (pinchMerge fp overlap pairs : Except Abort (List (Call B))) with
      | error e =>
        rw [hrest] at h
        cases h
      | ok rest =>
        rw [hrest] at h
        simp only at h
        cases merged with
        | none =>
          simp only [Except.ok.injEq] at h
          subst h
          exact ih rest hrest c hc
        | some ab =>
          obtain ⟨a, b⟩ := ab
          simp only [Except.ok.injEq] at h
          subst h
          rcases List.mem_cons.1 hc with rfl | hmem
          · exact ⟨piece, piece2, a, b, rfl, hf⟩
          · exact ih rest hrest c hmem

/-- Every call made while the alignments of a round are drained is a pull of
the next alignment or a merge that the callback let through. -/
theorem addAlignments_calls {B : Type} (fp : FilterAlignmentParameters) (overlap : Int) :
    ∀ (stack : List PairwiseAlignment) (calls : List (Call B)),
      addAlignments fp overlap stack = .ok calls →
      ∀ c ∈ calls, c = .getNextAlignment ∨
        ∃ piece piece2 a b, c = .pinchMergePiece a b overlap ∧
          filterPieceAndThenAddToGraph piece piece2 fp = .ok (some (a, b)) := by
  intro stack
  induction stack with
  | nil =>
    intro calls h c hc
    unfold addAlignments at h
    cases h
    cases hc
  | cons pairwiseAlignment stack ih =>
    intro calls h c hc
    unfold addAlignments at h
    cases hm : (pinchMerge fp overlap pairwiseAlignment : Except Abort (List (Call B))) with
    | error e =>
      rw [hm] at h
      cases h
    | ok merges =>
      rw [hm] at h
      simp only at h
      cases hrest : (addAlignments fp overlap stack : Except Abort (List (Call B))) with
      | error e =>
        rw [hrest] at h
        cases h
      | ok rest =>
        rw [hrest] at h
        simp only [Except.ok.injEq] at h
        subst h
        rcases List.mem_append.1 hc with hmem | hmem
        · exact Or.inr (pinchMerge_calls fp overlap pairwiseAlignment merges hm c hmem)
        · rcases List.mem_cons.1 hmem with rfl | hmem2
          · exact Or.inl rfl
          · exact ih rest hrest c hmem2

/-- The merges of a round are merges that the callback let through with the
filter parameters of the round. -/
theorem annealingRound_merges {W B : Type} [DecidableEq B] (m : Modules W B)
    (flower : Flower) (cCIP : CactusCoreInputParameters) (terminateRecursion : Int)
    (fuel : Nat) (s s1 : LoopState W) (round : Round W B) (continues : Bool)
    (h : annealingRound m flower cCIP terminateRecursion fuel s = .ok (round, s1, continues))
    (a b : Piece) (overlap : Int) (hc : Call.pinchMergePiece a b overlap ∈ round.merging) :
    ∃ piece piece2,
      filterPieceAndThenAddToGraph piece piece2 round.filterParameters = .ok (some (a, b)) := by
  obtain ⟨-, -, -, ⟨pulled, hpulled, hmerging⟩, -⟩ :=
    annealingRound_ok m flower cCIP terminateRecursion fuel s s1 round continues h
  rw [hmerging] at hc
  simp only [cactusCorePipeline_2, List.mem_append, List.mem_cons, List.mem_singleton,
    List.not_mem_nil, or_false, false_or, reduceCtorEq] at hc
  rcases addAlignments_calls _ _ _ pulled hpulled _ hc with hg | ⟨piece, piece2, a', b', he, hf⟩
  · cases hg
  · cases he
    exact ⟨piece, piece2, hf⟩

/-- C10: in a completed run, round `r` (counted from 0) runs with `loop = r`,
and its repeat filter is off (`alignRepeats` true) if and only if
`r ≥ alignRepeatsAtRound`. In an earlier round no merge covers a lower case
base or an `N`; from round `alignRepeatsAtRound` on, every pair of equal length
that passes the length test is merged whatever its bases. With the default
`alignRepeatsAtRound = 0` the repeat filter is off in every round. -/
theorem alignRepeats_iff {W B : Type} [DecidableEq B] (benDebug : Bool)
    (m : Modules W B) (fuel : Nat) (w : W) (flower : Flower)
    (cCIP : CactusCoreInputParameters) (terminateRecursion : Int) (run : Run W B)
    (h : cactusCorePipeline benDebug m fuel w flower cCIP terminateRecursion = .ok run) :
    ∀ (r : Nat) (round : Round W B), run.rounds[r]? = some round →
      round.entry.loop = (r : Int) ∧
      (round.filterParameters.alignRepeats ≠ 0 ↔ (r : Int) ≥ cCIP.alignRepeatsAtRound) ∧
      ((r : Int) < cCIP.alignRepeatsAtRound →
        ∀ (a b : Piece) (overlap : Int), Call.pinchMergePiece a b overlap ∈ round.merging →
          (∀ c ∈ piece_getString a flower, ¬ isRepeatBase c) ∧
          (∀ c ∈ piece_getString b flower, ¬ isRepeatBase c)) ∧
      ((r : Int) ≥ cCIP.alignRepeatsAtRound →
        ∀ piece piece2 : Piece,
          piece.end_ - piece.start = piece2.end_ - piece2.start →
          piece.end_ - piece.start + 1 > 2 * round.filterParameters.trim →
          filterPieceAndThenAddToGraph piece piece2 round.filterParameters =
            .ok (some (piece.trimmed round.filterParameters.trim,
              piece2.trimmed round.filterParameters.trim))) ∧
      (cCIP.alignRepeatsAtRound = constructCactusCoreInputParameters.alignRepeatsAtRound →
        round.filterParameters.alignRepeats ≠ 0) := by
  intro r round hr
  obtain ⟨-, w0, hloop⟩ :=
    cactusCorePipeline_ok benDebug m fuel w flower cCIP terminateRecursion run h
  obtain ⟨-, hall⟩ :=
    annealingLoop_rounds m flower cCIP terminateRecursion fuel fuel _ _ _ hloop
  obtain ⟨hloopr, s1, continues, hround, -, -⟩ := hall r round hr
  simp only [zero_add] at hloopr
  obtain ⟨-, -, hfp, -, -⟩ :=
    annealingRound_ok m flower cCIP terminateRecursion fuel round.entry s1 round continues
      hround
  have hflower : round.filterParameters.flower = flower := by
    rw [hfp]
  have hiff : round.filterParameters.alignRepeats ≠ 0 ↔
      (r : Int) ≥ cCIP.alignRepeatsAtRound := by
    rw [hfp, hloopr]
    unfold cBool
    simp only
    split_ifs with hge
    · simp [hge]
    · simp [hge]
  refine ⟨hloopr, hiff, ?_, ?_, ?_⟩
  · intro hlt a b overlap hc
    obtain ⟨piece, piece2, hf⟩ :=
      annealingRound_merges m flower cCIP terminateRecursion fuel round.entry s1 round
        continues hround a b overlap hc
    have hzero : round.filterParameters.alignRepeats = 0 := by
      by_contra hne
      exact absurd (hiff.1 hne) (not_le.2 hlt)
    have := filterPiece_merged_clean piece piece2 a b round.filterParameters hf hzero
    rw [hflower] at this
    exact this
  · intro hge piece piece2 hlen hL
    exact filterPiece_long_alignRepeats piece piece2 round.filterParameters hlen hL
      (hiff.2 hge)
  · intro hdefault
    apply hiff.2
    rw [hdefault]
    simp [constructCactusCoreInputParameters]

/-- C10 at the scenario S4 over two rounds with `alignRepeatsAtRound = 1`: the
repeat filter is on in round 0, where the alignment over `aaaaa` is not
merged, and off in round 1, where it is merged. -/
theorem alignRepeats_iff_witness :
    ∃ run, cactusCorePipeline false scenarioS4Modules 2 () scenarioFlower scenarioS4 0 =
        .ok run ∧
      run.rounds.map (fun round => round.filterParameters.alignRepeats) = [0, 1] ∧
      run.rounds.map (fun round => round.merging.filter Call.isMerge) =
        [[], [.pinchMergePiece ⟨0, 1, 5⟩ ⟨1, 1, 5⟩ 0]] ∧
      ∀ (r : Nat) (round : Round Unit Nat), run.rounds[r]? = some round →
        (round.filterParameters.alignRepeats ≠ 0 ↔
          (r : Int) ≥ scenarioS4.alignRepeatsAtRound) := by
  have hex : ∃ run,
      cactusCorePipeline false scenarioS4Modules 2 () scenarioFlower scenarioS4 0 =
        .ok run ∧
      run.rounds.map (fun round => round.filterParameters.alignRepeats) = [0, 1] ∧
      run.rounds.map (fun round => round.merging.filter Call.isMerge) =
        [[], [.pinchMergePiece ⟨0, 1, 5⟩ ⟨1, 1, 5⟩ 0]] := by
    have hprep : (prepareFlower false scenarioFlower : Except Abort (List (Call Nat))) =
        .ok [.group_destruct, .constructPinchGraph] := rfl
    have hf0 : filterPieceAndThenAddToGraph ⟨0, 1, 5⟩ ⟨1, 1, 5⟩
        { alignRepeats := 0, trim := 0, flower := scenarioFlower } = .ok none := rfl
    have hf1 : filterPieceAndThenAddToGraph ⟨0, 1, 5⟩ ⟨1, 1, 5⟩
        { alignRepeats := 1, trim := 0, flower := scenarioFlower } =
          .ok (some (⟨0, 1, 5⟩, ⟨1, 1, 5⟩)) := rfl
    norm_num [cactusCorePipeline, hprep, annealingLoop, annealingRound, scenarioS4,
      constructCactusCoreInputParameters, scenarioS4Modules, addAlignments, pinchMerge,
      hf0, hf1, floatToInt, cBool, deannealing, deannealingLoop, getBlocksToUndo,
      stSortedSet_getDifference, Modules.run, cactusCorePipeline_2, Call.isMerge]
  obtain ⟨run, hrun, hrep, hmerges⟩ := hex
  refine ⟨run, hrun, hrep, hmerges, ?_⟩
  intro r round hr
  exact (alignRepeats_iff false scenarioS4Modules 2 () scenarioFlower scenarioS4 0 run hrun
    r round hr).2.1

/-! ### The pipeline runs to its end -/

/-- Over a store of letters and dashes every fetched string is one. -/
theorem piece_getString_bases (flower : Flower)
    (hbases : ∀ contig start length strand : Int,
      ∀ c ∈ flower.sequence_getString contig start length strand, isBaseOrDash c)
    (piece : Piece) : ∀ c ∈ piece_getString piece flower, isBaseOrDash c := by
  unfold piece_getString
  split_ifs
  · exact hbases _ _ _ _
  · exact hbases _ _ _ _

/-- On pieces of equal length over a store of letters and dashes the callback
returns. -/
theorem filterPiece_returns (piece piece2 : Piece) (fp : FilterAlignmentParameters)
    (hlen : piece.end_ - piece.start = piece2.end_ - piece2.start)
    (hbases : ∀ contig start length strand : Int,
      ∀ c ∈ fp.flower.sequence_getString contig start length strand, isBaseOrDash c) :
    ∃ merged, filterPieceAndThenAddToGraph piece piece2 fp = .ok merged := by
  by_cases hL : piece.end_ - piece.start + 1 > 2 * fp.trim
  · rw [filterPiece_long piece piece2 fp hlen hL]
    split_ifs
    · rcases containsRepeatBases_ok _
        (piece_getString_bases fp.flower hbases (piece.trimmed fp.trim)) with h1 | h1
      · rw [h1]
        exact ⟨_, rfl⟩
      · rw [h1]
        rcases containsRepeatBases_ok _
          (piece_getString_bases fp.flower hbases (piece2.trimmed fp.trim)) with h2 | h2
        · rw [h2]
          exact ⟨_, rfl⟩
        · rw [h2]
          exact ⟨_, rfl⟩
    · exact ⟨_, rfl⟩
  · exact ⟨_, filterPiece_short piece piece2 fp hlen (not_lt.1 hL)⟩

theorem pinchMerge_returns {B : Type} (fp : FilterAlignmentParameters) (overlap : Int)
    (hbases : ∀ contig start length strand : Int,
      ∀ c ∈ fp.flower.sequence_getString contig start length strand, isBaseOrDash c) :
    ∀ pairwiseAlignment : PairwiseAlignment,
      (∀ pair ∈ pairwiseAlignment,
        pair.1.end_ - pair.1.start = pair.2.end_ - pair.2.start) →
      ∃ calls : List (Call B), pinchMerge fp overlap pairwiseAlignment = .ok calls := by
  intro pairwiseAlignment
  induction pairwiseAlignment with
  | nil =>
    intro _
    exact ⟨[], rfl⟩
  | cons pair pairs ih =>
    intro hlen
    obtain ⟨piece, piece2⟩ := pair
    obtain ⟨merged, hf⟩ :=
      filterPiece_returns piece piece2 fp (hlen (piece, piece2) (List.mem_cons_self _ _)) hbases
    obtain ⟨rest, hrest⟩ := ih (fun pair hp => hlen pair (List.mem_cons_of_mem _ hp))
    unfold pinchMerge
    rw [hf]
    simp only
    rw [hrest]
    cases merged with
    | none => exact ⟨_, rfl⟩
    | some ab => exact ⟨_, rfl⟩

theorem addAlignments_returns {B : Type} (fp : FilterAlignmentParameters) (overlap : Int)
    (hbases : ∀ contig start length strand : Int,
      ∀ c ∈ fp.flower.sequence_getString contig start length strand, isBaseOrDash c) :
    ∀ stack : List PairwiseAlignment,
      (∀ pairwiseAlignment ∈ stack, ∀ pair ∈ pairwiseAlignment,
        pair.1.end_ - pair.1.start = pair.2.end_ - pair.2.start) →
      ∃ calls : List (Call B), addAlignments fp overlap stack = .ok calls := by
  intro stack
  induction stack with
  | nil =>
    intro _
    exact ⟨[], rfl⟩
  | cons pairwiseAlignment stack ih =>
    intro hlen
    obtain ⟨merges, hm⟩ :=
      pinchMerge_returns (B := B) fp overlap hbases pairwiseAlignment
        (hlen pairwiseAlignment (List.mem_cons_self _ _))
    obtain ⟨rest, hrest⟩ := ih (fun a ha => hlen a (List.mem_cons_of_mem _ ha))
    unfold addAlignments
    rw [hm]
    simp only
    rw [hrest]
    exact ⟨_, rfl⟩

/-- The de-annealing of a round returns when the minimum chain length is not
negative and the budget covers `deannealingRounds`. -/
theorem deannealing_returns {W B : Type} [DecidableEq B] (m : Modules W B)
    (cCIP : CactusCoreInputParameters) (terminateRecursion loop : Int)
    (minimumBlockLength minimumChainLength : ℚ) (fuel : Nat) (w : W)
    (hm : 0 ≤ minimumChainLength) (hfuel1 : 1 ≤ fuel)
    (hfuel : cCIP.deannealingRounds ≤ (fuel : ℚ)) :
    ∃ result,
      deannealing m cCIP terminateRecursion loop minimumBlockLength minimumChainLength
        fuel w = .ok result := by
  by_cases hd : 0 < cCIP.deannealingRounds
  · obtain ⟨w1, steps, hrun, -⟩ :=
      deannealing_run m cCIP terminateRecursion loop minimumBlockLength minimumChainLength
        fuel w hd hm (passes_le_fuel _ _ _ hfuel1 hfuel)
    exact ⟨_, hrun⟩
  · unfold deannealing
    rw [if_neg hd]
    exact ⟨_, rfl⟩

/-- A round returns when its trim and minimum chain length are not negative,
the alignments pair pieces of equal length, the store holds letters and dashes
and the budget covers `deannealingRounds`. -/
theorem annealingRound_returns {W B : Type} [DecidableEq B] (m : Modules W B)
    (flower : Flower) (cCIP : CactusCoreInputParameters) (terminateRecursion : Int)
    (fuel : Nat) (s : LoopState W)
    (htrim : 0 ≤ s.trim) (hchain : 0 ≤ s.minimumChainLength)
    (hlen : ∀ w : W, ∀ pairwiseAlignment ∈ m.alignmentStack w,
      ∀ pair ∈ pairwiseAlignment, pair.1.end_ - pair.1.start = pair.2.end_ - pair.2.start)
    (hbases : ∀ contig start length strand : Int,
      ∀ c ∈ flower.sequence_getString contig start length strand, isBaseOrDash c)
    (hfuel1 : 1 ≤ fuel) (hfuel : cCIP.deannealingRounds ≤ (fuel : ℚ)) :
    ∃ result, annealingRound m flower cCIP terminateRecursion fuel s = .ok result := by
  obtain ⟨pulled, hpulled⟩ :=
    addAlignments_returns (B := B)
      { alignRepeats := cBool (s.loop ≥ cCIP.alignRepeatsAtRound),
        trim := floatToInt s.trim, flower := flower }
      cCIP.adjacencyComponentOverlap hbases
      (m.alignmentStack (m.run s.world
        [.getVertexToAdjacencyComponentHash, .getAdjacencyComponentGraph,
         .startAlignmentStack])) (hlen _)
  obtain ⟨result, hsteps⟩ :=
    deannealing_returns m cCIP terminateRecursion s.loop s.minimumBlockLength
      s.minimumChainLength fuel
      (m.run s.world
        ([.getVertexToAdjacencyComponentHash, .getAdjacencyComponentGraph,
          .startAlignmentStack] ++ .getNextAlignment :: pulled ++
          [.removeTrivialGreyEdgeComponents] ++
          cactusCorePipeline_2 (cBool (terminateRecursion = 0))
            (cBool (s.loop + 1 ≥ cCIP.annealingRounds)) ++
          [.computeSortedBiConnectedComponents])) hchain hfuel1 hfuel
  obtain ⟨w, steps⟩ := result
  unfold annealingRound
  simp only
  rw [if_neg (not_not.2 htrim), hpulled]
  simp only
  rw [hsteps]
  simp only
  by_cases hlast : s.loop + 1 < cCIP.annealingRounds
  · rw [if_pos hlast]
    exact ⟨_, rfl⟩
  · rw [if_neg hlast]
    exact ⟨_, rfl⟩

/-- The annealing loop returns within a budget that covers the rounds still
to run. -/
theorem annealingLoop_returns {W B : Type} [DecidableEq B] (m : Modules W B)
    (flower : Flower) (cCIP : CactusCoreInputParameters) (terminateRecursion : Int)
    (innerFuel : Nat)
    (hlen : ∀ w : W, ∀ pairwiseAlignment ∈ m.alignmentStack w,
      ∀ pair ∈ pairwiseAlignment, pair.1.end_ - pair.1.start = pair.2.end_ - pair.2.start)
    (hbases : ∀ contig start length strand : Int,
      ∀ c ∈ flower.sequence_getString contig start length strand, isBaseOrDash c)
    (hfuel1 : 1 ≤ innerFuel) (hfuel : cCIP.deannealingRounds ≤ (innerFuel : ℚ)) :
    ∀ (fuel : Nat) (s : LoopState W), 1 ≤ fuel →
      cCIP.annealingRounds - s.loop ≤ (fuel : Int) →
      0 ≤ s.trim → 0 ≤ s.minimumChainLength →
      ∃ result,
        annealingLoop m flower cCIP terminateRecursion innerFuel fuel s = .ok result := by
  intro fuel
  induction fuel with
  | zero =>
    intro s h1
    omega
  | succ fuel ih =>
    intro s _ hrounds htrim hchain
    obtain ⟨result, hround⟩ :=
      annealingRound_returns m flower cCIP terminateRecursion innerFuel s htrim hchain
        hlen hbases hfuel1 hfuel
    obtain ⟨round, s1, continues⟩ := result
    unfold annealingLoop
    rw [hround]
    cases continues with
    | false => exact ⟨_, rfl⟩
    | true =>
      simp only
      obtain ⟨-, -, -, -, w, -, hgo, -⟩ :=
        annealingRound_ok m flower cCIP terminateRecursion innerFuel s s1 round true hround
      obtain ⟨hlt, -, hloop, ht, hc, -⟩ := hgo rfl
      have ht1 : 0 ≤ s1.trim := by
        rw [ht, clamp_eq_max]
        exact le_max_left _ _
      have hc1 : 0 ≤ s1.minimumChainLength := by
        rw [hc, clamp_eq_max]
        exact le_max_left _ _
      obtain ⟨rest, hrest⟩ := ih s1 (by omega) (by omega) ht1 hc1
      obtain ⟨rounds, s2⟩ := rest
      rw [hrest]
      exact ⟨_, rfl⟩

/-- On admissible inputs the pipeline runs to its end. -/
theorem cactusCorePipeline_returns {W B : Type} [DecidableEq B] (benDebug : Bool)
    (m : Modules W B) (fuel : Nat) (w : W) (flower : Flower)
    (cCIP : CactusCoreInputParameters) (terminateRecursion : Int)
    (hadm : Admissible benDebug m fuel flower cCIP) :
    ∃ run, cactusCorePipeline benDebug m fuel w flower cCIP terminateRecursion = .ok run := by
  have hprep : ∃ preparation : List (Call B),
      prepareFlower benDebug flower = .ok preparation := by
    unfold prepareFlower
    rw [if_neg (by simp [hadm.notBuilt])]
    cases benDebug with
    | false =>
      simp only [Bool.false_eq_true, false_and, if_false]
      exact ⟨_, rfl⟩
    | true =>
      obtain ⟨h1, h2, h3, h4⟩ := hadm.debugChecks rfl
      simp only [h1, h2, h3, h4, not_true_eq_false, and_false, if_false]
      exact ⟨_, rfl⟩
  obtain ⟨preparation, hprep⟩ := hprep
  obtain ⟨result, hloop⟩ :=
    annealingLoop_returns m flower cCIP terminateRecursion fuel hadm.equalLengths
      hadm.bases hadm.fuelPos hadm.innerFuel fuel
      { loop := 0
        trim := cCIP.trim
        minimumChainLength := cCIP.minimumChainLength
        minimumBlockLength := cCIP.minimumBlockLength
        world := m.run w preparation }
      hadm.fuelPos (by simpa using hadm.outerFuel)
      (by
        show (0 : ℚ) ≤ (cCIP.trim : ℚ)
        exact_mod_cast hadm.trimNonneg)
      (by
        show (0 : ℚ) ≤ (cCIP.minimumChainLength : ℚ)
        exact_mod_cast hadm.chainLengthNonneg)
  obtain ⟨rounds, s1⟩ := result
  unfold cactusCorePipeline
  rw [hprep]
  simp only
  rw [hloop]
  exact ⟨_, rfl⟩

/-! ### The calls of a round -/

/-- The calls of a de-annealing pass neither arm the alignment source, nor
pull an alignment, nor fill out the flower. -/
theorem deannealingLoop_calls {W B : Type} [DecidableEq B] (m : Modules W B)
    (cCIP : CactusCoreInputParameters) (terminateRecursion loop : Int)
    (minimumBlockLength minimumChainLength stepSize : ℚ) :
    ∀ (fuel : Nat) (c : ℚ) (w w1 : W) (steps : List (DeannealingStep W B)),
      deannealingLoop m cCIP terminateRecursion loop minimumBlockLength minimumChainLength
        stepSize fuel c w = .ok (w1, steps) →
      ∀ step ∈ steps, ∀ call ∈ step.calls,
        call ≠ .startAlignmentStack ∧ call ≠ .getNextAlignment ∧
          call.isFillOutFlower = false := by
  intro fuel
  induction fuel with
  | zero =>
    intro c w w1 steps h
    cases h
  | succ fuel ih =>
    intro c w w1 steps h
    unfold deannealingLoop at h
    simp only at h
    have hfirst : ∀ call ∈ (if (getBlocksToUndo m cCIP minimumBlockLength c w).length > 0 then
          [Call.removeOverAlignedEdges (getBlocksToUndo m cCIP minimumBlockLength c w),
            Call.removeTrivialGreyEdgeComponents] ++
            cactusCorePipeline_2 (cBool (terminateRecursion = 0))
              (cBool (loop + 1 ≥ cCIP.annealingRounds)) ++
            [Call.computeSortedBiConnectedComponents]
        else []),
        call ≠ .startAlignmentStack ∧ call ≠ .getNextAlignment ∧
          call.isFillOutFlower = false := by
      intro call hcall
      split_ifs at hcall
      · simp only [cactusCorePipeline_2, List.mem_append, List.mem_cons, List.mem_singleton,
          List.not_mem_nil, or_false] at hcall
        rcases hcall with ((rfl | rfl) | (rfl | rfl | rfl)) | rfl <;>
          exact ⟨by simp, by simp, rfl⟩
      · cases hcall
    by_cases hc : c ≥ minimumChainLength
    · rw [if_pos hc] at h
      simp only [Except.ok.injEq, Prod.mk.injEq] at h
      obtain ⟨-, hs⟩ := h
      subst hs
      intro step hstep
      simp only [List.mem_singleton] at hstep
      subst hstep
      exact hfirst
    · rw [if_neg hc] at h
      split at h
      · cases h
      · rename_i w2 steps2 hrest
        simp only [Except.ok.injEq, Prod.mk.injEq] at h
        obtain ⟨-, hs⟩ := h
        subst hs
        intro step hstep
        rcases List.mem_cons.1 hstep with rfl | hmem
        · exact hfirst
        · exact ih _ _ _ _ hrest step hmem

theorem deannealing_calls {W B : Type} [DecidableEq B] (m : Modules W B)
    (cCIP : CactusCoreInputParameters) (terminateRecursion loop : Int)
    (minimumBlockLength minimumChainLength : ℚ) (fuel : Nat) (w w1 : W)
    (steps : List (DeannealingStep W B))
    (h : deannealing m cCIP terminateRecursion loop minimumBlockLength minimumChainLength
      fuel w = .ok (w1, steps)) :
    ∀ call ∈ (steps.map (fun step => step.calls)).flatten,
      call ≠ .startAlignmentStack ∧ call ≠ .getNextAlignment ∧
        call.isFillOutFlower = false := by
  intro call hcall
  simp only [List.mem_flatten, List.mem_map] at hcall
  obtain ⟨calls, ⟨step, hstep, rfl⟩, hmem⟩ := hcall
  unfold deannealing at h
  split_ifs at h with hd
  · exact deannealingLoop_calls m cCIP terminateRecursion loop minimumBlockLength
      minimumChainLength _ fuel _ w w1 steps h step hstep call hmem
  · simp only [Except.ok.injEq, Prod.mk.injEq] at h
    rw [← h.2] at hstep
    cases hstep

/-- The calls of a completed round: the alignment source is armed once, after
two calls that pull no alignment; the flower is filled out once, by the last
call, if the round leaves the loop, and not at all if the loop goes on. -/
theorem annealingRound_calls {W B : Type} [DecidableEq B] (m : Modules W B)
    (flower : Flower) (cCIP : CactusCoreInputParameters) (terminateRecursion : Int)
    (fuel : Nat) (s s1 : LoopState W) (round : Round W B) (continues : Bool)
    (h : annealingRound m flower cCIP terminateRecursion fuel s = .ok (round, s1, continues)) :
    round.calls.count .startAlignmentStack = 1 ∧
    (∃ before after, round.calls = before ++ .startAlignmentStack :: after ∧
      Call.getNextAlignment ∉ before) ∧
    round.calls.countP Call.isFillOutFlower = (if continues = true then 0 else 1) ∧
    (continues = false →
      ∃ chosenBlocks, round.calls.getLast? = some (.fillOutFlowerFromInputs chosenBlocks)) := by
  obtain ⟨-, -, hfp, ⟨pulled, hpulled, hmerging⟩, w, hsteps, hgo, hstop⟩ :=
    annealingRound_ok m flower cCIP terminateRecursion fuel s s1 round continues h
  have hquiet := deannealing_calls m cCIP terminateRecursion s.loop s.minimumBlockLength
    s.minimumChainLength fuel _ w round.deannealing hsteps
  have hpull := addAlignments_calls _ _ _ pulled hpulled
  have hp1 : List.count Call.startAlignmentStack pulled = 0 := by
    apply List.count_eq_zero.2
    intro hmem
    rcases hpull _ hmem with hg | ⟨_, _, _, _, he, _⟩
    · cases hg
    · cases he
  have hp2 : List.countP Call.isFillOutFlower pulled = 0 := by
    apply List.countP_eq_zero.2
    intro call hmem
    rcases hpull _ hmem with rfl | ⟨_, _, _, _, rfl, _⟩
    · simp [Call.isFillOutFlower]
    · simp [Call.isFillOutFlower]
  have hd1 : List.count Call.startAlignmentStack
      (round.deannealing.map (fun step => step.calls)).flatten = 0 := by
    apply List.count_eq_zero.2
    intro hmem
    exact (hquiet _ hmem).1 rfl
  have hd2 : List.countP Call.isFillOutFlower
      (round.deannealing.map (fun step => step.calls)).flatten = 0 := by
    apply List.countP_eq_zero.2
    intro call hmem
    rw [(hquiet _ hmem).2.2]
    simp
  have hshape : ∃ after, round.calls =
      [.getVertexToAdjacencyComponentHash, .getAdjacencyComponentGraph] ++
        .startAlignmentStack :: after := by
    unfold Round.calls
    rw [hmerging]
    exact ⟨Call.getNextAlignment :: pulled ++ [.removeTrivialGreyEdgeComponents] ++
      cactusCorePipeline_2 (cBool (terminateRecursion = 0))
        (cBool (s.loop + 1 ≥ cCIP.annealingRounds)) ++
      [.computeSortedBiConnectedComponents] ++
      (round.deannealing.map (fun step => step.calls)).flatten ++ round.closing, by simp⟩
  cases continues with
  | true =>
    obtain ⟨-, hclosing, -⟩ := hgo rfl
    refine ⟨?_, ?_, ?_, ?_⟩
    · unfold Round.calls
      rw [hmerging, hclosing]
      simp [List.count_append, List.count_cons, cactusCorePipeline_2, hp1, hd1]
    · obtain ⟨after, hafter⟩ := hshape
      exact ⟨_, after, hafter, by simp⟩
    · unfold Round.calls
      rw [hmerging, hclosing]
      simp [List.countP_append, List.countP_cons, cactusCorePipeline_2, hp2, hd2,
        Call.isFillOutFlower]
    · intro hf
      cases hf
  | false =>
    obtain ⟨-, hclosing, -⟩ := hstop rfl
    refine ⟨?_, ?_, ?_, ?_⟩
    · unfold Round.calls
      rw [hmerging, hclosing]
      simp [List.count_append, List.count_cons, cactusCorePipeline_2, hp1, hd1]
    · obtain ⟨after, hafter⟩ := hshape
      exact ⟨_, after, hafter, by simp⟩
    · unfold Round.calls
      rw [hmerging, hclosing]
      simp [List.countP_append, List.countP_cons, cactusCorePipeline_2, hp2, hd2,
        Call.isFillOutFlower]
    · intro _
      refine ⟨m.filterBlocksByTreeCoverageAndLength w 0
        (if terminateRecursion ≠ 0 then 0 else 2) 0 0, ?_⟩
      unfold Round.calls
      rw [hclosing]
      simp

/-- The scenario store holds letters only. -/
theorem scenarioFlower_bases (contig start length strand : Int) :
    ∀ c ∈ scenarioFlower.sequence_getString contig start length strand, isBaseOrDash c := by
  intro c hc
  have hmem : c ∈ (if contig = 0 then ['a', 'a', 'a', 'a', 'a']
      else ['A', 'C', 'G', 'T', 'A']) :=
    List.mem_of_mem_drop (List.mem_of_mem_take hc)
  rw [isBaseOrDash_iff]
  split_ifs at hmem
  · simp only [List.mem_cons, List.mem_singleton, List.not_mem_nil, or_false, or_self] at hmem
    subst hmem
    decide
  · simp only [List.mem_cons, List.mem_singleton, List.not_mem_nil, or_false] at hmem
    rcases hmem with rfl | rfl | rfl | rfl | rfl <;> decide

/-- The scenario S6 is an admissible input with a budget of two steps. -/
theorem scenarioS6_admissible :
    Admissible false scenarioModules 2 scenarioFlower scenarioS6 where
  notBuilt := rfl
  debugChecks := by
    intro h
    cases h
  trimNonneg := by decide
  chainLengthNonneg := by decide
  equalLengths := by
    intro w pairwiseAlignment ha pair hp
    simp only [scenarioModules, List.mem_singleton] at ha
    subst ha
    simp only [List.mem_singleton] at hp
    subst hp
    decide
  bases := scenarioFlower_bases
  outerFuel := by decide
  innerFuel := by norm_num [scenarioS6, constructCactusCoreInputParameters]
  fuelPos := by decide

/-- Every cactus build inside a de-annealing loop is made with
`excludeDegree1Edges = !terminateRecursion` and
`attachEnds = (loop + 1 >= annealingRounds)`. -/
theorem deannealingLoop_flags {W B : Type} [DecidableEq B] (m : Modules W B)
    (cCIP : CactusCoreInputParameters) (terminateRecursion loop : Int)
    (minimumBlockLength minimumChainLength stepSize : ℚ) :
    ∀ (fuel : Nat) (c : ℚ) (w w1 : W) (steps : List (DeannealingStep W B)),
      deannealingLoop m cCIP terminateRecursion loop minimumBlockLength minimumChainLength
        stepSize fuel c w = .ok (w1, steps) →
      ∀ step ∈ steps, ∀ call ∈ step.calls,
        (∀ flag, call.excludeDegree1Edges? = some flag →
          flag = cBool (terminateRecursion = 0)) ∧
        (∀ flag, call.attachEnds? = some flag →
          flag = cBool (loop + 1 ≥ cCIP.annealingRounds)) := by
  intro fuel
  induction fuel with
  | zero =>
    intro c w w1 steps h
    cases h
  | succ fuel ih =>
    intro c w w1 steps h
    unfold deannealingLoop at h
    simp only at h
    have hfirst : ∀ call ∈ (if (getBlocksToUndo m cCIP minimumBlockLength c w).length > 0 then
          [Call.removeOverAlignedEdges (getBlocksToUndo m cCIP minimumBlockLength c w),
            Call.removeTrivialGreyEdgeComponents] ++
            cactusCorePipeline_2 (cBool (terminateRecursion = 0))
              (cBool (loop + 1 ≥ cCIP.annealingRounds)) ++
            [Call.computeSortedBiConnectedComponents]
        else []),
        (∀ flag, call.excludeDegree1Edges? = some flag →
          flag = cBool (terminateRecursion = 0)) ∧
        (∀ flag, call.attachEnds? = some flag →
          flag = cBool (loop + 1 ≥ cCIP.annealingRounds)) := by
      intro call hcall
      split_ifs at hcall
      · simp only [cactusCorePipeline_2, List.mem_append, List.mem_cons, List.mem_singleton,
          List.not_mem_nil, or_false] at hcall
        rcases hcall with ((rfl | rfl) | (rfl | rfl | rfl)) | rfl <;>
          simp [Call.excludeDegree1Edges?, Call.attachEnds?]
      · cases hcall
    by_cases hc : c ≥ minimumChainLength
    · rw [if_pos hc] at h
      simp only [Except.ok.injEq, Prod.mk.injEq] at h
      obtain ⟨-, hs⟩ := h
      subst hs
      intro step hstep
      simp only [List.mem_singleton] at hstep
      subst hstep
      exact hfirst
    · rw [if_neg hc] at h
      split at h
      · cases h
      · rename_i w2 steps2 hrest
        simp only [Except.ok.injEq, Prod.mk.injEq] at h
        obtain ⟨-, hs⟩ := h
        subst hs
        intro step hstep
        rcases List.mem_cons.1 hstep with rfl | hmem
        · exact hfirst
        · exact ih _ _ _ _ hrest step hmem

/-- Every cactus build of a completed round is made with
`excludeDegree1Edges = !terminateRecursion` and
`attachEnds = (loop + 1 >= annealingRounds)`, and the round makes at least
one build. -/
theorem annealingRound_flags {W B : Type} [DecidableEq B] (m : Modules W B)
    (flower : Flower) (cCIP : CactusCoreInputParameters) (terminateRecursion : Int)
    (fuel : Nat) (s s1 : LoopState W) (round : Round W B) (continues : Bool)
    (h : annealingRound m flower cCIP terminateRecursion fuel s = .ok (round, s1, continues)) :
    (∀ call ∈ round.calls,
      (∀ flag, call.excludeDegree1Edges? = some flag →
        flag = cBool (terminateRecursion = 0)) ∧
      (∀ flag, call.attachEnds? = some flag →
        flag = cBool (s.loop + 1 ≥ cCIP.annealingRounds))) ∧
    Call.computeCactusGraph (cBool (terminateRecursion = 0)) ∈ round.calls ∧
    Call.linkStubComponentsToTheSinkComponent
      (cBool (s.loop + 1 ≥ cCIP.annealingRounds)) ∈ round.calls := by
  obtain ⟨-, -, -, ⟨pulled, hpulled, hmerging⟩, w, hsteps, hgo, hstop⟩ :=
    annealingRound_ok m flower cCIP terminateRecursion fuel s s1 round continues h
  have hpull := addAlignments_calls _ _ _ pulled hpulled
  have hclosing : ∀ call ∈ round.closing,
      call.excludeDegree1Edges? = none ∧ call.attachEnds? = none := by
    intro call hcall
    cases continues with
    | true =>
      rw [(hgo rfl).2.1] at hcall
      simp only [List.mem_cons, List.mem_singleton, List.not_mem_nil, or_false] at hcall
      rcases hcall with rfl | rfl <;> exact ⟨rfl, rfl⟩
    | false =>
      rw [(hstop rfl).2.1] at hcall
      simp only [List.mem_singleton] at hcall
      subst hcall
      exact ⟨rfl, rfl⟩
  refine ⟨?_, ?_, ?_⟩
  · intro call hcall
    unfold Round.calls at hcall
    rcases List.mem_append.1 hcall with hcall2 | hcall2
    · rcases List.mem_append.1 hcall2 with hm | hd
      · rw [hmerging] at hm
        have hm2 : call ∈ pulled ∨ call ∈ ([.getVertexToAdjacencyComponentHash,
            .getAdjacencyComponentGraph, .startAlignmentStack, .getNextAlignment,
            .removeTrivialGreyEdgeComponents,
            .linkStubComponentsToTheSinkComponent (cBool (s.loop + 1 ≥ cCIP.annealingRounds)),
            .computeCactusGraph (cBool (terminateRecursion = 0)),
            .circulariseStems, .computeSortedBiConnectedComponents] : List (Call B)) := by
          simp only [cactusCorePipeline_2, List.mem_append, List.mem_cons,
            List.mem_singleton, List.not_mem_nil, or_false] at hm ⊢
          tauto
        rcases hm2 with hp | hfix
        · rcases hpull _ hp with rfl | ⟨_, _, _, _, rfl, _⟩ <;>
            simp [Call.excludeDegree1Edges?, Call.attachEnds?]
        · simp only [List.mem_cons, List.mem_singleton, List.not_mem_nil, or_false] at hfix
          rcases hfix with rfl | rfl | rfl | rfl | rfl | rfl | rfl | rfl | rfl <;>
            simp [Call.excludeDegree1Edges?, Call.attachEnds?]
      · simp only [List.mem_flatten, List.mem_map] at hd
        obtain ⟨calls, ⟨step, hstep, rfl⟩, hmem⟩ := hd
        unfold deannealing at hsteps
        split_ifs at hsteps with hpos
        · exact deannealingLoop_flags m cCIP terminateRecursion s.loop _ _ _ fuel _ _ w
            round.deannealing hsteps step hstep call hmem
        · simp only [Except.ok.injEq, Prod.mk.injEq] at hsteps
          rw [← hsteps.2] at hstep
          cases hstep
    · obtain ⟨h1, h2⟩ := hclosing call hcall2
      rw [h1, h2]
      simp
  · unfold Round.calls
    rw [hmerging]
    simp [cactusCorePipeline_2]
  · unfold Round.calls
    rw [hmerging]
    simp [cactusCorePipeline_2]

/-- The rounds of a completed run of the pipeline: round `r` is a run of
`annealingRound` entered with `loop = r`, which goes on exactly when it is not
the last round of the run. -/
theorem cactusCorePipeline_round {W B : Type} [DecidableEq B] (benDebug : Bool)
    (m : Modules W B) (fuel : Nat) (w : W) (flower : Flower)
    (cCIP : CactusCoreInputParameters) (terminateRecursion : Int) (run : Run W B)
    (h : cactusCorePipeline benDebug m fuel w flower cCIP terminateRecursion = .ok run)
    (r : Nat) (round : Round W B) (hr : run.rounds[r]? = some round) :
    round.entry.loop = (r : Int) ∧
    ∃ s1 continues,
      annealingRound m flower cCIP terminateRecursion fuel round.entry =
        .ok (round, s1, continues) ∧
      (continues = true ↔ r + 1 < run.rounds.length) := by
  obtain ⟨-, w0, hloop⟩ :=
    cactusCorePipeline_ok benDebug m fuel w flower cCIP terminateRecursion run h
  obtain ⟨-, hall⟩ :=
    annealingLoop_rounds m flower cCIP terminateRecursion fuel fuel _ _ _ hloop
  obtain ⟨hl, s1, continues, hround, hnext, hend⟩ := hall r round hr
  simp only [zero_add] at hl
  have hrlt : r < run.rounds.length := by
    by_contra hge
    rw [List.getElem?_eq_none (by omega)] at hr
    cases hr
  refine ⟨hl, s1, continues, hround, ?_, ?_⟩
  · intro htrue
    by_contra hnot
    have := (hend (by omega)).1
    rw [htrue] at this
    cases this
  · intro hlt
    exact (hnext hlt).1

/-- With `annealingRounds ≥ 1` a completed run has exactly `annealingRounds`
rounds. -/
theorem cactusCorePipeline_length {W B : Type} [DecidableEq B] (benDebug : Bool)
    (m : Modules W B) (fuel : Nat) (w : W) (flower : Flower)
    (cCIP : CactusCoreInputParameters) (terminateRecursion : Int) (run : Run W B)
    (h : cactusCorePipeline benDebug m fuel w flower cCIP terminateRecursion = .ok run)
    (hrounds : 1 ≤ cCIP.annealingRounds) :
    (run.rounds.length : Int) = cCIP.annealingRounds := by
  obtain ⟨-, w0, hloop⟩ :=
    cactusCorePipeline_ok benDebug m fuel w flower cCIP terminateRecursion run h
  obtain ⟨⟨r0, hr0, -⟩, -⟩ :=
    annealingLoop_rounds m flower cCIP terminateRecursion fuel fuel _ _ _ hloop
  have hpos : 0 < run.rounds.length := by
    by_contra hzero
    rw [List.getElem?_eq_none (by omega)] at hr0
    cases hr0
  have hge : cCIP.annealingRounds ≤ (run.rounds.length : Int) := by
    have hlt : run.rounds.length - 1 < run.rounds.length := by omega
    obtain ⟨hl, s1, continues, hround, hiff⟩ :=
      cactusCorePipeline_round benDebug m fuel w flower cCIP terminateRecursion run h
        (run.rounds.length - 1) _ (List.getElem?_eq_getElem hlt)
    have hfalse : continues = false := by
      cases continues with
      | false => rfl
      | true =>
        have := hiff.1 rfl
        omega
    obtain ⟨-, -, -, -, w1, -, -, hstop⟩ :=
      annealingRound_ok m flower cCIP terminateRecursion fuel _ s1 _ continues hround
    obtain ⟨hnot, -⟩ := hstop hfalse
    rw [hl] at hnot
    omega
  have hle : (run.rounds.length : Int) ≤ cCIP.annealingRounds := by
    by_cases hone : run.rounds.length = 1
    · rw [hone]
      exact_mod_cast hrounds
    · have hlt : run.rounds.length - 2 < run.rounds.length := by omega
      obtain ⟨hl, s1, continues, hround, hiff⟩ :=
        cactusCorePipeline_round benDebug m fuel w flower cCIP terminateRecursion run h
          (run.rounds.length - 2) _ (List.getElem?_eq_getElem hlt)
      have htrue : continues = true := hiff.2 (by omega)
      obtain ⟨-, -, -, -, w1, -, hgo, -⟩ :=
        annealingRound_ok m flower cCIP terminateRecursion fuel _ s1 _ continues hround
      obtain ⟨hless, -⟩ := hgo htrue
      rw [hl] at hless
      omega
  omega

theorem cBool_ne_zero (p : Prop) [Decidable p] : cBool p ≠ 0 ↔ p := by
  unfold cBool
  split_ifs with hp
  · simp [hp]
  · simp [hp]

/-- C11, as the code has it: in a completed run every cactus graph, in every
round, is built with the exclude-degree-1-edges flag equal to
`!terminateRecursion`: the flag is set if and only if `terminateRecursion` is
zero, whatever the round, and every round builds at least one cactus graph. -/
theorem excludeDegree1Edges_flag {W B : Type} [DecidableEq B] (benDebug : Bool)
    (m : Modules W B) (fuel : Nat) (w : W) (flower : Flower)
    (cCIP : CactusCoreInputParameters) (terminateRecursion : Int) (run : Run W B)
    (h : cactusCorePipeline benDebug m fuel w flower cCIP terminateRecursion = .ok run) :
    ∀ (r : Nat) (round : Round W B), run.rounds[r]? = some round →
      (∀ call ∈ round.calls, ∀ flag, call.excludeDegree1Edges? = some flag →
        (flag ≠ 0 ↔ terminateRecursion = 0)) ∧
      ∃ call ∈ round.calls, ∃ flag, call.excludeDegree1Edges? = some flag := by
  intro r round hr
  obtain ⟨-, s1, continues, hround, -⟩ :=
    cactusCorePipeline_round benDebug m fuel w flower cCIP terminateRecursion run h r round hr
  obtain ⟨hflags, hbuild, -⟩ :=
    annealingRound_flags m flower cCIP terminateRecursion fuel round.entry s1 round
      continues hround
  refine ⟨?_, _, hbuild, _, rfl⟩
  intro call hcall flag hflag
  rw [(hflags call hcall).1 flag hflag]
  exact cBool_ne_zero _

/-- C11 fails as stated. In scenario S6 (two rounds, `terminateRecursion = 0`)
the cactus graph of the last round is built with the flag set, as is the one of
the first round. -/
theorem excludeDegree1Edges_flag_counterexample :
    ∃ run, cactusCorePipeline false scenarioModules 2 () scenarioFlower scenarioS6 0 =
        .ok run ∧
      run.rounds.map (fun round => round.calls.filterMap Call.excludeDegree1Edges?) =
        [[1], [1]] := by
  norm_num [cactusCorePipeline, prepareFlower, scenarioFlower, annealingLoop,
    annealingRound, scenarioS6, constructCactusCoreInputParameters, scenarioModules,
    addAlignments, pinchMerge, filterPieceAndThenAddToGraph, floatToInt, cBool,
    deannealing, deannealingLoop, getBlocksToUndo, stSortedSet_getDifference,
    Modules.run, cactusCorePipeline_2, Round.calls, Call.excludeDegree1Edges?]
  rfl

/-- C11 at the scenario S6 with `terminateRecursion = 1`: both rounds build
their cactus graph with the flag not set. -/
theorem excludeDegree1Edges_flag_witness :
    ∃ run, cactusCorePipeline false scenarioModules 2 () scenarioFlower scenarioS6 1 =
        .ok run ∧
      run.rounds.map (fun round => round.calls.filterMap Call.excludeDegree1Edges?) =
        [[0], [0]] ∧
      ∀ (r : Nat) (round : Round Unit Nat), run.rounds[r]? = some round →
        ∀ call ∈ round.calls, ∀ flag, call.excludeDegree1Edges? = some flag →
          (flag ≠ 0 ↔ (1 : Int) = 0) := by
  have hex : ∃ run,
      cactusCorePipeline false scenarioModules 2 () scenarioFlower scenarioS6 1 = .ok run ∧
      run.rounds.map (fun round => round.calls.filterMap Call.excludeDegree1Edges?) =
        [[0], [0]] := by
    norm_num [cactusCorePipeline, prepareFlower, scenarioFlower, annealingLoop,
      annealingRound, scenarioS6, constructCactusCoreInputParameters, scenarioModules,
      addAlignments, pinchMerge, filterPieceAndThenAddToGraph, floatToInt, cBool,
      deannealing, deannealingLoop, getBlocksToUndo, stSortedSet_getDifference,
      Modules.run, cactusCorePipeline_2, Round.calls, Call.excludeDegree1Edges?]
    rfl
  obtain ⟨run, hrun, hflags⟩ := hex
  refine ⟨run, hrun, hflags, ?_⟩
  intro r round hr
  exact (excludeDegree1Edges_flag false scenarioModules 2 () scenarioFlower scenarioS6 1 run
    hrun r round hr).1

/-- C12: for `annealingRounds ≥ 1`, in a completed run every call that links
the stub components to the sink, in the first cactus build of a round and in
every rebuild of its de-annealing loop, is made with `attachEnds` true if and
only if the round `r` (counted from 0) has `r + 1 ≥ annealingRounds`, that is,
if and only if it is the last round; and every round makes such a call. -/
theorem attachEnds_iff_last_round {W B : Type} [DecidableEq B] (benDebug : Bool)
    (m : Modules W B) (fuel : Nat) (w : W) (flower : Flower)
    (cCIP : CactusCoreInputParameters) (terminateRecursion : Int) (run : Run W B)
    (hrounds : 1 ≤ cCIP.annealingRounds)
    (h : cactusCorePipeline benDebug m fuel w flower cCIP terminateRecursion = .ok run) :
    ∀ (r : Nat) (round : Round W B), run.rounds[r]? = some round →
      (∀ call ∈ round.calls, ∀ flag, call.attachEnds? = some flag →
        (flag ≠ 0 ↔ (r : Int) + 1 ≥ cCIP.annealingRounds) ∧
        (flag ≠ 0 ↔ r + 1 = run.rounds.length)) ∧
      ∃ call ∈ round.calls, ∃ flag, call.attachEnds? = some flag := by
  intro r round hr
  have hlen := cactusCorePipeline_length benDebug m fuel w flower cCIP terminateRecursion
    run h hrounds
  have hrlt : r < run.rounds.length := by
    by_contra hge
    rw [List.getElem?_eq_none (by omega)] at hr
    cases hr
  obtain ⟨hl, s1, continues, hround, -⟩ :=
    cactusCorePipeline_round benDebug m fuel w flower cCIP terminateRecursion run h r round hr
  obtain ⟨hflags, -, hlink⟩ :=
    annealingRound_flags m flower cCIP terminateRecursion fuel round.entry s1 round
      continues hround
  refine ⟨?_, _, hlink, _, rfl⟩
  intro call hcall flag hflag
  rw [(hflags call hcall).2 flag hflag, hl]
  refine ⟨cBool_ne_zero _, ?_⟩
  rw [cBool_ne_zero]
  constructor
  · intro hge
    omega
  · intro heq
    omega

/-- C12 at the scenario S6: of the two rounds the first links the stubs with
`attachEnds` false, the second and last with `attachEnds` true. -/
theorem attachEnds_iff_last_round_witness :
    ∃ run, cactusCorePipeline false scenarioModules 2 () scenarioFlower scenarioS6 0 =
        .ok run ∧
      run.rounds.map (fun round => round.calls.filterMap Call.attachEnds?) = [[0], [1]] ∧
      ∀ (r : Nat) (round : Round Unit Nat), run.rounds[r]? = some round →
        ∀ call ∈ round.calls, ∀ flag, call.attachEnds? = some flag →
          (flag ≠ 0 ↔ r + 1 = run.rounds.length) := by
  have hex : ∃ run,
      cactusCorePipeline false scenarioModules 2 () scenarioFlower scenarioS6 0 = .ok run ∧
      run.rounds.map (fun round => round.calls.filterMap Call.attachEnds?) =
        [[0], [1]] := by
    norm_num [cactusCorePipeline, prepareFlower, scenarioFlower, annealingLoop,
      annealingRound, scenarioS6, constructCactusCoreInputParameters, scenarioModules,
      addAlignments, pinchMerge, filterPieceAndThenAddToGraph, floatToInt, cBool,
      deannealing, deannealingLoop, getBlocksToUndo, stSortedSet_getDifference,
      Modules.run, cactusCorePipeline_2, Round.calls, Call.attachEnds?]
    exact ⟨rfl, rfl⟩
  obtain ⟨run, hrun, hflags⟩ := hex
  refine ⟨run, hrun, hflags, ?_⟩
  intro r round hr call hcall flag hflag
  exact (((attachEnds_iff_last_round false scenarioModules 2 () scenarioFlower scenarioS6 0
    run (by decide) hrun r round hr).1 call hcall flag hflag)).2

/-! ### The checks on the flower -/

/-- The pipeline stops where the preparation of the flower stops. -/
theorem cactusCorePipeline_error_of_prepareFlower {W B : Type} [DecidableEq B]
    (benDebug : Bool) (m : Modules W B) (fuel : Nat) (w : W) (flower : Flower)
    (cCIP : CactusCoreInputParameters) (terminateRecursion : Int) (e : Abort)
    (h : (prepareFlower benDebug flower : Except Abort (List (Call B))) = .error e) :
    cactusCorePipeline benDebug m fuel w flower cCIP terminateRecursion = .error e := by
  unfold cactusCorePipeline
  rw [h]

/-- The calls of a completed run before its first round are the calls of the
preparation of the flower. -/
theorem cactusCorePipeline_preparation {W B : Type} [DecidableEq B]
    (benDebug : Bool) (m : Modules W B) (fuel : Nat) (w : W) (flower : Flower)
    (cCIP : CactusCoreInputParameters) (terminateRecursion : Int) (run : Run W B)
    (h : cactusCorePipeline benDebug m fuel w flower cCIP terminateRecursion = .ok run) :
    prepareFlower benDebug flower = .ok run.preparation := by
  unfold cactusCorePipeline at h
  cases hprep : (prepareFlower benDebug flower : Except Abort (List (Call B))) with
  | error e =>
    rw [hprep] at h
    cases h
  | ok preparation =>
    rw [hprep] at h
    simp only at h
    split at h
    · cases h
    · simp only [Except.ok.injEq] at h
      rw [← h]

/-- The outcome of the preparation of the flower, case by case. -/
theorem prepareFlower_cases {B : Type} (benDebug : Bool) (flower : Flower) :
    (flower.builtBlocks = true →
      (prepareFlower benDebug flower : Except Abort (List (Call B))) =
        .error .blocksAlreadyBuilt) ∧
    (flower.builtBlocks = false → benDebug = true →
      (flower.isTerminal = false ∨ flower.groupNumber ≠ 1 ∨
        flower.firstGroupIsLeaf = false ∨ 1 < flower.chainNumber) →
      (prepareFlower benDebug flower : Except Abort (List (Call B))) =
          .error .flowerNotTerminal ∨
        (prepareFlower benDebug flower : Except Abort (List (Call B))) =
          .error .groupNumberNotOne ∨
        (prepareFlower benDebug flower : Except Abort (List (Call B))) =
          .error .firstGroupNotLeaf ∨
        (prepareFlower benDebug flower : Except Abort (List (Call B))) =
          .error .moreThanOneChain) ∧
    (flower.builtBlocks = false →
      (benDebug = false ∨
        (flower.isTerminal = true ∧ flower.groupNumber = 1 ∧
          flower.firstGroupIsLeaf = true ∧ flower.chainNumber ≤ 1)) →
      (prepareFlower benDebug flower : Except Abort (List (Call B))) =
        .ok ((if flower.chainNumber = 1 then [.chain_destruct] else []) ++
          [.group_destruct, .constructPinchGraph])) := by
  refine ⟨?_, ?_, ?_⟩
  · intro hbuilt
    unfold prepareFlower
    rw [if_pos hbuilt]
  · intro hbuilt hdebug hbad
    unfold prepareFlower
    rw [if_neg (by simp [hbuilt]), hdebug]
    by_cases h1 : flower.isTerminal = true
    · rw [if_neg (by simp [h1])]
      by_cases h2 : flower.groupNumber = 1
      · rw [if_neg (by simp [h2])]
        by_cases h3 : flower.firstGroupIsLeaf = true
        · rw [if_neg (by simp [h3])]
          by_cases h4 : flower.chainNumber ≤ 1
          · exfalso
            rcases hbad with hb | hb | hb | hb
            · rw [h1] at hb
              cases hb
            · exact hb h2
            · rw [h3] at hb
              cases hb
            · omega
          · rw [if_pos ⟨rfl, h4⟩]
            simp
        · rw [if_pos ⟨rfl, h3⟩]
          simp
      · rw [if_pos ⟨rfl, h2⟩]
        simp
    · rw [if_pos ⟨rfl, h1⟩]
      simp
  · intro hbuilt hgood
    unfold prepareFlower
    rw [if_neg (by simp [hbuilt])]
    rcases hgood with hdebug | ⟨h1, h2, h3, h4⟩
    · rw [hdebug]
      simp
    · rw [if_neg (by simp [h1]), if_neg (by simp [h2]), if_neg (by simp [h3]),
        if_neg (by simp [h4])]

/-- C16, as the code has it: `cactusCorePipeline` aborts, before any call that
touches the flower or constructs the pinch graph, whenever the input flower has
already-built blocks; when compiled with `BEN_DEBUG` it also aborts there
whenever the flower is not terminal, does not have exactly one group, that
group not being a leaf, or has more than one chain. In every other case it
destroys the chain of the flower if the flower has exactly one, destroys its
first group, constructs the pinch graph and goes on to the annealing loop. -/
theorem cactusCorePipeline_checks {W B : Type} [DecidableEq B] (benDebug : Bool)
    (m : Modules W B) (fuel : Nat) (w : W) (flower : Flower)
    (cCIP : CactusCoreInputParameters) (terminateRecursion : Int) :
    (flower.builtBlocks = true →
      cactusCorePipeline benDebug m fuel w flower cCIP terminateRecursion =
        .error .blocksAlreadyBuilt) ∧
    (flower.builtBlocks = false → benDebug = true →
      (flower.isTerminal = false ∨ flower.groupNumber ≠ 1 ∨
        flower.firstGroupIsLeaf = false ∨ 1 < flower.chainNumber) →
      cactusCorePipeline benDebug m fuel w flower cCIP terminateRecursion =
          .error .flowerNotTerminal ∨
        cactusCorePipeline benDebug m fuel w flower cCIP terminateRecursion =
          .error .groupNumberNotOne ∨
        cactusCorePipeline benDebug m fuel w flower cCIP terminateRecursion =
          .error .firstGroupNotLeaf ∨
        cactusCorePipeline benDebug m fuel w flower cCIP terminateRecursion =
          .error .moreThanOneChain) ∧
    (flower.builtBlocks = false →
      (benDebug = false ∨
        (flower.isTerminal = true ∧ flower.groupNumber = 1 ∧
          flower.firstGroupIsLeaf = true ∧ flower.chainNumber ≤ 1)) →
      (prepareFlower benDebug flower : Except Abort (List (Call B))) =
          .ok ((if flower.chainNumber = 1 then [.chain_destruct] else []) ++
            [.group_destruct, .constructPinchGraph]) ∧
        cactusCorePipeline benDebug m fuel w flower cCIP terminateRecursion =
          (match annealingLoop m flower cCIP terminateRecursion fuel fuel
              { loop := 0
                trim := cCIP.trim
                minimumChainLength := cCIP.minimumChainLength
                minimumBlockLength := cCIP.minimumBlockLength
                world := m.run w
                  ((if flower.chainNumber = 1 then [.chain_destruct] else []) ++
                    [.group_destruct, .constructPinchGraph]) } with
            | .error e => .error e
            | .ok (rounds, s1) =>
              .ok { preparation :=
                      (if flower.chainNumber = 1 then [.chain_destruct] else []) ++
                        [.group_destruct, .constructPinchGraph]
                    rounds := rounds
                    exit := s1
                    returned := 0 })) := by
  obtain ⟨hbuilt, hdebug, hgood⟩ := prepareFlower_cases (B := B) benDebug flower
  refine ⟨?_, ?_, ?_⟩
  · intro h1
    exact cactusCorePipeline_error_of_prepareFlower benDebug m fuel w flower cCIP
      terminateRecursion _ (hbuilt h1)
  · intro h1 h2 h3
    rcases hdebug h1 h2 h3 with h | h | h | h
    · exact Or.inl (cactusCorePipeline_error_of_prepareFlower benDebug m fuel w flower
        cCIP terminateRecursion _ h)
    · exact Or.inr (Or.inl (cactusCorePipeline_error_of_prepareFlower benDebug m fuel w
        flower cCIP terminateRecursion _ h))
    · exact Or.inr (Or.inr (Or.inl (cactusCorePipeline_error_of_prepareFlower benDebug m
        fuel w flower cCIP terminateRecursion _ h)))
    · exact Or.inr (Or.inr (Or.inr (cactusCorePipeline_error_of_prepareFlower benDebug m
        fuel w flower cCIP terminateRecursion _ h)))
  · intro h1 h2
    have hprep := hgood h1 h2
    refine ⟨hprep, ?_⟩
    unfold cactusCorePipeline
    rw [hprep]

/-- C16 fails as stated: compiled without `BEN_DEBUG`, the pipeline does not
abort on a flower that is not terminal and holds two chains; it runs to its
end, and its first calls destroy the first group and construct the pinch
graph. -/
theorem cactusCorePipeline_checks_counterexample :
    scenarioNonTerminalFlower.isTerminal = false ∧
    scenarioNonTerminalFlower.chainNumber = 2 ∧
    ∃ run, cactusCorePipeline false scenarioModules 1 () scenarioNonTerminalFlower
        constructCactusCoreInputParameters 0 = .ok run ∧
      run.preparation = [.group_destruct, .constructPinchGraph] ∧
      run.returned = 0 := by
  refine ⟨rfl, rfl, ?_⟩
  norm_num [cactusCorePipeline, prepareFlower, scenarioNonTerminalFlower, annealingLoop,
    annealingRound, constructCactusCoreInputParameters, scenarioModules,
    addAlignments, pinchMerge, filterPieceAndThenAddToGraph, floatToInt, cBool,
    deannealing, deannealingLoop, getBlocksToUndo, stSortedSet_getDifference,
    Modules.run, cactusCorePipeline_2]

/-- C16 at three flowers: one with built blocks aborts in every build, the
flower that is not terminal aborts under `BEN_DEBUG`, and the scenario flower
is prepared by destroying its group and constructing the pinch graph. -/
theorem cactusCorePipeline_checks_witness :
    cactusCorePipeline true scenarioModules 1 ()
        { scenarioFlower with builtBlocks := true }
        constructCactusCoreInputParameters 0 = .error .blocksAlreadyBuilt ∧
    (cactusCorePipeline true scenarioModules 1 () scenarioNonTerminalFlower
        constructCactusCoreInputParameters 0 = .error .flowerNotTerminal ∨
      cactusCorePipeline true scenarioModules 1 () scenarioNonTerminalFlower
        constructCactusCoreInputParameters 0 = .error .groupNumberNotOne ∨
      cactusCorePipeline true scenarioModules 1 () scenarioNonTerminalFlower
        constructCactusCoreInputParameters 0 = .error .firstGroupNotLeaf ∨
      cactusCorePipeline true scenarioModules 1 () scenarioNonTerminalFlower
        constructCactusCoreInputParameters 0 = .error .moreThanOneChain) ∧
    (prepareFlower true scenarioFlower : Except Abort (List (Call Nat))) =
      .ok ((if scenarioFlower.chainNumber = 1 then [.chain_destruct] else []) ++
        [.group_destruct, .constructPinchGraph]) :=
  ⟨(cactusCorePipeline_checks true scenarioModules 1 ()
      { scenarioFlower with builtBlocks := true }
      constructCactusCoreInputParameters 0).1 rfl,
   (cactusCorePipeline_checks true scenarioModules 1 () scenarioNonTerminalFlower
      constructCactusCoreInputParameters 0).2.1 rfl rfl (Or.inl rfl),
   ((cactusCorePipeline_checks true scenarioModules 1 () scenarioFlower
      constructCactusCoreInputParameters 0).2.2 rfl
      (Or.inr ⟨rfl, rfl, rfl, by decide⟩)).1⟩

/-! ### The string of a piece -/

/-- C17: for every piece `piece_getString` asks the sequence store of the
flower for a string of length `end - start + 1` of the contig of the piece.
When `start ≥ 1` it asks for the forward strand (strand 1) from coordinate
`start`, so that the string covers `[start, end]`; when `start < 1` it asks for
the reverse strand (strand 0) from coordinate `-end`, so that the string covers
`[-end, -start]`. -/
theorem piece_getString_request (piece : Piece) (flower : Flower) :
    (piece.start ≥ 1 →
      piece_getString piece flower =
        flower.sequence_getString piece.contig piece.start
          (piece.end_ - piece.start + 1) 1 ∧
      piece.start + (piece.end_ - piece.start + 1) - 1 = piece.end_) ∧
    (piece.start < 1 →
      piece_getString piece flower =
        flower.sequence_getString piece.contig (-piece.end_)
          (piece.end_ - piece.start + 1) 0 ∧
      -piece.end_ + (piece.end_ - piece.start + 1) - 1 = -piece.start) := by
  constructor
  · intro h
    unfold piece_getString
    rw [if_pos h]
    exact ⟨rfl, by omega⟩
  · intro h
    unfold piece_getString
    rw [if_neg (by omega)]
    exact ⟨rfl, by omega⟩

/-- C17 at two pieces over the scenario store: the forward piece `[2..4]` asks
for three bases of the forward strand from coordinate 2, the reverse piece
`[-4..-2]` asks for three bases of the reverse strand from coordinate 2. -/
theorem piece_getString_request_witness :
    piece_getString ⟨1, 2, 4⟩ scenarioFlower = scenarioFlower.sequence_getString 1 2 3 1 ∧
    piece_getString ⟨1, -4, -2⟩ scenarioFlower = scenarioFlower.sequence_getString 1 2 3 0 :=
  ⟨((piece_getString_request ⟨1, 2, 4⟩ scenarioFlower).1 (by decide)).1,
   ((piece_getString_request ⟨1, -4, -2⟩ scenarioFlower).2 (by decide)).1⟩

/-! ### The thresholds in closed form -/

/-- One more clamped step from `max 0 (v0 + k * c)` gives
`max 0 (v0 + (k + 1) * c)`, when the start value `v0` is not negative. -/
theorem clamp_step (v0 c : ℚ) (k : Nat) (hv : 0 ≤ v0) :
    max 0 (max 0 (v0 + k * c) + c) = max 0 (v0 + ((k + 1 : Nat) : ℚ) * c) := by
  have e : v0 + ((k + 1 : Nat) : ℚ) * c = v0 + k * c + c := by
    push_cast
    ring
  rw [e]
  by_cases hpos : 0 ≤ v0 + k * c
  · rw [max_eq_right hpos]
  · have hneg : v0 + k * c < 0 := not_le.1 hpos
    rw [max_eq_left (le_of_lt hneg)]
    have hk : (0 : ℚ) ≤ k := Nat.cast_nonneg k
    have hc : c < 0 := by
      by_contra hc
      have : 0 ≤ (k : ℚ) * c := mul_nonneg hk (not_lt.1 hc)
      linarith
    rw [zero_add, max_eq_left (le_of_lt hc), max_eq_left (by linarith)]

/-- The thresholds with which round `k` of a completed run is entered, in
terms of the thresholds of the round before. -/
theorem cactusCorePipeline_entry {W B : Type} [DecidableEq B] (benDebug : Bool)
    (m : Modules W B) (fuel : Nat) (w : W) (flower : Flower)
    (cCIP : CactusCoreInputParameters) (terminateRecursion : Int) (run : Run W B)
    (h : cactusCorePipeline benDebug m fuel w flower cCIP terminateRecursion = .ok run) :
    (∀ round, run.rounds[0]? = some round →
      round.entry.trim = (cCIP.trim : ℚ) ∧
      round.entry.minimumBlockLength = (cCIP.minimumBlockLength : ℚ) ∧
      round.entry.minimumChainLength = (cCIP.minimumChainLength : ℚ)) ∧
    (∀ (k : Nat) (round' : Round W B), run.rounds[k + 1]? = some round' →
      ∃ round, run.rounds[k]? = some round ∧
        round'.entry.trim = max 0 (round.entry.trim + cCIP.trimChange) ∧
        round'.entry.minimumBlockLength =
          max 0 (round.entry.minimumBlockLength + cCIP.minimumBlockLengthChange) ∧
        round'.entry.minimumChainLength =
          max 0 (round.entry.minimumChainLength + cCIP.minimumChainLengthChange)) := by
  obtain ⟨-, w0, hloop⟩ :=
    cactusCorePipeline_ok benDebug m fuel w flower cCIP terminateRecursion run h
  obtain ⟨⟨r0, hr0, hr0entry⟩, hall⟩ :=
    annealingLoop_rounds m flower cCIP terminateRecursion fuel fuel _ _ _ hloop
  constructor
  · intro round hround
    rw [hr0] at hround
    cases hround
    rw [hr0entry]
    exact ⟨rfl, rfl, rfl⟩
  · intro k round' hk'
    have hlt : k + 1 < run.rounds.length := by
      by_contra hge
      rw [List.getElem?_eq_none (by omega)] at hk'
      cases hk'
    have hklt : k < run.rounds.length := by omega
    refine ⟨run.rounds[k], List.getElem?_eq_getElem hklt, ?_⟩
    obtain ⟨-, s1, continues, hround, hnext, -⟩ :=
      hall k _ (List.getElem?_eq_getElem hklt)
    obtain ⟨hb, r'', hr'', hentry⟩ := hnext hlt
    rw [hk'] at hr''
    cases hr''
    obtain ⟨-, -, -, -, w1, -, hgo, -⟩ :=
      annealingRound_ok m flower cCIP terminateRecursion fuel _ s1 _ continues hround
    obtain ⟨-, -, -, ht, hc, hbl⟩ := hgo hb
    rw [hentry, ht, hc, hbl, clamp_eq_max, clamp_eq_max, clamp_eq_max]
    exact ⟨rfl, rfl, rfl⟩

/-- C20: in a completed run, for each of `trim`, `minimumBlockLength` and
`minimumChainLength` with a configured value `v0 ≥ 0` and configured change
`c`, the arithmetic taken exactly, the value in effect during round `k`
(counted from 0) is `max 0 (v0 + k * c)`: the clamped update iterated `k` times
agrees with the sum clamped once. -/
theorem thresholds_closed_form {W B : Type} [DecidableEq B] (benDebug : Bool)
    (m : Modules W B) (fuel : Nat) (w : W) (flower : Flower)
    (cCIP : CactusCoreInputParameters) (terminateRecursion : Int) (run : Run W B)
    (h : cactusCorePipeline benDebug m fuel w flower cCIP terminateRecursion = .ok run) :
    ∀ (k : Nat) (round : Round W B), run.rounds[k]? = some round →
      (0 ≤ cCIP.trim →
        round.entry.trim = max 0 ((cCIP.trim : ℚ) + k * cCIP.trimChange)) ∧
      (0 ≤ cCIP.minimumBlockLength →
        round.entry.minimumBlockLength =
          max 0 ((cCIP.minimumBlockLength : ℚ) + k * cCIP.minimumBlockLengthChange)) ∧
      (0 ≤ cCIP.minimumChainLength →
        round.entry.minimumChainLength =
          max 0 ((cCIP.minimumChainLength : ℚ) + k * cCIP.minimumChainLengthChange)) := by
  obtain ⟨hfirst, hnext⟩ :=
    cactusCorePipeline_entry benDebug m fuel w flower cCIP terminateRecursion run h
  intro k
  induction k with
  | zero =>
    intro round hround
    obtain ⟨h1, h2, h3⟩ := hfirst round hround
    refine ⟨?_, ?_, ?_⟩
    · intro hv
      rw [h1]
      simp only [Nat.cast_zero, zero_mul, add_zero]
      exact (max_eq_right (by exact_mod_cast hv)).symm
    · intro hv
      rw [h2]
      simp only [Nat.cast_zero, zero_mul, add_zero]
      exact (max_eq_right (by exact_mod_cast hv)).symm
    · intro hv
      rw [h3]
      simp only [Nat.cast_zero, zero_mul, add_zero]
      exact (max_eq_right (by exact_mod_cast hv)).symm
  | succ k ih =>
    intro round' hround'
    obtain ⟨round, hround, h1, h2, h3⟩ := hnext k round' hround'
    obtain ⟨i1, i2, i3⟩ := ih round hround
    refine ⟨?_, ?_, ?_⟩
    · intro hv
      rw [h1, i1 hv]
      exact clamp_step _ _ k (by exact_mod_cast hv)
    · intro hv
      rw [h2, i2 hv]
      exact clamp_step _ _ k (by exact_mod_cast hv)
    · intro hv
      rw [h3, i3 hv]
      exact clamp_step _ _ k (by exact_mod_cast hv)

/-- C20 at scenario S6 run over four rounds: with `trim = 2` and
`trimChange = -1` the trims of the rounds are 2, 1, 0 and 0. -/
theorem thresholds_closed_form_witness :
    ∃ run, cactusCorePipeline false scenarioModules 4 () scenarioFlower scenarioFourRounds 0 =
        .ok run ∧
      run.rounds.map (fun round => round.entry.trim) = [2, 1, 0, 0] ∧
      ∀ (k : Nat) (round : Round Unit Nat), run.rounds[k]? = some round →
        round.entry.trim =
          max 0 ((scenarioFourRounds.trim : ℚ) + k * scenarioFourRounds.trimChange) := by
  have hex : ∃ run,
      cactusCorePipeline false scenarioModules 4 () scenarioFlower scenarioFourRounds 0 =
        .ok run ∧
      run.rounds.map (fun round => round.entry.trim) = [2, 1, 0, 0] := by
    norm_num [cactusCorePipeline, prepareFlower, scenarioFlower, annealingLoop,
      annealingRound, scenarioFourRounds, constructCactusCoreInputParameters,
      scenarioModules, addAlignments, pinchMerge, filterPieceAndThenAddToGraph,
      floatToInt, cBool, deannealing, deannealingLoop, getBlocksToUndo,
      stSortedSet_getDifference, Modules.run, cactusCorePipeline_2]
  obtain ⟨run, hrun, htrims⟩ := hex
  refine ⟨run, hrun, htrims, ?_⟩
  intro k round hround
  exact (thresholds_closed_form false scenarioModules 4 () scenarioFlower scenarioFourRounds
    0 run hrun k round hround).1 (by decide)

/-! ### The built-blocks flag -/

mutual
/-- On a hierarchy without a set flag `setBlocksBuilt` returns the hierarchy
with every flag set, after one write for each flower. -/
theorem setBlocksBuilt_unset : ∀ flower : FlowerTree,
    (∀ p ∈ flower.flowers, p.2 = false) →
    setBlocksBuilt flower = .ok (flower.allBuilt, flower.flowers.map Prod.fst)
  | .mk name builtBlocks groups => by
    intro h
    have hb : builtBlocks = false := h (name, builtBlocks) (by simp [FlowerTree.flowers])
    have hg := setBlocksBuiltGroups_unset groups
      (fun p hp => h p (by simp [FlowerTree.flowers, hp]))
    subst hb
    simp [setBlocksBuilt, hg, FlowerTree.allBuilt, FlowerTree.flowers]
/-- The same for the groups of a flower. -/
theorem setBlocksBuiltGroups_unset : ∀ groups : GroupList,
    (∀ p ∈ groups.flowers, p.2 = false) →
    setBlocksBuiltGroups groups = .ok (groups.allBuilt, groups.flowers.map Prod.fst)
  | .nil => by
    intro _
    rfl
  | .leaf rest => by
    intro h
    have hr := setBlocksBuiltGroups_unset rest
      (fun p hp => h p (by simpa [GroupList.flowers] using hp))
    simp [setBlocksBuiltGroups, hr, GroupList.allBuilt, GroupList.flowers]
  | .nested flower rest => by
    intro h
    have hf := setBlocksBuilt_unset flower
      (fun p hp => h p (by simp [GroupList.flowers, hp]))
    have hr := setBlocksBuiltGroups_unset rest
      (fun p hp => h p (by simp [GroupList.flowers, hp]))
    simp [setBlocksBuiltGroups, hf, hr, GroupList.allBuilt, GroupList.flowers]
end

mutual
/-- On a hierarchy with a set flag the assertion of line 219 fails. -/
theorem setBlocksBuilt_set : ∀ flower : FlowerTree,
    (∃ p ∈ flower.flowers, p.2 = true) →
    setBlocksBuilt flower = .error .blocksBuilt
  | .mk name builtBlocks groups => by
    intro h
    cases builtBlocks with
    | true => simp [setBlocksBuilt]
    | false =>
      have hg := setBlocksBuiltGroups_set groups (by
        obtain ⟨p, hp, ht⟩ := h
        simp only [FlowerTree.flowers, List.mem_cons] at hp
        rcases hp with rfl | hp
        · cases ht
        · exact ⟨p, hp, ht⟩)
      simp [setBlocksBuilt, hg]
/-- The same for the groups of a flower. -/
theorem setBlocksBuiltGroups_set : ∀ groups : GroupList,
    (∃ p ∈ groups.flowers, p.2 = true) →
    setBlocksBuiltGroups groups = .error .blocksBuilt
  | .nil => by
    rintro ⟨p, hp, -⟩
    cases hp
  | .leaf rest => by
    intro h
    have hr := setBlocksBuiltGroups_set rest (by simpa [GroupList.flowers] using h)
    simp [setBlocksBuiltGroups, hr]
  | .nested flower rest => by
    intro h
    obtain ⟨p, hp, ht⟩ := h
    simp only [GroupList.flowers, List.mem_append] at hp
    by_cases hfl : ∃ q ∈ flower.flowers, q.2 = true
    · have hf := setBlocksBuilt_set flower hfl
      simp [setBlocksBuiltGroups, hf]
    · have hfalse : ∀ q ∈ flower.flowers, q.2 = false := by
        intro q hq
        by_contra hne
        exact hfl ⟨q, hq, by simpa using hne⟩
      have hf := setBlocksBuilt_unset flower hfalse
      rcases hp with hp | hp
      · exact absurd ⟨p, hp, ht⟩ hfl
      · have hr := setBlocksBuiltGroups_set rest ⟨p, hp, ht⟩
        simp [setBlocksBuiltGroups, hf, hr]
end

mutual
/-- The flowers of the hierarchy with every flag set are the flowers of the
hierarchy, in the same order, each with the flag set. -/
theorem FlowerTree.flowers_allBuilt : ∀ flower : FlowerTree,
    flower.allBuilt.flowers = flower.flowers.map (fun p => (p.1, true))
  | .mk name builtBlocks groups => by
    simp [FlowerTree.allBuilt, FlowerTree.flowers, GroupList.groupFlowers_allBuilt groups]
/-- The same for the groups of a flower. -/
theorem GroupList.groupFlowers_allBuilt : ∀ groups : GroupList,
    groups.allBuilt.flowers = groups.flowers.map (fun p => (p.1, true))
  | .nil => rfl
  | .leaf rest => by
    simp [GroupList.allBuilt, GroupList.flowers, GroupList.groupFlowers_allBuilt rest]
  | .nested flower rest => by
    simp [GroupList.allBuilt, GroupList.flowers, FlowerTree.flowers_allBuilt flower,
      GroupList.groupFlowers_allBuilt rest]
end

/-- C13: on a hierarchy in which no flower has the built-blocks flag set,
`setBlocksBuilt parent` returns; afterwards the flag is set on the parent
flower and on every flower nested below it through groups that are not leaves,
and nothing else in the hierarchy has changed; the flag was written once for
each flower of the hierarchy, parent first, and for no other flower. On a
hierarchy in which some flower already has the flag set, the assertion of line
219 fails instead. -/
theorem setBlocksBuilt_propagates (parent : FlowerTree) :
    ((∀ p ∈ parent.flowers, p.2 = false) →
      ∃ result written, setBlocksBuilt parent = .ok (result, written) ∧
        result = parent.allBuilt ∧
        result.flowers = parent.flowers.map (fun p => (p.1, true)) ∧
        (∀ p ∈ result.flowers, p.2 = true) ∧
        written = parent.flowers.map Prod.fst ∧
        written.length = parent.flowers.length) ∧
    ((∃ p ∈ parent.flowers, p.2 = true) →
      setBlocksBuilt parent = .error .blocksBuilt) := by
  constructor
  · intro h
    refine ⟨parent.allBuilt, parent.flowers.map Prod.fst, setBlocksBuilt_unset parent h,
      rfl, FlowerTree.flowers_allBuilt parent, ?_, rfl, by simp⟩
    intro p hp
    rw [FlowerTree.flowers_allBuilt parent] at hp
    simp only [List.mem_map] at hp
    obtain ⟨q, -, rfl⟩ := hp
    rfl
  · exact setBlocksBuilt_set parent

/-- C13 at a hierarchy of four flowers: the flag is written on the flowers 1,
2, 3 and 4, in this order, and all four have it set afterwards; with the flag
of flower 3 set beforehand the assertion fails. -/
theorem setBlocksBuilt_propagates_witness :
    (∃ result, setBlocksBuilt scenarioHierarchy = .ok (result, [1, 2, 3, 4]) ∧
      result.flowers = [(1, true), (2, true), (3, true), (4, true)]) ∧
    setBlocksBuilt
      (.mk 1 false (.nested (.mk 2 false (.nested (.mk 3 true .nil) .nil)) .nil)) =
        .error .blocksBuilt := by
  constructor
  · obtain ⟨result, written, hrun, -, hflags, -, hwritten, -⟩ :=
      (setBlocksBuilt_propagates scenarioHierarchy).1 (by decide)
    refine ⟨result, ?_, ?_⟩
    · rw [hrun, hwritten]
      rfl
    · rw [hflags]
      rfl
  · exact (setBlocksBuilt_propagates _).2 ⟨(3, true), by decide, rfl⟩

/-! ### The blocks of a flower -/

/-- When the parent flower has a sequence for the thread of every segment and
the flower holds a sequence of that name, the loop over the segments returns:
it constructs one segment for each segment of the pinch block, at the start
coordinate of that segment, attached to the reverse of the block exactly when
the orientation of the pinch end and the orientation of the segment in the
block differ, on the sequence named as the sequence of the parent flower. -/
theorem makeBlockSegments_run (pinchEndOrientation : Bool)
    (parentSequence : Int → Option (Option Int)) (sequences : List Int) :
    ∀ pinchSegments : List PinchSegment,
      (∀ pinchSegment ∈ pinchSegments, ∃ name,
        parentSequence pinchSegment.name = some (some name) ∧ name ∈ sequences) →
      ∃ segments,
        makeBlockSegments pinchEndOrientation parentSequence pinchSegments sequences =
          .ok (segments, sequences) ∧
        List.Forall₂
          (fun (pinchSegment : PinchSegment) (segment : Segment) =>
            segment.start = pinchSegment.start ∧
            segment.onReverse = xor pinchEndOrientation pinchSegment.blockOrientation ∧
            segment.strand = true ∧
            parentSequence pinchSegment.name = some (some segment.sequence))
          pinchSegments segments := by
  intro pinchSegments
  induction pinchSegments with
  | nil =>
    intro _
    exact ⟨[], rfl, List.Forall₂.nil⟩
  | cons pinchSegment pinchSegments ih =>
    intro h
    obtain ⟨name, hname, hmem⟩ := h pinchSegment (List.mem_cons_self _ _)
    obtain ⟨segments, hrun, hall⟩ := ih (fun p hp => h p (List.mem_cons_of_mem _ hp))
    refine ⟨{ onReverse := xor pinchEndOrientation pinchSegment.blockOrientation
              start := pinchSegment.start
              strand := true
              sequence := name } :: segments, ?_, ?_⟩
    · unfold makeBlockSegments
      rw [hname]
      simp only
      rw [if_pos hmem, hrun]
    · exact List.Forall₂.cons ⟨rfl, rfl, rfl, hname⟩ hall

/-- When the flower has no sequence of the name of the parent sequence of
some segment, while the parent flower has a sequence for the thread of every
segment, the loop over the segments stops at the read through a null pointer
of line 102. -/
theorem makeBlockSegments_null (pinchEndOrientation : Bool)
    (parentSequence : Int → Option (Option Int)) (sequences : List Int) :
    ∀ pinchSegments : List PinchSegment,
      (∀ pinchSegment ∈ pinchSegments, ∃ name,
        parentSequence pinchSegment.name = some (some name)) →
      (∃ pinchSegment ∈ pinchSegments, ∃ name,
        parentSequence pinchSegment.name = some (some name) ∧ name ∉ sequences) →
      makeBlockSegments pinchEndOrientation parentSequence pinchSegments sequences =
        .error .nullSequenceRead := by
  intro pinchSegments
  induction pinchSegments with
  | nil =>
    rintro - ⟨p, hp, -⟩
    cases hp
  | cons pinchSegment pinchSegments ih =>
    intro hall hmissing
    obtain ⟨name, hname⟩ := hall pinchSegment (List.mem_cons_self _ _)
    unfold makeBlockSegments
    rw [hname]
    simp only
    by_cases hmem : name ∈ sequences
    · rw [if_pos hmem]
      have hrest : ∃ p ∈ pinchSegments, ∃ n,
          parentSequence p.name = some (some n) ∧ n ∉ sequences := by
        obtain ⟨p, hp, n, hn, hnot⟩ := hmissing
        rcases List.mem_cons.1 hp with rfl | hp2
        · rw [hname] at hn
          simp only [Option.some.injEq] at hn
          subst hn
          exact absurd hmem hnot
        · exact ⟨p, hp2, n, hn, hnot⟩
      rw [ih (fun p hp => hall p (List.mem_cons_of_mem _ hp)) hrest]
    · rw [if_neg hmem]

/-- C18: for a cactus edge end whose pinch end is not yet mapped, and neither
is the pinch end of the other end of its edge, when the parent flower has a
sequence for the thread of every segment and the flower holds a sequence of
that name, `makeBlock` returns. The block it constructs has the length of the
pinch block and, in order, one segment for each segment of the pinch block, at
the start coordinate of that segment; the segment is attached to the reverse of
the block if and only if the orientation of the pinch end XOR the orientation
of the segment in the pinch block is true. Afterwards the given pinch end maps
to the 5' end of the block, the pinch end of the other edge end maps to the 3'
end, and every other pinch end maps as before. -/
theorem makeBlock_builds {E : Type} (block_get5End block_get3End : Block → E)
    (cactusEdgeEnd : CactusEdgeEnd) (parentSequence : Int → Option (Option Int))
    (flower : BlockFlower) (pinchEndsToEnds : PinchEnd → Option E) (pinchEnd : PinchEnd)
    (hobject : cactusEdgeEnd.object = some pinchEnd)
    (hunmapped : pinchEndsToEnds pinchEnd = none)
    (hother : pinchEndsToEnds cactusEdgeEnd.otherObject = none)
    (hdistinct : cactusEdgeEnd.otherObject ≠ pinchEnd)
    (hsequences : ∀ pinchSegment ∈ pinchEnd.block.segments, ∃ name,
      parentSequence pinchSegment.name = some (some name) ∧ name ∈ flower.sequences) :
    ∃ block flower1 pinchEndsToEnds1,
      makeBlock block_get5End block_get3End cactusEdgeEnd parentSequence flower
        pinchEndsToEnds = .ok (block, flower1, pinchEndsToEnds1) ∧
      block.length = pinchEnd.block.length ∧
      block.segments.length = pinchEnd.block.segments.length ∧
      List.Forall₂
        (fun (pinchSegment : PinchSegment) (segment : Segment) =>
          segment.start = pinchSegment.start ∧
          (segment.onReverse = true ↔
            xor pinchEnd.orientation pinchSegment.blockOrientation = true) ∧
          segment.strand = true ∧
          parentSequence pinchSegment.name = some (some segment.sequence))
        pinchEnd.block.segments block.segments ∧
      flower1.blocks = flower.blocks ++ [block] ∧
      pinchEndsToEnds1 pinchEnd = some (block_get5End block) ∧
      pinchEndsToEnds1 cactusEdgeEnd.otherObject = some (block_get3End block) ∧
      ∀ other, other ≠ pinchEnd → other ≠ cactusEdgeEnd.otherObject →
        pinchEndsToEnds1 other = pinchEndsToEnds other := by
  obtain ⟨segments, hrun, hall⟩ :=
    makeBlockSegments_run pinchEnd.orientation parentSequence flower.sequences
      pinchEnd.block.segments hsequences
  have hfirst : makeBlockP pinchEnd
      (block_get5End { length := pinchEnd.block.length, segments := segments })
      pinchEndsToEnds =
      .ok (stHash_insert pinchEndsToEnds pinchEnd
        (block_get5End { length := pinchEnd.block.length, segments := segments })) := by
    unfold makeBlockP
    rw [hunmapped]
    rfl
  have hsecond : makeBlockP cactusEdgeEnd.otherObject
      (block_get3End { length := pinchEnd.block.length, segments := segments })
      (stHash_insert pinchEndsToEnds pinchEnd
        (block_get5End { length := pinchEnd.block.length, segments := segments })) =
      .ok (stHash_insert
        (stHash_insert pinchEndsToEnds pinchEnd
          (block_get5End { length := pinchEnd.block.length, segments := segments }))
        cactusEdgeEnd.otherObject
        (block_get3End { length := pinchEnd.block.length, segments := segments })) := by
    unfold makeBlockP
    have : stHash_insert pinchEndsToEnds pinchEnd
        (block_get5End { length := pinchEnd.block.length, segments := segments })
        cactusEdgeEnd.otherObject = none := by
      unfold stHash_insert
      rw [if_neg hdistinct, hother]
    rw [this]
    rfl
  refine ⟨{ length := pinchEnd.block.length, segments := segments },
    { sequences := flower.sequences
      blocks := flower.blocks ++ [{ length := pinchEnd.block.length, segments := segments }] },
    stHash_insert
      (stHash_insert pinchEndsToEnds pinchEnd
        (block_get5End { length := pinchEnd.block.length, segments := segments }))
      cactusEdgeEnd.otherObject
      (block_get3End { length := pinchEnd.block.length, segments := segments }),
    ?_, rfl, ?_, ?_, rfl, ?_, ?_, ?_⟩
  · unfold makeBlock
    rw [hobject]
    simp only
    rw [hrun]
    simp only
    rw [hfirst]
    simp only
    rw [hsecond]
  · exact (List.Forall₂.length_eq hall).symm
  · refine List.Forall₂.imp ?_ hall
    rintro p s ⟨h1, h2, h3, h4⟩
    exact ⟨h1, by rw [h2], h3, h4⟩
  · unfold stHash_insert
    rw [if_neg hdistinct.symm, if_pos rfl]
  · unfold stHash_insert
    rw [if_pos rfl]
  · intro other h1 h2
    unfold stHash_insert
    rw [if_neg h2, if_neg h1]

/-- C18 at the scenario block: the block constructed has length 3, a forward
segment at coordinate 2 on sequence 100 and a segment on its reverse at
coordinate 7 on sequence 101; the pinch end maps to its 5' end and the other
pinch end to its 3' end. -/
theorem makeBlock_builds_witness :
    (∃ block flower1 pinchEndsToEnds1,
      makeBlock BlockEnd.fivePrime BlockEnd.threePrime scenarioEdgeEnd
        scenarioParentSequence { sequences := [100, 101], blocks := [] }
        (fun _ => none) = .ok (block, flower1, pinchEndsToEnds1) ∧
      block.length = 3 ∧
      pinchEndsToEnds1 { block := scenarioPinchBlock, orientation := true } =
        some (BlockEnd.fivePrime block) ∧
      pinchEndsToEnds1 { block := scenarioPinchBlock, orientation := false } =
        some (BlockEnd.threePrime block)) ∧
    (makeBlock BlockEnd.fivePrime BlockEnd.threePrime scenarioEdgeEnd
        scenarioParentSequence { sequences := [100, 101], blocks := [] }
        (fun _ => none)).map (fun result => result.1) =
      .ok { length := 3
            segments :=
              [{ onReverse := false, start := 2, strand := true, sequence := 100 },
               { onReverse := true, start := 7, strand := true, sequence := 101 }] } := by
  constructor
  · obtain ⟨block, flower1, hash1, hrun, hlength, -, -, -, h5, h3, -⟩ :=
      makeBlock_builds BlockEnd.fivePrime BlockEnd.threePrime scenarioEdgeEnd
        scenarioParentSequence { sequences := [100, 101], blocks := [] } (fun _ => none)
        { block := scenarioPinchBlock, orientation := true } rfl rfl rfl (by decide)
        (by
          intro pinchSegment hmem
          simp only [scenarioPinchBlock, List.mem_cons, List.mem_singleton,
            List.not_mem_nil, or_false] at hmem
          rcases hmem with rfl | rfl
          · exact ⟨100, rfl, by decide⟩
          · exact ⟨101, rfl, by decide⟩)
    exact ⟨block, flower1, hash1, hrun, hlength, h5, h3⟩
  · rfl

/-- Whenever the flower lacks a sequence of the name of the parent sequence of
some segment of the pinch block, while the parent flower has a sequence for
the thread of every segment, `makeBlock` stops at the read through a null
pointer of line 102 and constructs no segment on a new sequence. -/
theorem makeBlock_null {E : Type} (block_get5End block_get3End : Block → E)
    (cactusEdgeEnd : CactusEdgeEnd) (parentSequence : Int → Option (Option Int))
    (flower : BlockFlower) (pinchEndsToEnds : PinchEnd → Option E) (pinchEnd : PinchEnd)
    (hobject : cactusEdgeEnd.object = some pinchEnd)
    (hparent : ∀ pinchSegment ∈ pinchEnd.block.segments, ∃ name,
      parentSequence pinchSegment.name = some (some name))
    (hmissing : ∃ pinchSegment ∈ pinchEnd.block.segments, ∃ name,
      parentSequence pinchSegment.name = some (some name) ∧ name ∉ flower.sequences) :
    makeBlock block_get5End block_get3End cactusEdgeEnd parentSequence flower
      pinchEndsToEnds = .error .nullSequenceRead := by
  unfold makeBlock
  rw [hobject]
  simp only
  rw [makeBlockSegments_null pinchEnd.orientation parentSequence flower.sequences
    pinchEnd.block.segments hparent hmissing]

/-- C19 fails on the code: for the scenario block and a flower that holds the
sequence 100 but not the sequence 101 of the second segment, `makeBlock` does
not construct the segment on a sequence named 101; in the branch for the
missing sequence it applies `sequence_getName` to the sequence that is `NULL`
(line 102) and stops there. -/
theorem makeBlock_missing_sequence :
    scenarioParentSequence 11 = some (some 101) ∧
    makeBlock BlockEnd.fivePrime BlockEnd.threePrime scenarioEdgeEnd
      scenarioParentSequence { sequences := [100], blocks := [] } (fun _ => none) =
        .error .nullSequenceRead :=
  ⟨rfl, rfl⟩

/-! ### The ends and groups of a flower -/

theorem FlowerEnds.getEnd_copyConstruct_self (flower : FlowerEnds) (name : Int)
    (h : flower.getEnd name = none) : (flower.copyConstruct name).getEnd name = some none := by
  unfold FlowerEnds.getEnd FlowerEnds.copyConstruct at *
  simp only
  generalize flower.ends = ends at h
  induction ends with
  | nil => simp [List.lookup]
  | cons e es ih =>
    obtain ⟨k, v⟩ := e
    simp only [List.cons_append, List.lookup_cons] at h ⊢
    by_cases hk : name = k
    · subst hk
      simp at h
    · have hb : (name == k) = false := by simpa using hk
      rw [hb] at h ⊢
      exact ih h

theorem FlowerEnds.getEnd_copyConstruct_of_ne (flower : FlowerEnds) (name n : Int)
    (h : n ≠ name) : (flower.copyConstruct name).getEnd n = flower.getEnd n := by
  unfold FlowerEnds.getEnd FlowerEnds.copyConstruct
  simp only
  generalize flower.ends = ends
  induction ends with
  | nil =>
    have hb : (n == name) = false := by simpa using h
    simp [List.lookup, hb]
  | cons e es ih =>
    obtain ⟨k, w⟩ := e
    simp only [List.cons_append, List.lookup_cons]
    rw [ih]

theorem FlowerEnds.getEnd_copyConstruct_of_some (flower : FlowerEnds) (name n : Int)
    (x : Option Nat) (h : flower.getEnd n = some x) :
    (flower.copyConstruct name).getEnd n = some x := by
  unfold FlowerEnds.getEnd FlowerEnds.copyConstruct at *
  simp only
  generalize flower.ends = ends at h
  induction ends with
  | nil => simp [List.lookup] at h
  | cons e es ih =>
    obtain ⟨k, w⟩ := e
    simp only [List.cons_append, List.lookup_cons] at h ⊢
    by_cases hk : n = k
    · subst hk
      simpa using h
    · have hb : (n == k) = false := by simpa using hk
      rw [hb] at h ⊢
      exact ih h

theorem FlowerEnds.getEnd_setGroup_self (flower : FlowerEnds) (name : Int) (group : Nat)
    (x : Option Nat) (h : flower.getEnd name = some x) :
    (flower.setGroup name group).getEnd name = some (some group) := by
  unfold FlowerEnds.getEnd FlowerEnds.setGroup at *
  simp only
  generalize flower.ends = ends at h
  induction ends with
  | nil => simp [List.lookup] at h
  | cons e es ih =>
    obtain ⟨k, w⟩ := e
    rw [List.lookup_cons] at h
    rw [List.map_cons]
    by_cases hk : k = name
    · subst hk
      simp [List.lookup_cons]
    · have hb : (name == k) = false := by simpa using fun h' : name = k => hk h'.symm
      rw [hb] at h
      simp only [if_neg hk]
      rw [List.lookup_cons, hb]
      exact ih h

theorem FlowerEnds.getEnd_setGroup_of_ne (flower : FlowerEnds) (name n : Int) (group : Nat)
    (h : n ≠ name) : (flower.setGroup name group).getEnd n = flower.getEnd n := by
  unfold FlowerEnds.getEnd FlowerEnds.setGroup
  simp only
  generalize flower.ends = ends
  induction ends with
  | nil => rfl
  | cons e es ih =>
    obtain ⟨k, w⟩ := e
    rw [List.map_cons]
    by_cases hk : k = name
    · subst hk
      have hb : (n == k) = false := by simpa using h
      simp only [if_true]
      rw [List.lookup_cons, List.lookup_cons, hb]
      exact ih
    · simp only [if_neg hk]
      rw [List.lookup_cons, List.lookup_cons, ih]

theorem Hierarchy.flower_mapFlower (f : FlowerEnds → FlowerEnds) (hierarchy : Hierarchy) :
    (hierarchy.mapFlower f).flower = f hierarchy.flower := by
  cases hierarchy <;> rfl

theorem Hierarchy.endAt_zero (hierarchy : Hierarchy) (name : Int) :
    hierarchy.endAt 0 name = hierarchy.flower.getEnd name := by
  cases hierarchy <;> rfl

theorem Hierarchy.endAt_mapFlower_succ (f : FlowerEnds → FlowerEnds) (hierarchy : Hierarchy)
    (depth : Nat) (name : Int) :
    (hierarchy.mapFlower f).endAt (depth + 1) name = hierarchy.endAt (depth + 1) name := by
  cases hierarchy <;> rfl

theorem Hierarchy.parentGroupAt_mapFlower (f : FlowerEnds → FlowerEnds) (hierarchy : Hierarchy)
    (depth : Nat) :
    (hierarchy.mapFlower f).parentGroupAt depth = hierarchy.parentGroupAt depth := by
  cases hierarchy <;> cases depth <;> rfl

theorem Hierarchy.groupNumberAt_zero (hierarchy : Hierarchy) :
    hierarchy.groupNumberAt 0 = some hierarchy.flower.groupNumber := by
  cases hierarchy <;> rfl

theorem Hierarchy.groupNumberAt_mapFlower_succ (f : FlowerEnds → FlowerEnds)
    (hierarchy : Hierarchy) (depth : Nat) :
    (hierarchy.mapFlower f).groupNumberAt (depth + 1) = hierarchy.groupNumberAt (depth + 1) := by
  cases hierarchy <;> rfl

/-! ### Ends copied down the hierarchy -/

/-- For a pinch end that is not in the hash the call returns `NULL` and
changes nothing. -/
theorem convert_unmapped {P : Type} (pinchEnd : P) (pinchEndsToEnds : P → Option End)
    (hierarchy : Hierarchy) (h : pinchEndsToEnds pinchEnd = none) :
    convertPinchBlockEndToEnd pinchEnd pinchEndsToEnds hierarchy =
      .ok (none, hierarchy, []) := by
  cases hierarchy with
  | top flower =>
    unfold convertPinchBlockEndToEnd
    rw [h]
  | nested flower parentGroup parent =>
    unfold convertPinchBlockEndToEnd
    rw [h]

/-- For a pinch end whose end is in the flower the call returns that end, in
the orientation of the hashed end, and changes nothing. -/
theorem convert_present {P : Type} (pinchEnd : P) (pinchEndsToEnds : P → Option End)
    (hierarchy : Hierarchy) (end_ : End) (x : Option Nat)
    (h : pinchEndsToEnds pinchEnd = some end_)
    (hpresent : hierarchy.flower.getEnd end_.name = some x) :
    convertPinchBlockEndToEnd pinchEnd pinchEndsToEnds hierarchy =
      .ok (some (end_.name, end_.orientation), hierarchy, []) := by
  cases hierarchy with
  | top flower =>
    unfold convertPinchBlockEndToEnd
    rw [h]
    simp only
    rw [show flower.getEnd end_.name = some x from hpresent]
  | nested flower parentGroup parent =>
    unfold convertPinchBlockEndToEnd
    rw [h]
    simp only
    rw [show flower.getEnd end_.name = some x from hpresent]

theorem copyCalls_nested (name : Int) (flower : FlowerEnds) (parentGroup : Nat)
    (parent : Hierarchy) (k : Nat) :
    copyCalls name (.nested flower parentGroup parent) (k + 1) =
      (copyCalls name parent k).map EndCall.lift ++
        [.end_setGroup 1 name parentGroup, .end_copyConstruct 0 name] := by
  unfold copyCalls
  rw [List.range_succ_eq_map, List.reverse_cons, List.flatMap_append, ← List.map_reverse,
    List.flatMap_map, List.map_flatMap]
  rfl

/-- The copy of a free stub end down the hierarchy. The end of the pinch end
is absent from the `k` lowest flowers of the hierarchy and present, without a
group, in the flower `k` levels up. The call returns the end of the given
flower in the orientation of the hashed end. Afterwards the end is in the given
flower, without a group if it was copied; in each of the `k` flowers above, the
end has the parent group of the flower below as its group; above that, and for
every other end, nothing has changed. -/
theorem convert_copies {P : Type} (pinchEnd : P) (pinchEndsToEnds : P → Option End)
    (end_ : End) (hhash : pinchEndsToEnds pinchEnd = some end_)
    (hfree : end_.isFree = true) (hstub : end_.isStubEnd = true) :
    ∀ (hierarchy : Hierarchy) (k : Nat),
      (∀ i, i < k → hierarchy.endAt i end_.name = none) →
      hierarchy.endAt k end_.name = some none →
      ∃ hierarchy1,
        convertPinchBlockEndToEnd pinchEnd pinchEndsToEnds hierarchy =
          .ok (some (end_.name, end_.orientation), hierarchy1, copyCalls end_.name hierarchy k) ∧
        hierarchy1.endAt 0 end_.name = some none ∧
        (∀ i, i < k →
          hierarchy1.endAt (i + 1) end_.name = some (hierarchy.parentGroupAt i)) ∧
        (∀ i, k < i → hierarchy1.endAt i end_.name = hierarchy.endAt i end_.name) ∧
        (∀ i n, n ≠ end_.name → hierarchy1.endAt i n = hierarchy.endAt i n) ∧
        (∀ i, hierarchy1.parentGroupAt i = hierarchy.parentGroupAt i) ∧
        (∀ i, hierarchy1.groupNumberAt i = hierarchy.groupNumberAt i) := by
  intro hierarchy
  induction hierarchy with
  | top flower =>
    intro k habsent hpresent
    cases k with
    | zero =>
      refine ⟨.top flower, ?_, hpresent, ?_, ?_, ?_, ?_, ?_⟩
      · exact convert_present pinchEnd pinchEndsToEnds (.top flower) end_ none hhash hpresent
      · intro i hi
        omega
      · intro i _
        rfl
      · intro i n _
        rfl
      · intro i
        rfl
      · intro i
        rfl
    | succ k => cases hpresent
  | nested flower parentGroup parent ih =>
    intro k habsent hpresent
    cases k with
    | zero =>
      refine ⟨.nested flower parentGroup parent, ?_, hpresent, ?_, ?_, ?_, ?_, ?_⟩
      · exact convert_present pinchEnd pinchEndsToEnds (.nested flower parentGroup parent)
          end_ none hhash hpresent
      · intro i hi
        omega
      · intro i _
        rfl
      · intro i n _
        rfl
      · intro i
        rfl
      · intro i
        rfl
    | succ k =>
      have hnone : flower.getEnd end_.name = none := habsent 0 (Nat.succ_pos k)
      obtain ⟨parent1, hrun, h0, hset, habove, hother, hgroups, hnumbers⟩ :=
        ih k (fun i hi => habsent (i + 1) (Nat.succ_lt_succ hi)) hpresent
      have hparent0 : parent1.flower.getEnd end_.name = some none := by
        rw [← Hierarchy.endAt_zero]
        exact h0
      refine ⟨.nested (flower.copyConstruct end_.name) parentGroup
        (parent1.mapFlower (fun f => f.setGroup end_.name parentGroup)), ?_, ?_, ?_, ?_, ?_,
        ?_, ?_⟩
      · unfold convertPinchBlockEndToEnd
        rw [hhash]
        simp only
        rw [hnone]
        simp only [hfree, hstub, not_true_eq_false, if_false]
        rw [hrun]
        simp only
        rw [hparent0, copyCalls_nested]
      · exact FlowerEnds.getEnd_copyConstruct_self flower end_.name hnone
      · intro i hi
        cases i with
        | zero =>
          show (parent1.mapFlower (fun f => f.setGroup end_.name parentGroup)).endAt 0
            end_.name = some (some parentGroup)
          rw [Hierarchy.endAt_zero, Hierarchy.flower_mapFlower]
          exact FlowerEnds.getEnd_setGroup_self _ _ _ none hparent0
        | succ j =>
          show (parent1.mapFlower (fun f => f.setGroup end_.name parentGroup)).endAt (j + 1)
            end_.name = some (parent.parentGroupAt j)
          rw [Hierarchy.endAt_mapFlower_succ]
          exact hset j (by omega)
      · intro i hi
        cases i with
        | zero => omega
        | succ j =>
          cases j with
          | zero => omega
          | succ j' =>
            show (parent1.mapFlower (fun f => f.setGroup end_.name parentGroup)).endAt
              (j' + 1) end_.name = parent.endAt (j' + 1) end_.name
            rw [Hierarchy.endAt_mapFlower_succ]
            exact habove (j' + 1) (by omega)
      · intro i n hn
        cases i with
        | zero => exact FlowerEnds.getEnd_copyConstruct_of_ne flower end_.name n hn
        | succ j =>
          cases j with
          | zero =>
            show (parent1.mapFlower (fun f => f.setGroup end_.name parentGroup)).endAt 0 n =
              parent.endAt 0 n
            rw [Hierarchy.endAt_zero, Hierarchy.flower_mapFlower,
              FlowerEnds.getEnd_setGroup_of_ne _ _ _ _ hn, ← Hierarchy.endAt_zero]
            exact hother 0 n hn
          | succ j' =>
            show (parent1.mapFlower (fun f => f.setGroup end_.name parentGroup)).endAt
              (j' + 1) n = parent.endAt (j' + 1) n
            rw [Hierarchy.endAt_mapFlower_succ]
            exact hother (j' + 1) n hn
      · intro i
        cases i with
        | zero => rfl
        | succ j =>
          show (parent1.mapFlower (fun f => f.setGroup end_.name parentGroup)).parentGroupAt j =
            parent.parentGroupAt j
          rw [Hierarchy.parentGroupAt_mapFlower]
          exact hgroups j
      · intro i
        cases i with
        | zero => rfl
        | succ j =>
          cases j with
          | zero =>
            show (parent1.mapFlower (fun f => f.setGroup end_.name parentGroup)).groupNumberAt 0 =
              parent.groupNumberAt 0
            rw [Hierarchy.groupNumberAt_zero, Hierarchy.flower_mapFlower, ← hnumbers 0,
              Hierarchy.groupNumberAt_zero]
            rfl
          | succ j' =>
            show (parent1.mapFlower (fun f => f.setGroup end_.name parentGroup)).groupNumberAt
              (j' + 1) = parent.groupNumberAt (j' + 1)
            rw [Hierarchy.groupNumberAt_mapFlower_succ]
            exact hnumbers (j' + 1)

theorem Hierarchy.parentGroupAt_of_endAt (name : Int) :
    ∀ (hierarchy : Hierarchy) (k : Nat) (x : Option Nat),
      hierarchy.endAt k name = some x →
      ∀ i, i < k → ∃ group, hierarchy.parentGroupAt i = some group := by
  intro hierarchy
  induction hierarchy with
  | top flower =>
    intro k x h i hi
    cases k with
    | zero => omega
    | succ k => cases h
  | nested flower parentGroup parent ih =>
    intro k x h i hi
    cases k with
    | zero => omega
    | succ k =>
      cases i with
      | zero => exact ⟨parentGroup, rfl⟩
      | succ j => exact ih k x h j (by omega)

/-- C15. A pinch end that is not in the hash: the call returns `NULL`, makes no
write and leaves the hierarchy as it is. A pinch end that the hash maps to a
free stub end, absent from the given flower and from the flowers less than `k`
levels above it, present without a group in the ancestor `k ≥ 1` levels up: the
call returns the end of the given flower in the orientation of the hashed end;
its writes are, from that ancestor downwards, the group of the end set to the
parent group leading to the child and then the copy into the child; afterwards
the end is in the given flower without a group, its group in each ancestor on
the path is the parent group leading to the child, and the flowers above the
path, the other ends, the parent groups and the numbers of groups are as
before. -/
theorem convertPinchBlockEndToEnd_copies {P : Type} (pinchEnd : P)
    (pinchEndsToEnds : P → Option End) (hierarchy : Hierarchy) :
    (pinchEndsToEnds pinchEnd = none →
      convertPinchBlockEndToEnd pinchEnd pinchEndsToEnds hierarchy =
        .ok (none, hierarchy, [])) ∧
    (∀ (end_ : End) (k : Nat),
      pinchEndsToEnds pinchEnd = some end_ →
      end_.isFree = true → end_.isStubEnd = true →
      1 ≤ k →
      (∀ i, i < k → hierarchy.endAt i end_.name = none) →
      hierarchy.endAt k end_.name = some none →
      ∃ hierarchy1,
        convertPinchBlockEndToEnd pinchEnd pinchEndsToEnds hierarchy =
          .ok (some (end_.name, end_.orientation), hierarchy1,
            copyCalls end_.name hierarchy k) ∧
        hierarchy1.endAt 0 end_.name = some none ∧
        (∀ i, i < k → ∃ group, hierarchy.parentGroupAt i = some group ∧
          hierarchy1.endAt (i + 1) end_.name = some (some group)) ∧
        (∀ i, k < i → hierarchy1.endAt i end_.name = hierarchy.endAt i end_.name) ∧
        (∀ i n, n ≠ end_.name → hierarchy1.endAt i n = hierarchy.endAt i n) ∧
        (∀ i, hierarchy1.parentGroupAt i = hierarchy.parentGroupAt i) ∧
        (∀ i, hierarchy1.groupNumberAt i = hierarchy.groupNumberAt i)) := by
  refine ⟨convert_unmapped pinchEnd pinchEndsToEnds hierarchy, ?_⟩
  intro end_ k hhash hfree hstub _ habsent hpresent
  obtain ⟨hierarchy1, hrun, h0, hset, habove, hother, hgroups, hnumbers⟩ :=
    convert_copies pinchEnd pinchEndsToEnds end_ hhash hfree hstub hierarchy k habsent hpresent
  refine ⟨hierarchy1, hrun, h0, ?_, habove, hother, hgroups, hnumbers⟩
  intro i hi
  obtain ⟨group, hgroup⟩ :=
    Hierarchy.parentGroupAt_of_endAt end_.name hierarchy k none hpresent i hi
  refine ⟨group, hgroup, ?_⟩
  rw [hset i hi, hgroup]

/-- C15 on the scenario hierarchy. Pinch end 1 is not in the hash. The end 9 of
pinch end 0 is two levels up: its group is set to 7 at the top and it is copied
into the middle flower, its group is set to 3 there and it is copied into the
given flower, and the end returned is in negative orientation. -/
theorem convertPinchBlockEndToEnd_copies_witness :
    convertPinchBlockEndToEnd 1 scenarioHash scenarioEnds = .ok (none, scenarioEnds, []) ∧
    ∃ hierarchy1,
      convertPinchBlockEndToEnd 0 scenarioHash scenarioEnds =
        .ok (some (9, false), hierarchy1,
          [.end_setGroup 2 9 7, .end_copyConstruct 1 9,
            .end_setGroup 1 9 3, .end_copyConstruct 0 9]) ∧
      hierarchy1.endAt 0 9 = some none ∧
      hierarchy1.endAt 1 9 = some (some 3) ∧
      hierarchy1.endAt 2 9 = some (some 7) ∧
      hierarchy1.endAt 0 5 = some none := by
  refine ⟨(convertPinchBlockEndToEnd_copies 1 scenarioHash scenarioEnds).1 rfl, ?_⟩
  obtain ⟨hierarchy1, hrun, h0, hset, _, hother, _, _⟩ :=
    (convertPinchBlockEndToEnd_copies 0 scenarioHash scenarioEnds).2
      { name := 9, orientation := false, isFree := true, isStubEnd := true } 2
      rfl rfl rfl (by decide)
      (by
        intro i hi
        interval_cases i <;> rfl)
      rfl
  refine ⟨hierarchy1, hrun, h0, ?_, ?_, ?_⟩
  · obtain ⟨group, hgroup, hend⟩ := hset 0 (by decide)
    cases hgroup
    exact hend
  · obtain ⟨group, hgroup, hend⟩ := hset 1 (by decide)
    cases hgroup
    exact hend
  · rw [hother 0 5 (by decide)]
    rfl

/-! ### The groups of the adjacency components -/

/-- What any call of `convertPinchBlockEndToEnd` that runs to its end leaves
as it was in the given flower: the number of groups, and every end that was
there, with its group. The end returned is the end of the hashed end, by name
and orientation, and it is in the given flower afterwards. -/
theorem convert_frame {P : Type} (pinchEnd : P) (pinchEndsToEnds : P → Option End) :
    ∀ (hierarchy : Hierarchy) (result : Option (Int × Bool)) (hierarchy1 : Hierarchy)
      (calls : List EndCall),
      convertPinchBlockEndToEnd pinchEnd pinchEndsToEnds hierarchy =
        .ok (result, hierarchy1, calls) →
      hierarchy1.flower.groupNumber = hierarchy.flower.groupNumber ∧
      (∀ n x, hierarchy.flower.getEnd n = some x → hierarchy1.flower.getEnd n = some x) ∧
      (result = none → pinchEndsToEnds pinchEnd = none) ∧
      (∀ name orientation, result = some (name, orientation) →
        ∃ end_, pinchEndsToEnds pinchEnd = some end_ ∧ name = end_.name ∧
          orientation = end_.orientation ∧ ∃ x, hierarchy1.flower.getEnd name = some x) := by
  intro hierarchy
  induction hierarchy with
  | top flower =>
    intro result hierarchy1 calls h
    unfold convertPinchBlockEndToEnd at h
    cases hh : pinchEndsToEnds pinchEnd with
    | none =>
      rw [hh] at h
      simp only at h
      cases h
      exact ⟨rfl, fun _ _ hx => hx, fun _ => rfl, by intro _ _ hr; cases hr⟩
    | some end_ =>
      rw [hh] at h
      simp only at h
      cases hg : flower.getEnd end_.name with
      | some x =>
        rw [hg] at h
        simp only at h
        cases h
        refine ⟨rfl, fun _ _ hx => hx, (by intro hr; cases hr), ?_⟩
        intro name orientation hr
        cases hr
        exact ⟨end_, rfl, rfl, rfl, x, hg⟩
      | none =>
        rw [hg] at h
        simp only at h
        split_ifs at h
  | nested flower parentGroup parent ih =>
    intro result hierarchy1 calls h
    unfold convertPinchBlockEndToEnd at h
    cases hh : pinchEndsToEnds pinchEnd with
    | none =>
      rw [hh] at h
      simp only at h
      cases h
      exact ⟨rfl, fun _ _ hx => hx, fun _ => rfl, by intro _ _ hr; cases hr⟩
    | some end_ =>
      rw [hh] at h
      simp only at h
      cases hg : flower.getEnd end_.name with
      | some x =>
        rw [hg] at h
        simp only at h
        cases h
        refine ⟨rfl, fun _ _ hx => hx, (by intro hr; cases hr), ?_⟩
        intro name orientation hr
        cases hr
        exact ⟨end_, rfl, rfl, rfl, x, hg⟩
      | none =>
        rw [hg] at h
        simp only at h
        split_ifs at h
        cases hrec : convertPinchBlockEndToEnd pinchEnd pinchEndsToEnds parent with
        | error e =>
          rw [hrec] at h
          cases h
        | ok r =>
          obtain ⟨r1, parent1, calls1⟩ := r
          rw [hrec] at h
          cases r1 with
          | none => cases h
          | some nr =>
            obtain ⟨name2, o2⟩ := nr
            simp only at h
            obtain ⟨_, _, _, hname⟩ := ih _ _ _ hrec
            obtain ⟨end2, hh2, hname2, _, _⟩ := hname name2 o2 rfl
            rw [hh] at hh2
            cases hh2
            have hcopy : ∀ y, parent1.flower.getEnd name2 ≠ some (some y) →
                result = some (name2, end_.orientation) ∧
                hierarchy1 = .nested (flower.copyConstruct name2) parentGroup
                  (parent1.mapFlower (fun f => f.setGroup name2 parentGroup)) := by
              intro y hy
              cases hpg : parent1.flower.getEnd name2 with
              | none =>
                rw [hpg] at h
                simp only at h
                cases h
                exact ⟨rfl, rfl⟩
              | some z =>
                cases z with
                | none =>
                  rw [hpg] at h
                  simp only at h
                  cases h
                  exact ⟨rfl, rfl⟩
                | some w =>
                  rw [hpg] at h
                  simp only at h
                  cases h
            have hnot : ∀ y, parent1.flower.getEnd name2 ≠ some (some y) := by
              intro y hy
              rw [hy] at h
              simp only at h
              cases h
            obtain ⟨hres, hhier⟩ := hcopy 0 (hnot 0)
            subst hres
            subst hhier
            refine ⟨rfl, ?_, (by intro hr; cases hr), ?_⟩
            · intro n x hx
              exact FlowerEnds.getEnd_copyConstruct_of_some flower name2 n x hx
            · intro name orientation hr
              cases hr
              refine ⟨end_, rfl, hname2, rfl, none, ?_⟩
              rw [hname2]
              exact FlowerEnds.getEnd_copyConstruct_self flower end_.name hg

/-- Lines 196 to 202 when they run to their end: the component is passed over
exactly when it is of size 1 with its single end in negative orientation, and
the given flower keeps its groups and its ends. -/
theorem makeTanglesCheck_ok {P : Type} (pinchEndsToEnds : P → Option End)
    (adjacencyComponent : AdjacencyComponent P) (hierarchy hierarchy1 : Hierarchy)
    (skip : Bool)
    (h : makeTanglesCheck pinchEndsToEnds adjacencyComponent.ends hierarchy =
      .ok (skip, hierarchy1)) :
    skip = adjacencyComponent.isSkipped pinchEndsToEnds ∧
    hierarchy1.flower.groupNumber = hierarchy.flower.groupNumber ∧
    (∀ n x, hierarchy.flower.getEnd n = some x → hierarchy1.flower.getEnd n = some x) := by
  unfold AdjacencyComponent.isSkipped
  generalize adjacencyComponent.ends = pinchEnds at h
  match pinchEnds, h with
  | [], h =>
    have h2 : (Except.ok (false, hierarchy) : Except FinishingAbort (Bool × Hierarchy)) =
        .ok (skip, hierarchy1) := h
    cases h2
    exact ⟨rfl, rfl, fun _ _ hx => hx⟩
  | _ :: _ :: _, h =>
    have h2 : (Except.ok (false, hierarchy) : Except FinishingAbort (Bool × Hierarchy)) =
        .ok (skip, hierarchy1) := h
    cases h2
    exact ⟨rfl, rfl, fun _ _ hx => hx⟩
  | [pinchEnd], h =>
    rw [makeTanglesCheck] at h
    cases hrun : convertPinchBlockEndToEnd pinchEnd pinchEndsToEnds hierarchy with
    | error e =>
      rw [hrun] at h
      cases h
    | ok r =>
      obtain ⟨r1, hierarchy2, calls⟩ := r
      rw [hrun] at h
      cases r1 with
      | none => cases h
      | some nr =>
        obtain ⟨name, orientation⟩ := nr
        simp only at h
        cases h
        obtain ⟨hnumber, hkeep, _, hname⟩ := convert_frame pinchEnd pinchEndsToEnds _ _ _ _ hrun
        obtain ⟨end_, hhash, _, horientation, _⟩ := hname name orientation rfl
        refine ⟨?_, hnumber, hkeep⟩
        simp only [isNegativeEnd, hhash, horientation]

theorem endNames_cons {P : Type} (pinchEndsToEnds : P → Option End) (pinchEnd : P)
    (pinchEnds : List P) (end_ : End) (h : pinchEndsToEnds pinchEnd = some end_) :
    endNames pinchEndsToEnds (pinchEnd :: pinchEnds) =
      end_.name :: endNames pinchEndsToEnds pinchEnds := by
  simp only [endNames, List.filterMap_cons, h, Option.map_some']

/-- Lines 204 to 210 when they run to their end: every pinch end of the
component has an end in the hash, in positive orientation; the ends on which
the group is set are these ends, in order, and afterwards each of them has the
group; the given flower keeps its number of groups, and every end that had a
group keeps it. -/
theorem makeTanglesEnds_ok {P : Type} (pinchEndsToEnds : P → Option End) (group : Nat) :
    ∀ (pinchEnds : List P) (hierarchy hierarchy2 : Hierarchy) (names : List Int),
      makeTanglesEnds pinchEndsToEnds group pinchEnds hierarchy = .ok (hierarchy2, names) →
      names = endNames pinchEndsToEnds pinchEnds ∧
      names.length = pinchEnds.length ∧
      (∀ pinchEnd ∈ pinchEnds, ∃ end_,
        pinchEndsToEnds pinchEnd = some end_ ∧ end_.orientation = true) ∧
      hierarchy2.flower.groupNumber = hierarchy.flower.groupNumber ∧
      (∀ n ∈ names, hierarchy2.flower.getEnd n = some (some group)) ∧
      (∀ n x, hierarchy.flower.getEnd n = some (some x) →
        hierarchy2.flower.getEnd n = some (some x)) := by
  intro pinchEnds
  induction pinchEnds with
  | nil =>
    intro hierarchy hierarchy2 names h
    rw [makeTanglesEnds] at h
    cases h
    refine ⟨rfl, rfl, ?_, rfl, ?_, fun _ _ hx => hx⟩
    · intro pinchEnd hmem
      cases hmem
    · intro n hmem
      cases hmem
  | cons pinchEnd pinchEnds ih =>
    intro hierarchy hierarchy2 names h
    rw [makeTanglesEnds] at h
    cases hrun : convertPinchBlockEndToEnd pinchEnd pinchEndsToEnds hierarchy with
    | error e =>
      rw [hrun] at h
      cases h
    | ok r =>
      obtain ⟨r1, hierarchy1, calls⟩ := r
      rw [hrun] at h
      cases r1 with
      | none => cases h
      | some nr =>
        obtain ⟨name, orientation⟩ := nr
        simp only at h
        obtain ⟨hnumber, hkeep, _, hname⟩ := convert_frame pinchEnd pinchEndsToEnds _ _ _ _ hrun
        obtain ⟨end_, hhash, hname2, horientation, x, hx⟩ := hname name orientation rfl
        split_ifs at h with ho
        cases x with
        | some w =>
          rw [hx] at h
          cases h
        | none =>
          rw [hx] at h
          simp only at h
          cases hrest : makeTanglesEnds pinchEndsToEnds group pinchEnds
              (hierarchy1.mapFlower (fun f => f.setGroup name group)) with
          | error e =>
            rw [hrest] at h
            cases h
          | ok r2 =>
            obtain ⟨hierarchy3, names2⟩ := r2
            rw [hrest] at h
            cases h
            obtain ⟨hnames, hlength, hpositive, hnumber2, hset, hkeep2⟩ := ih _ _ _ hrest
            have hself : (hierarchy1.mapFlower (fun f => f.setGroup name group)).flower.getEnd
                name = some (some group) := by
              rw [Hierarchy.flower_mapFlower]
              exact FlowerEnds.getEnd_setGroup_self _ _ _ none hx
            refine ⟨?_, ?_, ?_, ?_, ?_, ?_⟩
            · rw [endNames_cons pinchEndsToEnds pinchEnd pinchEnds end_ hhash, hnames, hname2]
            · simp only [List.length_cons, hlength]
            · intro p hmem
              rcases List.mem_cons.mp hmem with rfl | hmem
              · refine ⟨end_, hhash, ?_⟩
                rw [← horientation]
                simpa using ho
              · exact hpositive p hmem
            · rw [hnumber2, Hierarchy.flower_mapFlower]
              exact hnumber
            · intro n hmem
              rcases List.mem_cons.mp hmem with rfl | hmem
              · exact hkeep2 _ _ hself
              · exact hset n hmem
            · intro n y hy
              have h1 : hierarchy1.flower.getEnd n = some (some y) := hkeep n _ hy
              have hne : n ≠ name := by
                intro heq
                rw [heq, hx] at h1
                cases h1
              apply hkeep2
              rw [Hierarchy.flower_mapFlower, FlowerEnds.getEnd_setGroup_of_ne _ _ _ _ hne]
              exact h1

theorem groupedComponents_cons_dead {P : Type} (pinchEndsToEnds : P → Option End)
    (deadEndComponent : Nat) (adjacencyComponent : AdjacencyComponent P)
    (adjacencyComponents : List (AdjacencyComponent P))
    (h : adjacencyComponent.address = deadEndComponent) :
    groupedComponents pinchEndsToEnds deadEndComponent
        (adjacencyComponent :: adjacencyComponents) =
      groupedComponents pinchEndsToEnds deadEndComponent adjacencyComponents := by
  simp [groupedComponents, List.filter_cons, AdjacencyComponent.isDeadEnd, h]

theorem groupedComponents_cons_skipped {P : Type} (pinchEndsToEnds : P → Option End)
    (deadEndComponent : Nat) (adjacencyComponent : AdjacencyComponent P)
    (adjacencyComponents : List (AdjacencyComponent P))
    (h : adjacencyComponent.isSkipped pinchEndsToEnds = true) :
    groupedComponents pinchEndsToEnds deadEndComponent
        (adjacencyComponent :: adjacencyComponents) =
      groupedComponents pinchEndsToEnds deadEndComponent adjacencyComponents := by
  simp [groupedComponents, List.filter_cons, h]

theorem groupedComponents_cons_grouped {P : Type} (pinchEndsToEnds : P → Option End)
    (deadEndComponent : Nat) (adjacencyComponent : AdjacencyComponent P)
    (adjacencyComponents : List (AdjacencyComponent P))
    (hdead : adjacencyComponent.address ≠ deadEndComponent)
    (h : adjacencyComponent.isSkipped pinchEndsToEnds = false) :
    groupedComponents pinchEndsToEnds deadEndComponent
        (adjacencyComponent :: adjacencyComponents) =
      adjacencyComponent ::
        groupedComponents pinchEndsToEnds deadEndComponent adjacencyComponents := by
  simp [groupedComponents, List.filter_cons, AdjacencyComponent.isDeadEnd, hdead, h]

/-- What `makeTangles` has done when it runs to its end. The groups it
constructed are, in order, one for each component that is to have a group; the
ends assigned to a group are the ends of its component; the groups are new
groups of the given flower, numbered on from the groups it had; every end of
such a component is in the hash, in positive orientation; afterwards each end
assigned has the group of its component, and every end that had a group keeps
it. -/
theorem makeTangles_ok {P : Type} (pinchEndsToEnds : P → Option End) (deadEndComponent : Nat) :
    ∀ (adjacencyComponents : List (AdjacencyComponent P)) (hierarchy hierarchy1 : Hierarchy)
      (groups : List (Nat × List Int)),
      makeTangles pinchEndsToEnds deadEndComponent adjacencyComponents hierarchy =
        .ok (hierarchy1, groups) →
      groups.map Prod.snd =
        (groupedComponents pinchEndsToEnds deadEndComponent adjacencyComponents).map
          (fun adjacencyComponent => endNames pinchEndsToEnds adjacencyComponent.ends) ∧
      groups.map Prod.fst = List.range' hierarchy.flower.groupNumber groups.length ∧
      hierarchy1.flower.groupNumber = hierarchy.flower.groupNumber + groups.length ∧
      (∀ adjacencyComponent ∈
          groupedComponents pinchEndsToEnds deadEndComponent adjacencyComponents,
        ∀ pinchEnd ∈ adjacencyComponent.ends, ∃ end_,
          pinchEndsToEnds pinchEnd = some end_ ∧ end_.orientation = true) ∧
      (∀ group names, (group, names) ∈ groups →
        ∀ n ∈ names, hierarchy1.flower.getEnd n = some (some group)) ∧
      (∀ n x, hierarchy.flower.getEnd n = some (some x) →
        hierarchy1.flower.getEnd n = some (some x)) := by
  intro adjacencyComponents
  induction adjacencyComponents with
  | nil =>
    intro hierarchy hierarchy1 groups h
    rw [makeTangles] at h
    cases h
    refine ⟨rfl, rfl, rfl, ?_, ?_, fun _ _ hx => hx⟩
    · intro adjacencyComponent hmem
      cases hmem
    · intro group names hmem
      cases hmem
  | cons adjacencyComponent adjacencyComponents ih =>
    intro hierarchy hierarchy1 groups h
    rw [makeTangles] at h
    by_cases hdead : adjacencyComponent.address = deadEndComponent
    · rw [if_neg (not_not.mpr hdead)] at h
      rw [groupedComponents_cons_dead pinchEndsToEnds deadEndComponent adjacencyComponent
        adjacencyComponents hdead]
      exact ih _ _ _ h
    · rw [if_pos hdead] at h
      cases hcheck : makeTanglesCheck pinchEndsToEnds adjacencyComponent.ends hierarchy with
      | error e =>
        rw [hcheck] at h
        cases h
      | ok r =>
        obtain ⟨skip, hierarchy2⟩ := r
        rw [hcheck] at h
        obtain ⟨hskip, hnumber, hkeep⟩ :=
          makeTanglesCheck_ok pinchEndsToEnds adjacencyComponent _ _ _ hcheck
        cases skip with
        | true =>
          simp only at h
          rw [groupedComponents_cons_skipped pinchEndsToEnds deadEndComponent adjacencyComponent
            adjacencyComponents hskip.symm]
          obtain ⟨hnames, hfresh, hnumber2, hpositive, hset, hkeep2⟩ := ih _ _ _ h
          refine ⟨hnames, ?_, ?_, hpositive, hset, ?_⟩
          · rw [hfresh, hnumber]
          · rw [hnumber2, hnumber]
          · intro n x hx
            exact hkeep2 n x (hkeep n _ hx)
        | false =>
          simp only at h
          cases hends : makeTanglesEnds pinchEndsToEnds hierarchy2.flower.groupNumber
              adjacencyComponent.ends (hierarchy2.mapFlower (fun f => f.constructGroup)) with
          | error e =>
            rw [hends] at h
            cases h
          | ok r2 =>
            obtain ⟨hierarchy3, names⟩ := r2
            rw [hends] at h
            simp only at h
            cases hrest : makeTangles pinchEndsToEnds deadEndComponent adjacencyComponents
                hierarchy3 with
            | error e =>
              rw [hrest] at h
              cases h
            | ok r3 =>
              obtain ⟨hierarchy4, groups2⟩ := r3
              rw [hrest] at h
              cases h
              rw [groupedComponents_cons_grouped pinchEndsToEnds deadEndComponent
                adjacencyComponent adjacencyComponents hdead hskip.symm]
              obtain ⟨hnames, hfresh, hnumber2, hpositive, hset, hkeep2⟩ := ih _ _ _ hrest
              obtain ⟨hnames3, _, hpositive3, hnumber3, hset3, hkeep3⟩ :=
                makeTanglesEnds_ok pinchEndsToEnds _ _ _ _ _ hends
              have hnumber4 : hierarchy3.flower.groupNumber = hierarchy.flower.groupNumber + 1 := by
                rw [hnumber3, Hierarchy.flower_mapFlower, ← hnumber]
                rfl
              refine ⟨?_, ?_, ?_, ?_, ?_, ?_⟩
              · simp only [List.map_cons, hnames, hnames3]
              · simp only [List.map_cons, List.length_cons, hfresh, hnumber4, hnumber,
                  List.range'_succ]
              · rw [hnumber2, hnumber4, List.length_cons]
                omega
              · intro c hmem
                rcases List.mem_cons.mp hmem with rfl | hmem
                · exact hpositive3
                · exact hpositive c hmem
              · intro group names2 hmem n hn
                rcases List.mem_cons.mp hmem with heq | hmem
                · cases heq
                  exact hkeep2 n _ (hset3 n hn)
                · exact hset group names2 hmem n hn
              · intro n x hx
                apply hkeep2
                apply hkeep3
                rw [Hierarchy.flower_mapFlower]
                exact hkeep n _ hx

theorem mem_endNames {P : Type} (pinchEndsToEnds : P → Option End) (pinchEnds : List P)
    (pinchEnd : P) (end_ : End) (hmem : pinchEnd ∈ pinchEnds)
    (h : pinchEndsToEnds pinchEnd = some end_) :
    end_.name ∈ endNames pinchEndsToEnds pinchEnds := by
  unfold endNames
  rw [List.mem_filterMap]
  exact ⟨pinchEnd, hmem, by rw [h]; rfl⟩

theorem FlowerEnds.getEnd_setGroup_present (flower : FlowerEnds) (name n : Int) (group : Nat)
    (x : Option Nat) (h : flower.getEnd n = some x) :
    ∃ y, (flower.setGroup name group).getEnd n = some y := by
  by_cases hn : n = name
  · subst hn
    exact ⟨some group, FlowerEnds.getEnd_setGroup_self flower n group x h⟩
  · exact ⟨x, by rw [FlowerEnds.getEnd_setGroup_of_ne flower name n group hn]; exact h⟩

/-- Lines 196 to 202 run to their end, and change nothing, when the single end
of a component of size 1 is in the hash and in the given flower. -/
theorem makeTanglesCheck_returns {P : Type} (pinchEndsToEnds : P → Option End)
    (adjacencyComponent : AdjacencyComponent P) (hierarchy : Hierarchy)
    (h : ∀ pinchEnd ∈ adjacencyComponent.ends, ∃ end_ x,
      pinchEndsToEnds pinchEnd = some end_ ∧ hierarchy.flower.getEnd end_.name = some x) :
    makeTanglesCheck pinchEndsToEnds adjacencyComponent.ends hierarchy =
      .ok (adjacencyComponent.isSkipped pinchEndsToEnds, hierarchy) := by
  unfold AdjacencyComponent.isSkipped
  generalize adjacencyComponent.ends = pinchEnds at h
  match pinchEnds, h with
  | [], _ => rfl
  | _ :: _ :: _, _ => rfl
  | [pinchEnd], h =>
    obtain ⟨end_, x, hhash, hx⟩ := h pinchEnd (List.mem_singleton.mpr rfl)
    rw [makeTanglesCheck, convert_present pinchEnd pinchEndsToEnds hierarchy end_ x hhash hx]
    simp only [isNegativeEnd, hhash]

/-- Lines 204 to 210 run to their end when the ends of the component are in the
hash, in positive orientation, and in the given flower without a group, and no
two of them have the same name. The ends of other names are then as before, and
every end of the flower is still there. -/
theorem makeTanglesEnds_returns {P : Type} (pinchEndsToEnds : P → Option End) (group : Nat) :
    ∀ (pinchEnds : List P) (hierarchy : Hierarchy),
      (∀ pinchEnd ∈ pinchEnds, ∀ end_, pinchEndsToEnds pinchEnd = some end_ →
        end_.orientation = true ∧ hierarchy.flower.getEnd end_.name = some none) →
      (∀ pinchEnd ∈ pinchEnds, ∃ end_, pinchEndsToEnds pinchEnd = some end_) →
      (endNames pinchEndsToEnds pinchEnds).Nodup →
      ∃ hierarchy2,
        makeTanglesEnds pinchEndsToEnds group pinchEnds hierarchy =
          .ok (hierarchy2, endNames pinchEndsToEnds pinchEnds) ∧
        (∀ n, n ∉ endNames pinchEndsToEnds pinchEnds →
          hierarchy2.flower.getEnd n = hierarchy.flower.getEnd n) ∧
        (∀ n x, hierarchy.flower.getEnd n = some x →
          ∃ y, hierarchy2.flower.getEnd n = some y) := by
  intro pinchEnds
  induction pinchEnds with
  | nil =>
    intro hierarchy _ _ _
    exact ⟨hierarchy, rfl, fun _ _ => rfl, fun _ x hx => ⟨x, hx⟩⟩
  | cons pinchEnd pinchEnds ih =>
    intro hierarchy hpositive hhashed hnodup
    obtain ⟨end_, hhash⟩ := hhashed pinchEnd (List.mem_cons_self _ _)
    obtain ⟨ho, hg⟩ := hpositive pinchEnd (List.mem_cons_self _ _) end_ hhash
    rw [endNames_cons pinchEndsToEnds pinchEnd pinchEnds end_ hhash] at hnodup ⊢
    obtain ⟨hnotin, hnodup2⟩ := List.nodup_cons.mp hnodup
    obtain ⟨hierarchy2, hrun, hframe, hpresent⟩ :=
      ih (hierarchy.mapFlower (fun f => f.setGroup end_.name group))
        (by
          intro p hmem end2 hhash2
          obtain ⟨ho2, hg2⟩ := hpositive p (List.mem_cons_of_mem _ hmem) end2 hhash2
          refine ⟨ho2, ?_⟩
          have hne : end2.name ≠ end_.name := by
            intro heq
            apply hnotin
            rw [← heq]
            exact mem_endNames pinchEndsToEnds pinchEnds p end2 hmem hhash2
          rw [Hierarchy.flower_mapFlower, FlowerEnds.getEnd_setGroup_of_ne _ _ _ _ hne]
          exact hg2)
        (fun p hmem => hhashed p (List.mem_cons_of_mem _ hmem)) hnodup2
    refine ⟨hierarchy2, ?_, ?_, ?_⟩
    · rw [makeTanglesEnds, convert_present pinchEnd pinchEndsToEnds hierarchy end_ none hhash hg]
      simp only [ho, not_true_eq_false, if_false]
      rw [hg]
      simp only
      rw [hrun]
    · intro n hn
      have hne : n ≠ end_.name := fun heq => hn (by rw [heq]; exact List.mem_cons_self _ _)
      rw [hframe n (fun hmem => hn (List.mem_cons_of_mem _ hmem)), Hierarchy.flower_mapFlower,
        FlowerEnds.getEnd_setGroup_of_ne _ _ _ _ hne]
    · intro n x hx
      obtain ⟨y, hy⟩ := FlowerEnds.getEnd_setGroup_present hierarchy.flower end_.name n group x hx
      apply hpresent n y
      rw [Hierarchy.flower_mapFlower]
      exact hy

/-- On an admissible node and flower `makeTangles` runs to its end. -/
theorem makeTangles_returns {P : Type} (pinchEndsToEnds : P → Option End)
    (deadEndComponent : Nat) :
    ∀ (adjacencyComponents : List (AdjacencyComponent P)) (hierarchy : Hierarchy),
      TanglesAdmissible pinchEndsToEnds deadEndComponent adjacencyComponents hierarchy →
      ∃ hierarchy1 groups,
        makeTangles pinchEndsToEnds deadEndComponent adjacencyComponents hierarchy =
          .ok (hierarchy1, groups) := by
  intro adjacencyComponents
  induction adjacencyComponents with
  | nil =>
    intro hierarchy _
    exact ⟨hierarchy, [], rfl⟩
  | cons c cs ih =>
    intro hierarchy hadm
    have hpresent2 : ∀ c2 ∈ cs, c2.address ≠ deadEndComponent →
        ∀ pinchEnd ∈ c2.ends, ∃ end_ x,
          pinchEndsToEnds pinchEnd = some end_ ∧ hierarchy.flower.getEnd end_.name = some x :=
      fun c2 hmem => hadm.present c2 (List.mem_cons_of_mem _ hmem)
    by_cases hdead : c.address = deadEndComponent
    · have hg := groupedComponents_cons_dead pinchEndsToEnds deadEndComponent c cs hdead
      have hpos := hadm.positive
      have hdis := hadm.distinct
      rw [hg] at hpos hdis
      obtain ⟨hierarchy1, groups, hrun⟩ := ih hierarchy ⟨hpresent2, hpos, hdis⟩
      refine ⟨hierarchy1, groups, ?_⟩
      rw [makeTangles, if_neg (not_not.mpr hdead)]
      exact hrun
    · have hcheck := makeTanglesCheck_returns pinchEndsToEnds c hierarchy
        (hadm.present c (List.mem_cons_self _ _) hdead)
      cases hskip : c.isSkipped pinchEndsToEnds with
      | true =>
        have hg := groupedComponents_cons_skipped pinchEndsToEnds deadEndComponent c cs hskip
        have hpos := hadm.positive
        have hdis := hadm.distinct
        rw [hg] at hpos hdis
        obtain ⟨hierarchy1, groups, hrun⟩ := ih hierarchy ⟨hpresent2, hpos, hdis⟩
        refine ⟨hierarchy1, groups, ?_⟩
        rw [makeTangles, if_pos hdead, hcheck, hskip]
        exact hrun
      | false =>
        have hg := groupedComponents_cons_grouped pinchEndsToEnds deadEndComponent c cs hdead
          hskip
        have hpos := hadm.positive
        have hdis := hadm.distinct
        rw [hg] at hpos hdis
        rw [List.flatMap_cons, List.nodup_append] at hdis
        obtain ⟨hnodup, hnodup2, hdisjoint⟩ := hdis
        obtain ⟨hierarchy2, hends, hframe, hkeep⟩ :=
          makeTanglesEnds_returns pinchEndsToEnds hierarchy.flower.groupNumber c.ends
            (hierarchy.mapFlower (fun f => f.constructGroup))
            (by
              intro p hmem end_ hhash
              obtain ⟨ho, hgroup⟩ := hpos c (List.mem_cons_self _ _) p hmem end_ hhash
              refine ⟨ho, ?_⟩
              rw [Hierarchy.flower_mapFlower]
              exact hgroup)
            (by
              intro p hmem
              obtain ⟨end_, x, hhash, _⟩ := hadm.present c (List.mem_cons_self _ _) hdead p hmem
              exact ⟨end_, hhash⟩)
            hnodup
        obtain ⟨hierarchy3, groups, hrun⟩ := ih hierarchy2
          ⟨by
            intro c2 hmem hdead2 p hp
            obtain ⟨end_, x, hhash, hx⟩ := hpresent2 c2 hmem hdead2 p hp
            obtain ⟨y, hy⟩ := hkeep end_.name x (by rw [Hierarchy.flower_mapFlower]; exact hx)
            exact ⟨end_, y, hhash, hy⟩,
           by
            intro c2 hmem p hp end_ hhash
            obtain ⟨ho, hgroup⟩ := hpos c2 (List.mem_cons_of_mem _ hmem) p hp end_ hhash
            refine ⟨ho, ?_⟩
            have hnotin : end_.name ∉ endNames pinchEndsToEnds c.ends := by
              intro hin
              exact hdisjoint hin
                (List.mem_flatMap.mpr ⟨c2, hmem, mem_endNames pinchEndsToEnds c2.ends p end_ hp hhash⟩)
            rw [hframe _ hnotin, Hierarchy.flower_mapFlower]
            exact hgroup,
           hnodup2⟩
        refine ⟨hierarchy3,
          (hierarchy.flower.groupNumber, endNames pinchEndsToEnds c.ends) :: groups, ?_⟩
        rw [makeTangles, if_pos hdead, hcheck, hskip]
        simp only
        rw [hends]
        simp only
        rw [hrun]

theorem snd_of_mem_zip {α β γ : Type} (f : α → γ) (g : β → γ) :
    ∀ (l1 : List α) (l2 : List β), l2.map g = l1.map f →
      ∀ a b, (a, b) ∈ l1.zip l2 → g b = f a := by
  intro l1
  induction l1 with
  | nil =>
    intro l2 _ a b hmem
    simp at hmem
  | cons x xs ih =>
    intro l2 h a b hmem
    cases l2 with
    | nil => simp at hmem
    | cons y ys =>
      simp only [List.map_cons, List.cons.injEq] at h
      simp only [List.zip_cons_cons, List.mem_cons, Prod.mk.injEq] at hmem
      rcases hmem with ⟨rfl, rfl⟩ | hmem
      · exact h.1
      · exact ih ys h.2 a b hmem

theorem length_filter_split {α : Type} (p q : α → Bool) (l : List α) :
    (l.filter (fun a => p a && !q a)).length + (l.filter (fun a => p a && q a)).length =
      (l.filter p).length := by
  induction l with
  | nil => rfl
  | cons a l ih =>
    simp only [List.filter_cons]
    cases p a <;> cases q a <;> simp <;> omega

/-- C14. On an admissible node and flower `makeTangles` runs to its end. When
it runs to its end, the groups it has constructed in the given flower are new
groups, numbered on from the groups the flower had, one for each component that
is neither the dead-end component nor a component of size 1 whose single end is
not in positive orientation, in the order of the components; every pinch end of
such a component has an end in the hash, in positive orientation, that is
assigned to the group of the component and has it as its group afterwards; and
the number of groups constructed, together with the number of components other
than the dead-end component that are of size 1 with a negatively oriented end,
is the number of components other than the dead-end component. -/
theorem makeTangles_groups {P : Type} (pinchEndsToEnds : P → Option End)
    (deadEndComponent : Nat) (adjacencyComponents : List (AdjacencyComponent P))
    (hierarchy : Hierarchy) :
    (TanglesAdmissible pinchEndsToEnds deadEndComponent adjacencyComponents hierarchy →
      ∃ hierarchy1 groups,
        makeTangles pinchEndsToEnds deadEndComponent adjacencyComponents hierarchy =
          .ok (hierarchy1, groups)) ∧
    ∀ (hierarchy1 : Hierarchy) (groups : List (Nat × List Int)),
      makeTangles pinchEndsToEnds deadEndComponent adjacencyComponents hierarchy =
        .ok (hierarchy1, groups) →
      groups.length =
        (groupedComponents pinchEndsToEnds deadEndComponent adjacencyComponents).length ∧
      groups.map Prod.fst = List.range' hierarchy.flower.groupNumber groups.length ∧
      hierarchy1.flower.groupNumber = hierarchy.flower.groupNumber + groups.length ∧
      groups.map Prod.snd =
        (groupedComponents pinchEndsToEnds deadEndComponent adjacencyComponents).map
          (fun adjacencyComponent => endNames pinchEndsToEnds adjacencyComponent.ends) ∧
      (∀ adjacencyComponent group,
        (adjacencyComponent, group) ∈
          (groupedComponents pinchEndsToEnds deadEndComponent adjacencyComponents).zip groups →
        ∀ pinchEnd ∈ adjacencyComponent.ends, ∃ end_,
          pinchEndsToEnds pinchEnd = some end_ ∧ end_.orientation = true ∧
          end_.name ∈ group.2 ∧
          hierarchy1.flower.getEnd end_.name = some (some group.1)) ∧
      groups.length +
          (adjacencyComponents.filter (fun adjacencyComponent =>
            !adjacencyComponent.isDeadEnd deadEndComponent &&
              adjacencyComponent.isSkipped pinchEndsToEnds)).length =
        (adjacencyComponents.filter (fun adjacencyComponent =>
          !adjacencyComponent.isDeadEnd deadEndComponent)).length := by
  refine ⟨makeTangles_returns pinchEndsToEnds deadEndComponent adjacencyComponents hierarchy, ?_⟩
  intro hierarchy1 groups h
  obtain ⟨hnames, hfresh, hnumber, hpositive, hset, _⟩ :=
    makeTangles_ok pinchEndsToEnds deadEndComponent adjacencyComponents hierarchy hierarchy1
      groups h
  have hlength : groups.length =
      (groupedComponents pinchEndsToEnds deadEndComponent adjacencyComponents).length := by
    have := congrArg List.length hnames
    simpa using this
  refine ⟨hlength, hfresh, hnumber, hnames, ?_, ?_⟩
  · intro c group hmem p hp
    obtain ⟨hc, hgroup⟩ := List.of_mem_zip hmem
    obtain ⟨end_, hhash, ho⟩ := hpositive c hc p hp
    have hsnd : group.2 = endNames pinchEndsToEnds c.ends :=
      snd_of_mem_zip (fun c : AdjacencyComponent P => endNames pinchEndsToEnds c.ends) Prod.snd
        _ _ hnames c group hmem
    have hin : end_.name ∈ group.2 := by
      rw [hsnd]
      exact mem_endNames pinchEndsToEnds c.ends p end_ hp hhash
    exact ⟨end_, hhash, ho, hin, hset group.1 group.2 hgroup end_.name hin⟩
  · rw [hlength]
    exact length_filter_split (fun c : AdjacencyComponent P => !c.isDeadEnd deadEndComponent)
      (fun c => c.isSkipped pinchEndsToEnds) adjacencyComponents

theorem scenarioTangles_grouped :
    groupedComponents scenarioTanglesHash 0 scenarioComponents =
      [{ address := 1, ends := [1, 2] }, { address := 3, ends := [4] }] :=
  rfl

theorem scenarioTangles_hash (pinchEnd : Nat) (end_ : End) (h1 : 1 ≤ pinchEnd)
    (h4 : pinchEnd ≤ 4) (h : scenarioTanglesHash pinchEnd = some end_) :
    end_ = { name := 10 + pinchEnd, orientation := decide (pinchEnd ≠ 3), isFree := true,
             isStubEnd := true } := by
  unfold scenarioTanglesHash at h
  rw [if_pos ⟨h1, h4⟩] at h
  cases h
  rfl

theorem scenarioTangles_admissible :
    TanglesAdmissible scenarioTanglesHash 0 scenarioComponents scenarioTanglesFlower := by
  refine ⟨?_, ?_, ?_⟩
  · intro c hmem hdead p hp
    simp only [scenarioComponents, List.mem_cons, List.mem_singleton, List.not_mem_nil,
      or_false] at hmem
    rcases hmem with rfl | rfl | rfl | rfl
    · exact absurd rfl hdead
    · simp only [List.mem_cons, List.mem_singleton, List.not_mem_nil, or_false] at hp
      rcases hp with rfl | rfl
      · exact ⟨_, none, rfl, rfl⟩
      · exact ⟨_, none, rfl, rfl⟩
    · simp only [List.mem_singleton] at hp
      subst hp
      exact ⟨_, none, rfl, rfl⟩
    · simp only [List.mem_singleton] at hp
      subst hp
      exact ⟨_, none, rfl, rfl⟩
  · rw [scenarioTangles_grouped]
    intro c hmem p hp end_ hhash
    simp only [List.mem_cons, List.mem_singleton, List.not_mem_nil, or_false] at hmem
    rcases hmem with rfl | rfl
    · simp only [List.mem_cons, List.mem_singleton, List.not_mem_nil, or_false] at hp
      rcases hp with rfl | rfl
      · rw [scenarioTangles_hash 1 end_ (by decide) (by decide) hhash]
        exact ⟨rfl, rfl⟩
      · rw [scenarioTangles_hash 2 end_ (by decide) (by decide) hhash]
        exact ⟨rfl, rfl⟩
    · simp only [List.mem_singleton] at hp
      subst hp
      rw [scenarioTangles_hash 4 end_ (by decide) (by decide) hhash]
      exact ⟨rfl, rfl⟩
  · rw [scenarioTangles_grouped]
    decide

/-- C14 on the scenario node, whose flower has two groups already. The
dead-end component gets no group, the component of the pinch ends 1 and 2 gets
the new group 2, the component of pinch end 3, of size 1 with a negatively
oriented end, gets none, and the component of pinch end 4 gets the new group
3: two groups for three components other than the dead-end component, one of
them passed over. -/
theorem makeTangles_groups_witness :
    TanglesAdmissible scenarioTanglesHash 0 scenarioComponents scenarioTanglesFlower ∧
    (∃ hierarchy1 groups,
      makeTangles scenarioTanglesHash 0 scenarioComponents scenarioTanglesFlower =
        .ok (hierarchy1, groups)) ∧
    makeTangles scenarioTanglesHash 0 scenarioComponents scenarioTanglesFlower =
      .ok (.top { ends := [(11, some 2), (12, some 2), (13, none), (14, some 3)],
                  groupNumber := 4 },
        [(2, [11, 12]), (3, [14])]) ∧
    ([(2, [11, 12]), (3, [14])] : List (Nat × List Int)).length +
        (scenarioComponents.filter (fun adjacencyComponent =>
          !adjacencyComponent.isDeadEnd 0 &&
            adjacencyComponent.isSkipped scenarioTanglesHash)).length =
      (scenarioComponents.filter (fun adjacencyComponent =>
        !adjacencyComponent.isDeadEnd 0)).length :=
  have hrun : makeTangles scenarioTanglesHash 0 scenarioComponents scenarioTanglesFlower =
      .ok (.top { ends := [(11, some 2), (12, some 2), (13, none), (14, some 3)],
                  groupNumber := 4 },
        [(2, [11, 12]), (3, [14])]) := rfl
  ⟨scenarioTangles_admissible,
    (makeTangles_groups scenarioTanglesHash 0 scenarioComponents scenarioTanglesFlower).1
      scenarioTangles_admissible,
    hrun,
    ((makeTangles_groups scenarioTanglesHash 0 scenarioComponents scenarioTanglesFlower).2
      _ _ hrun).2.2.2.2.2⟩

/-! ### The de-annealing loop ends -/

/-- A de-annealing loop that ends within a budget ends within every larger
budget, with the same result. -/
theorem deannealingLoop_fuel {W B : Type} [DecidableEq B] (m : Modules W B)
    (cCIP : CactusCoreInputParameters) (terminateRecursion loop : Int)
    (minimumBlockLength minimumChainLength stepSize : ℚ) :
    ∀ (fuel : Nat) (c : ℚ) (w : W) (result : W × List (DeannealingStep W B)),
      deannealingLoop m cCIP terminateRecursion loop minimumBlockLength minimumChainLength
        stepSize fuel c w = .ok result →
      ∀ fuel2, fuel ≤ fuel2 →
        deannealingLoop m cCIP terminateRecursion loop minimumBlockLength minimumChainLength
          stepSize fuel2 c w = .ok result := by
  intro fuel
  induction fuel with
  | zero =>
    intro c w result h
    cases h
  | succ fuel ih =>
    intro c w result h fuel2 hle
    obtain ⟨g, rfl⟩ : ∃ g, fuel2 = g + 1 := ⟨fuel2 - 1, by omega⟩
    unfold deannealingLoop at h ⊢
    simp only at h ⊢
    by_cases hc : c ≥ minimumChainLength
    · rw [if_pos hc] at h ⊢
      exact h
    · rw [if_neg hc] at h ⊢
      split at h
      · cases h
      · rename_i w2 steps2 hrest
        rw [ih _ _ _ hrest g (by omega)]
        exact h

/-- With `deannealingRounds ≤ 0` the test of line 388 fails: the loop is not
entered, whatever the budget, and the state is as before. -/
theorem deannealing_skipped {W B : Type} [DecidableEq B] (m : Modules W B)
    (cCIP : CactusCoreInputParameters) (terminateRecursion loop : Int)
    (minimumBlockLength minimumChainLength : ℚ) (fuel : Nat) (w : W)
    (hd : cCIP.deannealingRounds ≤ 0) :
    deannealing m cCIP terminateRecursion loop minimumBlockLength minimumChainLength fuel w =
      .ok (w, []) := by
  unfold deannealing
  rw [if_neg (not_lt.2 hd)]

/-- With `deannealingRounds ≤ 0` a completed round has no de-annealing step
and none of its calls is a `removeOverAlignedEdges`. -/
theorem annealingRound_skipped {W B : Type} [DecidableEq B] (m : Modules W B)
    (flower : Flower) (cCIP : CactusCoreInputParameters) (terminateRecursion : Int)
    (fuel : Nat) (s s1 : LoopState W) (round : Round W B) (continues : Bool)
    (h : annealingRound m flower cCIP terminateRecursion fuel s = .ok (round, s1, continues))
    (hd : cCIP.deannealingRounds ≤ 0) :
    round.deannealing = [] ∧
    ∀ blocksToUndo, Call.removeOverAlignedEdges blocksToUndo ∉ round.calls := by
  obtain ⟨-, -, -, ⟨pulled, hpulled, hmerging⟩, w, hsteps, hgo, hstop⟩ :=
    annealingRound_ok m flower cCIP terminateRecursion fuel s s1 round continues h
  have hpull := addAlignments_calls _ _ _ pulled hpulled
  rw [deannealing_skipped m cCIP terminateRecursion s.loop s.minimumBlockLength
    s.minimumChainLength fuel _ hd] at hsteps
  simp only [Except.ok.injEq, Prod.mk.injEq] at hsteps
  have hnone : round.deannealing = [] := hsteps.2.symm
  refine ⟨hnone, ?_⟩
  intro blocksToUndo hcall
  unfold Round.calls at hcall
  rw [hnone] at hcall
  simp only [List.map_nil, List.flatten_nil, List.append_nil, List.mem_append] at hcall
  rcases hcall with hm | hclosing
  · rw [hmerging] at hm
    simp only [cactusCorePipeline_2, List.mem_append, List.mem_cons, List.mem_singleton,
      List.not_mem_nil, or_false] at hm
    have hp : Call.removeOverAlignedEdges blocksToUndo ∈ pulled := by
      rcases hm with ((((h1 | h1 | h1) | h1 | h1) | h1) | h1 | h1 | h1) | h1
      all_goals first | exact h1 | cases h1
    rcases hpull _ hp with h2 | ⟨_, _, _, _, h2, _⟩ <;> cases h2
  · cases continues with
    | true =>
      rw [(hgo rfl).2.1] at hclosing
      simp only [List.mem_cons, List.mem_singleton, List.not_mem_nil, or_false] at hclosing
      rcases hclosing with h2 | h2 <;> cases h2
    | false =>
      rw [(hstop rfl).2.1] at hclosing
      simp only [List.mem_singleton] at hclosing
      cases hclosing

/-- The default configuration with at most two de-annealing rounds is an
admissible input with a budget of two steps. -/
theorem scenarioDeannealing_admissible (d : ℚ) (hd : d ≤ 2) :
    Admissible false scenarioModules 2 scenarioFlower (scenarioDeannealing d) where
  notBuilt := rfl
  debugChecks := by
    intro h
    cases h
  trimNonneg := by
    show (0 : Int) ≤ 0
    decide
  chainLengthNonneg := by
    show (0 : Int) ≤ 0
    decide
  equalLengths := by
    intro w pairwiseAlignment ha pair hp
    simp only [scenarioModules, List.mem_singleton] at ha
    subst ha
    simp only [List.mem_singleton] at hp
    subst hp
    decide
  bases := scenarioFlower_bases
  outerFuel := by
    show (1 : Int) ≤ ((2 : Nat) : Int)
    decide
  innerFuel := by
    simp only [scenarioDeannealing]
    exact_mod_cast hd
  fuelPos := by decide

/-- C21. With `deannealingRounds > 0` and a minimum chain length that is not
negative, the arithmetic taken exactly, the de-annealing loop of a round ends
after finitely many passes: there is a number of passes, `passes`, such
that within every budget of at least that many steps the loop runs to its end,
with one and the same result, which has that many passes. With
`deannealingRounds ≤ 0` the loop is not entered, whatever the budget: the
de-annealing makes no pass and leaves the state as it is, and in a completed
run of the pipeline no round has a de-annealing pass or a call of
`removeOverAlignedEdges`, so no block is undone. -/
theorem deannealing_terminates {W B : Type} [DecidableEq B] (m : Modules W B)
    (cCIP : CactusCoreInputParameters) (terminateRecursion : Int) :
    (0 < cCIP.deannealingRounds →
      ∀ (loop : Int) (minimumBlockLength minimumChainLength : ℚ) (w : W),
        0 ≤ minimumChainLength →
        ∃ w1 steps,
          steps.length = passes cCIP.deannealingRounds minimumChainLength ∧
          ∀ fuel, passes cCIP.deannealingRounds minimumChainLength ≤ fuel →
            deannealing m cCIP terminateRecursion loop minimumBlockLength
              minimumChainLength fuel w = .ok (w1, steps)) ∧
    (cCIP.deannealingRounds ≤ 0 →
      (∀ (loop : Int) (minimumBlockLength minimumChainLength : ℚ) (fuel : Nat) (w : W),
        deannealing m cCIP terminateRecursion loop minimumBlockLength minimumChainLength
          fuel w = .ok (w, [])) ∧
      ∀ (benDebug : Bool) (fuel : Nat) (w : W) (flower : Flower) (run : Run W B),
        cactusCorePipeline benDebug m fuel w flower cCIP terminateRecursion = .ok run →
        ∀ round ∈ run.rounds,
          round.deannealing = [] ∧
          ∀ blocksToUndo, Call.removeOverAlignedEdges blocksToUndo ∉ round.calls) := by
  refine ⟨?_, ?_⟩
  · intro hd loop minimumBlockLength minimumChainLength w hm
    obtain ⟨w1, steps, hrun, hcut, -, -⟩ :=
      deannealing_run m cCIP terminateRecursion loop minimumBlockLength minimumChainLength
        (passes cCIP.deannealingRounds minimumChainLength) w hd hm (le_refl _)
    refine ⟨w1, steps, ?_, ?_⟩
    · have hlen := congrArg List.length hcut
      rw [cutoffs_length] at hlen
      simpa using hlen
    · intro fuel hfuel
      unfold deannealing at hrun ⊢
      rw [if_pos hd] at hrun ⊢
      exact deannealingLoop_fuel m cCIP terminateRecursion loop minimumBlockLength
        minimumChainLength _ _ _ _ _ hrun fuel hfuel
  · intro hd
    refine ⟨?_, ?_⟩
    · intro loop minimumBlockLength minimumChainLength fuel w
      exact deannealing_skipped m cCIP terminateRecursion loop minimumBlockLength
        minimumChainLength fuel w hd
    · intro benDebug fuel w flower run hrun round hround
      obtain ⟨r, hr⟩ := List.getElem?_of_mem hround
      obtain ⟨-, s1, continues, hstep, -⟩ :=
        cactusCorePipeline_round benDebug m fuel w flower cCIP terminateRecursion run hrun r
          round hr
      exact annealingRound_skipped m flower cCIP terminateRecursion fuel round.entry s1 round
        continues hstep hd

/-- C21 on the scenarios. With three de-annealing rounds and a minimum chain
length of 6 the loop ends after three passes within every budget of at least
three steps. With no de-annealing round the loop is not entered, and the run of
the pipeline on the scenario flower has no de-annealing pass and undoes no
block. -/
theorem deannealing_terminates_witness :
    (∃ w1 steps,
      steps.length = 3 ∧
      ∀ fuel, 3 ≤ fuel →
        deannealing scenarioModules (scenarioDeannealing 3) 0 0 0 6 fuel () =
          .ok (w1, steps)) ∧
    (∀ fuel, deannealing scenarioModules (scenarioDeannealing 0) 0 0 0 6 fuel () =
      .ok ((), [])) ∧
    ∃ run,
      cactusCorePipeline false scenarioModules 2 () scenarioFlower (scenarioDeannealing 0)
        0 = .ok run ∧
      ∀ round ∈ run.rounds,
        round.deannealing = [] ∧
        ∀ blocksToUndo, Call.removeOverAlignedEdges blocksToUndo ∉ round.calls := by
  have hpasses : passes (scenarioDeannealing 3).deannealingRounds 6 = 3 := by
    norm_num [passes, scenarioDeannealing]
    rfl
  have hzero : (scenarioDeannealing 0).deannealingRounds ≤ 0 := by
    norm_num [scenarioDeannealing]
  refine ⟨?_, ?_, ?_⟩
  · obtain ⟨w1, steps, hlen, hrun⟩ :=
      (deannealing_terminates scenarioModules (scenarioDeannealing 3) 0).1
        (by norm_num [scenarioDeannealing]) 0 0 6 () (by norm_num)
    rw [hpasses] at hlen hrun
    exact ⟨w1, steps, hlen, hrun⟩
  · intro fuel
    exact ((deannealing_terminates scenarioModules (scenarioDeannealing 0) 0).2 hzero).1
      0 0 6 fuel ()
  · obtain ⟨run, hrun⟩ :=
      cactusCorePipeline_returns false scenarioModules 2 () scenarioFlower
        (scenarioDeannealing 0) 0 (scenarioDeannealing_admissible 0 (by norm_num))
    exact ⟨run, hrun,
      ((deannealing_terminates scenarioModules (scenarioDeannealing 0) 0).2 hzero).2
        false 2 () scenarioFlower run hrun⟩

end Cactus
